import Mathlib

/-!
# rlite: IPC process registry and control channel

A shallow embedding of `kernel/rina-ctrl-main.c`.  The registry `rina_dm` is
an explicit value passed through every operation.  Heap objects that the code
compares by address (`struct ipcp_entry *`) carry that address in the field
`self`.  The outcome of every allocator call (`kmalloc`, `factory->create()`)
is an explicit argument of the operation that makes the call, and every call
through an operation-table function pointer is reported in the `calls` of the
result.  The registry lock and `printk` have no counterpart: the embedding is
sequential.
-/

namespace Rlite

/-! ## Constants -/

def EINVAL : Int := 22
def ENOMEM : Int := 12
def EBUSY : Int := 16

def IPCP_ID_BITMAP_SIZE : Nat := 1024
def IPCP_HASHTABLE_BITS : Nat := 7

/-- Number of buckets of `DECLARE_HASHTABLE(ipcp_table, IPCP_HASHTABLE_BITS)`. -/
abbrev IPCP_HASH_SIZE : Nat := 128

def RINA_CTRL_CREATE_IPCP : Nat := 1
def RINA_CTRL_CREATE_IPCP_RESP : Nat := 2
def RINA_CTRL_DESTROY_IPCP : Nat := 3
def RINA_CTRL_DESTROY_IPCP_RESP : Nat := 4
def RINA_CTRL_FETCH_IPCP : Nat := 5
def RINA_CTRL_FETCH_IPCP_RESP : Nat := 6
def RINA_CTRL_ASSIGN_TO_DIF : Nat := 7
def RINA_CTRL_ASSIGN_TO_DIF_RESP : Nat := 8
def RINA_CTRL_MSG_MAX : Nat := 9

/-! ## Data model -/

/-- The four `char *` parts of `struct rina_name`; `none` is a NULL pointer. -/
structure rina_name where
  apn : Option String
  api : Option String
  aen : Option String
  aei : Option String
deriving DecidableEq, Repr

/-- A `struct rina_name` after `memset(.., 0, ..)`. -/
def rina_name_zero : rina_name := ⟨none, none, none, none⟩

/-- The operation table `struct ipcp_ops`: nullable function pointers, each
identified by its code address.  The fields are those the factories of
`rina-normal.c` and `rina-shim-dummy.c` fill in. -/
structure ipcp_ops where
  destroy : Option Nat
  application_register : Option Nat
  application_unregister : Option Nat
  assign_to_dif : Option Nat
  flow_allocate_req : Option Nat
  flow_allocate_resp : Option Nat
  sdu_write : Option Nat
  config : Option Nat
  pduft_set : Option Nat
  mgmt_sdu_write : Option Nat
  sdu_rx : Option Nat
deriving DecidableEq, Repr

/-- An operation table after `memset(.., 0, ..)`. -/
def ipcp_ops_zero : ipcp_ops :=
  ⟨none, none, none, none, none, none, none, none, none, none, none⟩

/-- The `struct ipcp_factory` of one DIF type. -/
structure ipcp_factory where
  dif_type : Nat
  create : Option Nat
  ops : ipcp_ops
deriving DecidableEq, Repr

/-- The `struct ipcp_entry` of one IPC process; `self` is the address of the
heap object, the identity that `ipcp_fetch_last` is compared with. -/
structure ipcp_entry where
  self : Nat
  id : Nat
  name : rina_name
  dif_name : rina_name
  dif_type : Nat
  ops : ipcp_ops
  priv : Nat
deriving DecidableEq, Repr

/-- The registry `struct rina_dm` (without its lock). -/
structure rina_dm where
  ipcp_id_bitmap : Nat
  ipcp_table : Fin IPCP_HASH_SIZE → List ipcp_entry
  ipcp_fetch_last : Option Nat
  ipcp_factories : List ipcp_factory

/-- The registry as `rina_ctrl_init` leaves it. -/
def rina_dm_init : rina_dm where
  ipcp_id_bitmap := 0
  ipcp_table := fun _ => []
  ipcp_fetch_last := none
  ipcp_factories := []

/-- One call made through an operation-table function pointer:
`ops.destroy(priv)` with `fn` the address stored in `ops.destroy`. -/
structure ops_call where
  fn : Nat
  priv : Nat
deriving DecidableEq, Repr

/-- The guarded call `if (ops.destroy) ops.destroy(priv);`. -/
def call_destroy (ops : ipcp_ops) (priv : Nat) : List ops_call :=
  match ops.destroy with
  | some fn => [⟨fn, priv⟩]
  | none => []

/-! ## Kernel library: bitmaps (`lib/bitmap.c`, `lib/find_next_bit.c`) -/

/-- Scan of `find_next_zero_bit`: `n` positions from `i` on. -/
def find_next_zero_bit_scan (map size : Nat) : Nat → Nat → Nat
  | 0, _ => size
  | n + 1, i => if map.testBit i then find_next_zero_bit_scan map size n (i + 1) else i

/-- The kernel routine `find_next_zero_bit(map, size, offset)`: the lowest
index in `[offset, size)` whose bit is clear, `size` when there is none. -/
def find_next_zero_bit (map size offset : Nat) : Nat :=
  find_next_zero_bit_scan map size (size - offset) offset

/-- Scan of `find_next_bit`: `n` positions from `i` on. -/
def find_next_bit_scan (map size : Nat) : Nat → Nat → Nat
  | 0, _ => size
  | n + 1, i => if map.testBit i then i else find_next_bit_scan map size n (i + 1)

/-- The kernel routine `find_next_bit(map, size, offset)`: the lowest index in
`[offset, size)` whose bit is set, `size` when there is none. -/
def find_next_bit (map size offset : Nat) : Nat :=
  find_next_bit_scan map size (size - offset) offset

/-- The kernel expression `__ALIGN_MASK(x, mask)`, that is
`(x + mask) & ~mask`. -/
def ALIGN_MASK (x mask : Nat) : Nat :=
  (x + mask) - ((x + mask) &&& mask)

/-- The loop of `bitmap_find_next_zero_area`; each `goto again` consumes one
unit of `fuel` and strictly increases `start`. -/
def bitmap_find_next_zero_area_loop (map size nr align_mask : Nat) : Nat → Nat → Nat
  | 0, start => start + nr
  | fuel + 1, start =>
    let index := ALIGN_MASK (find_next_zero_bit map size start) align_mask
    let last := index + nr
    if last > size then last
    else
      let i := find_next_bit map last index
      if i < last then bitmap_find_next_zero_area_loop map size nr align_mask fuel (i + 1)
      else index

/-- The kernel routine `bitmap_find_next_zero_area(map, size, start, nr,
align_mask)`: the start of the first run of `nr` clear bits, or a value above
`size` when there is none.  `start` grows at every retry and a retry needs
`start < size`, so `size + 1` rounds are enough. -/
def bitmap_find_next_zero_area (map size start nr align_mask : Nat) : Nat :=
  bitmap_find_next_zero_area_loop map size nr align_mask (size + 1) start

/-- The kernel routine `bitmap_set(map, start, nr)`. -/
def bitmap_set (map start nr : Nat) : Nat :=
  map ||| ((2 ^ nr - 1) <<< start)

/-- The kernel routine `bitmap_clear(map, start, nr)`: `map & ~mask`. -/
def bitmap_clear (map start nr : Nat) : Nat :=
  map ^^^ (map &&& ((2 ^ nr - 1) <<< start))

/-! ## Kernel library: hash tables (`linux/hashtable.h`)

`hash_min(key, 7)` is kernel code whose constant depends on the kernel
version; the embedding takes it as the parameter `hash_min`, a function into
the 128 bucket indices. -/

/-- The 32-bit multiplicative hash `hash_32(val, 7)` with the constant
`GOLDEN_RATIO_PRIME_32` of the kernels the module was written for: the top 7
bits of the 32-bit product.  A concrete instance of the parameter `hash_min`;
the final reduction modulo 128 does not change the value. -/
def hash_32 (val : Nat) : Fin IPCP_HASH_SIZE :=
  ⟨((val * 0x9e370001) % 2 ^ 32) >>> 25 % IPCP_HASH_SIZE, Nat.mod_lt _ (by decide)⟩

/-- The macro `hash_add(table, node, key)`: `hlist_add_head` on the bucket of
`key`. -/
def hash_add (hash_min : Nat → Fin IPCP_HASH_SIZE)
    (table : Fin IPCP_HASH_SIZE → List ipcp_entry) (entry : ipcp_entry) (key : Nat) :
    Fin IPCP_HASH_SIZE → List ipcp_entry :=
  Function.update table (hash_min key) (entry :: table (hash_min key))

/-- The entries in the order `hash_for_each` visits them: bucket 0 to bucket
127, each chain from its head. -/
def hash_entries (table : Fin IPCP_HASH_SIZE → List ipcp_entry) : List ipcp_entry :=
  (List.finRange IPCP_HASH_SIZE).flatMap table

/-! ## Factories -/

/-- The function `ipcp_factories_find`. -/
def ipcp_factories_find (dm : rina_dm) (dif_type : Nat) : Option ipcp_factory :=
  dm.ipcp_factories.find? (fun factory => factory.dif_type == dif_type)

/-- The function `rina_ipcp_factory_register`; `factory = none` is a NULL
argument and `kmalloc_ok` tells whether the allocation of the copy succeeds. -/
def rina_ipcp_factory_register (dm : rina_dm) (factory : Option ipcp_factory)
    (kmalloc_ok : Bool) : Int × rina_dm :=
  match factory with
  | none => (-EINVAL, dm)
  | some fac =>
    if fac.create.isNone then (-EINVAL, dm)
    else if (ipcp_factories_find dm fac.dif_type).isSome then (-EBUSY, dm)
    else if !kmalloc_ok then (-ENOMEM, dm)
    else (0, { dm with ipcp_factories := dm.ipcp_factories ++ [fac] })

/-- The function `rina_ipcp_factory_unregister`: `list_del` of the node that
`ipcp_factories_find` returned. -/
def rina_ipcp_factory_unregister (dm : rina_dm) (dif_type : Nat) : Int × rina_dm :=
  match ipcp_factories_find dm dif_type with
  | none => (-EINVAL, dm)
  | some _ =>
    (0, { dm with
          ipcp_factories := dm.ipcp_factories.eraseP (fun factory => factory.dif_type == dif_type) })

/-! ## Control messages and the session -/

/-- The request `struct rina_msg_ipcp_create`. -/
structure rina_msg_ipcp_create where
  msg_type : Nat
  event_id : Nat
  dif_type : Nat
  name : rina_name
deriving DecidableEq, Repr

/-- The response `struct rina_msg_ipcp_create_resp`. -/
structure rina_msg_ipcp_create_resp where
  msg_type : Nat
  event_id : Nat
  ipcp_id : Nat
deriving DecidableEq, Repr

/-- The request `struct rina_msg_ipcp_destroy`. -/
structure rina_msg_ipcp_destroy where
  msg_type : Nat
  event_id : Nat
  ipcp_id : Nat
deriving DecidableEq, Repr

/-- The response `struct rina_msg_ipcp_destroy_resp`. -/
structure rina_msg_ipcp_destroy_resp where
  msg_type : Nat
  event_id : Nat
  result : Nat
deriving DecidableEq, Repr

/-- The header `struct rina_msg_base`, which is the whole FETCH_IPCP
request. -/
structure rina_msg_base where
  msg_type : Nat
  event_id : Nat
deriving DecidableEq, Repr

/-- The response `struct rina_msg_fetch_ipcp_resp`. -/
structure rina_msg_fetch_ipcp_resp where
  msg_type : Nat
  event_id : Nat
  xend : Nat
  ipcp_id : Nat
  dif_type : Nat
  ipcp_name : rina_name
  dif_name : rina_name
deriving DecidableEq, Repr

/-- The request `struct rina_msg_assign_to_dif`. -/
structure rina_msg_assign_to_dif where
  msg_type : Nat
  event_id : Nat
  ipcp_id : Nat
  dif_name : rina_name
deriving DecidableEq, Repr

/-- The response `struct rina_msg_assign_to_dif_resp`. -/
structure rina_msg_assign_to_dif_resp where
  msg_type : Nat
  event_id : Nat
  result : Nat
deriving DecidableEq, Repr

/-- What a `struct rina_msg_base *` can point to: one of the typed
messages. -/
inductive rina_msg where
  | ipcp_create (m : rina_msg_ipcp_create)
  | ipcp_create_resp (m : rina_msg_ipcp_create_resp)
  | ipcp_destroy (m : rina_msg_ipcp_destroy)
  | ipcp_destroy_resp (m : rina_msg_ipcp_destroy_resp)
  | fetch_ipcp (m : rina_msg_base)
  | fetch_ipcp_resp (m : rina_msg_fetch_ipcp_resp)
  | assign_to_dif (m : rina_msg_assign_to_dif)
  | assign_to_dif_resp (m : rina_msg_assign_to_dif_resp)
deriving DecidableEq, Repr

/-- One node of the delivery queue, `struct upqueue_entry`. -/
structure upqueue_entry where
  sermsg : List Nat
  serlen : Nat
deriving DecidableEq, Repr

/-- The session `struct rina_ctrl`: its delivery queue, head first.  The
scratch buffer `msgbuf` holds the request only while it is handled. -/
structure rina_ctrl where
  upqueue : List upqueue_entry
deriving DecidableEq, Repr

/-- The function `rina_upqueue_append`.  The serializer `serialize_rina_msg`
belongs to the codec, which is outside `kernel/rina-ctrl-main.c`: it is a
parameter, and the length it returns is the number of bytes it wrote.
`entry_ok` and `serbuf_ok` are the outcomes of the two `kmalloc` calls. -/
def rina_upqueue_append (serialize_rina_msg : rina_msg → List Nat) (rc : rina_ctrl)
    (rmsg : rina_msg) (entry_ok serbuf_ok : Bool) : Int × rina_ctrl :=
  if !entry_ok then (-ENOMEM, rc)
  else if !serbuf_ok then (-ENOMEM, rc)
  else
    let serbuf := serialize_rina_msg rmsg
    (0, { rc with upqueue := rc.upqueue ++ [⟨serbuf, serbuf.length⟩] })

/-! ## The registry operations -/

/-- What `ipcp_add` leaves behind: its return value, the value of `*ipcp_id`,
the registry and the calls made through the operation table. -/
structure ipcp_add_result where
  ret : Int
  ipcp_id : Nat
  dm : rina_dm
  calls : List ops_call

/-- The function `ipcp_add`.  `ipcp_id` is the value of `*ipcp_id` at entry
(the caller leaves it uninitialised), `create_ret` is what `factory->create()`
returns and `entry_alloc` what `kmalloc(sizeof(*entry))` returns, `none` being
NULL.  `entry->id` is a `uint16_t`. -/
def ipcp_add (hash_min : Nat → Fin IPCP_HASH_SIZE) (dm : rina_dm)
    (req : rina_msg_ipcp_create) (ipcp_id : Nat)
    (create_ret entry_alloc : Option Nat) : ipcp_add_result :=
  match ipcp_factories_find dm req.dif_type with
  | none => ⟨-EINVAL, ipcp_id, dm, []⟩
  | some factory =>
    match create_ret with
    | none => ⟨-ENOMEM, ipcp_id, dm, []⟩
    | some ipcp_priv =>
      match entry_alloc with
      | none => ⟨-ENOMEM, ipcp_id, dm, call_destroy factory.ops ipcp_priv⟩
      | some addr =>
        let id := bitmap_find_next_zero_area dm.ipcp_id_bitmap IPCP_ID_BITMAP_SIZE 0 1 0 % 2 ^ 16
        if id < IPCP_ID_BITMAP_SIZE then
          let entry : ipcp_entry :=
            { self := addr, id := id, name := req.name, dif_name := rina_name_zero,
              dif_type := req.dif_type, ops := factory.ops, priv := ipcp_priv }
          ⟨0, id,
           { dm with
             ipcp_id_bitmap := bitmap_set dm.ipcp_id_bitmap id 1
             ipcp_table := hash_add hash_min dm.ipcp_table entry id },
           []⟩
        else
          ⟨0, id, dm, call_destroy factory.ops ipcp_priv⟩

/-- What `ipcp_del` leaves behind. -/
structure ipcp_del_result where
  result : Nat
  dm : rina_dm
  calls : List ops_call

/-- The function `ipcp_del`.  The loop stops at the first entry of the bucket
whose id is `ipcp_id`; `hash_del` unlinks that node.  `bitmap_clear` runs
whether or not an entry was found. -/
def ipcp_del (hash_min : Nat → Fin IPCP_HASH_SIZE) (dm : rina_dm) (ipcp_id : Nat) :
    ipcp_del_result :=
  if ipcp_id ≥ IPCP_ID_BITMAP_SIZE then ⟨1, dm, []⟩
  else
    let head := hash_min ipcp_id
    match (dm.ipcp_table head).find? (fun entry => entry.id == ipcp_id) with
    | some entry =>
      ⟨0,
       { dm with
         ipcp_table := Function.update dm.ipcp_table head
           ((dm.ipcp_table head).eraseP (fun entry => entry.id == ipcp_id))
         ipcp_fetch_last :=
           if dm.ipcp_fetch_last = some entry.self then none else dm.ipcp_fetch_last
         ipcp_id_bitmap := bitmap_clear dm.ipcp_id_bitmap ipcp_id 1 },
       call_destroy entry.ops entry.priv⟩
    | none =>
      ⟨1, { dm with ipcp_id_bitmap := bitmap_clear dm.ipcp_id_bitmap ipcp_id 1 }, []⟩

/-- What a message handler leaves behind: its return value, the session, the
registry and the calls made through operation tables. -/
structure handler_result where
  ret : Int
  rc : rina_ctrl
  dm : rina_dm
  calls : List ops_call

/-- The handler `rina_ipcp_create`.  `ipcp_id` is the indeterminate initial
value of the local variable, `resp_ok` the outcome of `kmalloc(sizeof(*resp))`,
`entry_ok` and `serbuf_ok` those of the allocations in
`rina_upqueue_append`. -/
def rina_ipcp_create (hash_min : Nat → Fin IPCP_HASH_SIZE)
    (serialize_rina_msg : rina_msg → List Nat) (rc : rina_ctrl) (dm : rina_dm)
    (req : rina_msg_ipcp_create) (ipcp_id : Nat) (create_ret entry_alloc : Option Nat)
    (resp_ok entry_ok serbuf_ok : Bool) : handler_result :=
  let a := ipcp_add hash_min dm req ipcp_id create_ret entry_alloc
  if a.ret ≠ 0 then ⟨a.ret, rc, a.dm, a.calls⟩
  else if !resp_ok then
    let d := ipcp_del hash_min a.dm a.ipcp_id
    ⟨-ENOMEM, rc, d.dm, a.calls ++ d.calls⟩
  else
    let resp : rina_msg_ipcp_create_resp :=
      { msg_type := RINA_CTRL_CREATE_IPCP_RESP, event_id := req.event_id,
        ipcp_id := a.ipcp_id % 2 ^ 16 }
    let q := rina_upqueue_append serialize_rina_msg rc (rina_msg.ipcp_create_resp resp)
      entry_ok serbuf_ok
    if q.1 ≠ 0 then
      let d := ipcp_del hash_min a.dm a.ipcp_id
      ⟨q.1, rc, d.dm, a.calls ++ d.calls⟩
    else ⟨0, q.2, a.dm, a.calls⟩

/-- The handler `rina_ipcp_destroy`. -/
def rina_ipcp_destroy (hash_min : Nat → Fin IPCP_HASH_SIZE)
    (serialize_rina_msg : rina_msg → List Nat) (rc : rina_ctrl) (dm : rina_dm)
    (req : rina_msg_ipcp_destroy) (resp_ok entry_ok serbuf_ok : Bool) : handler_result :=
  if !resp_ok then ⟨-ENOMEM, rc, dm, []⟩
  else
    let d := ipcp_del hash_min dm req.ipcp_id
    let resp : rina_msg_ipcp_destroy_resp :=
      { msg_type := RINA_CTRL_DESTROY_IPCP_RESP, event_id := req.event_id, result := d.result }
    let q := rina_upqueue_append serialize_rina_msg rc (rina_msg.ipcp_destroy_resp resp)
      entry_ok serbuf_ok
    if q.1 ≠ 0 then ⟨q.1, rc, d.dm, d.calls⟩
    else ⟨0, q.2, d.dm, d.calls⟩

/-- The loop of `rina_ipcp_fetch` over the entries in `hash_for_each` order:
the entry at which the loop breaks, if any. -/
def fetch_scan (last : Option Nat) : Bool → List ipcp_entry → Option ipcp_entry
  | _, [] => none
  | stop_next, entry :: rest =>
    if stop_next then some entry
    else if last = some entry.self then fetch_scan last true rest
    else fetch_scan last false rest

/-- The handler `rina_ipcp_fetch`.  `resp_alloc` is the outcome of
`kmalloc(sizeof(*resp))`: NULL, or a response object with indeterminate
content, which is what the fields the handler does not write keep. -/
def rina_ipcp_fetch (serialize_rina_msg : rina_msg → List Nat) (rc : rina_ctrl)
    (dm : rina_dm) (req : rina_msg_base) (resp_alloc : Option rina_msg_fetch_ipcp_resp)
    (entry_ok serbuf_ok : Bool) : handler_result :=
  match resp_alloc with
  | none => ⟨-ENOMEM, rc, dm, []⟩
  | some resp0 =>
    let resp1 := { resp0 with msg_type := RINA_CTRL_FETCH_IPCP_RESP, event_id := req.event_id }
    let stop_next := dm.ipcp_fetch_last.isNone
    let found := fetch_scan dm.ipcp_fetch_last stop_next (hash_entries dm.ipcp_table)
    let resp : rina_msg_fetch_ipcp_resp :=
      match found with
      | some entry =>
        { resp1 with xend := 0, ipcp_id := entry.id, dif_type := entry.dif_type,
                     ipcp_name := entry.name, dif_name := entry.dif_name }
      | none =>
        { resp1 with xend := 1, ipcp_name := rina_name_zero, dif_name := rina_name_zero }
    let dm1 : rina_dm :=
      match found with
      | some entry => { dm with ipcp_fetch_last := some entry.self }
      | none => { dm with ipcp_fetch_last := none }
    let q := rina_upqueue_append serialize_rina_msg rc (rina_msg.fetch_ipcp_resp resp)
      entry_ok serbuf_ok
    if q.1 ≠ 0 then ⟨q.1, rc, dm1, []⟩
    else ⟨0, q.2, dm1, []⟩

/-- The loop of `rina_assign_to_dif` on one bucket, entered with
`resp->result = 1`: the first entry whose id is `ipcp_id` gets the new DIF
name, in place, and the result becomes 0. -/
def assign_scan (ipcp_id : Nat) (dif_name : rina_name) :
    List ipcp_entry → List ipcp_entry × Nat
  | [] => ([], 1)
  | entry :: rest =>
    if entry.id = ipcp_id then ({ entry with dif_name := dif_name } :: rest, 0)
    else (entry :: (assign_scan ipcp_id dif_name rest).1, (assign_scan ipcp_id dif_name rest).2)

/-- The handler `rina_assign_to_dif`. -/
def rina_assign_to_dif (hash_min : Nat → Fin IPCP_HASH_SIZE)
    (serialize_rina_msg : rina_msg → List Nat) (rc : rina_ctrl) (dm : rina_dm)
    (req : rina_msg_assign_to_dif) (resp_ok entry_ok serbuf_ok : Bool) : handler_result :=
  if !resp_ok then ⟨-ENOMEM, rc, dm, []⟩
  else
    let head := hash_min req.ipcp_id
    let scan := assign_scan req.ipcp_id req.dif_name (dm.ipcp_table head)
    let dm1 : rina_dm := { dm with ipcp_table := Function.update dm.ipcp_table head scan.1 }
    let resp : rina_msg_assign_to_dif_resp :=
      { msg_type := RINA_CTRL_ASSIGN_TO_DIF_RESP, event_id := req.event_id,
        result := scan.2 }
    let q := rina_upqueue_append serialize_rina_msg rc (rina_msg.assign_to_dif_resp resp)
      entry_ok serbuf_ok
    if q.1 ≠ 0 then ⟨q.1, rc, dm1, []⟩
    else ⟨0, q.2, dm1, []⟩

/-! ## The control device: `rina_ctrl_write` and `rina_ctrl_read` -/

def EFAULT : Int := 14
def ENOBUFS : Int := 105
def ERESTARTSYS : Int := 512

/-- The size of `rina_msg_t`, a `uint16_t`. -/
def sizeof_rina_msg_t : Nat := 2

/-- The size of the packed header `struct rina_ctrl_base_msg`: the message
type (`uint16_t`) and the event id (`uint32_t`). -/
def sizeof_rina_ctrl_base_msg : Nat := 6

/-- The scratch buffer `rc->msgbuf` after `deserialize_rina_msg`, as the
handlers see it: every message begins with `msg_type` and `event_id`, and each
handler reads the rest through its own cast.  `dif_type` and `name` are what
the cast to `struct rina_msg_ipcp_create` sees, `destroy_ipcp_id` what the cast
to `struct rina_msg_ipcp_destroy` sees, `assign_ipcp_id` and `dif_name` what
the cast to `struct rina_msg_assign_to_dif` sees. -/
structure msgbuf where
  msg_type : Nat
  event_id : Nat
  dif_type : Nat
  name : rina_name
  destroy_ipcp_id : Nat
  assign_ipcp_id : Nat
  dif_name : rina_name
deriving DecidableEq, Repr

/-- The cast `(struct rina_msg_ipcp_create *)bmsg`. -/
def msgbuf.as_ipcp_create (b : msgbuf) : rina_msg_ipcp_create :=
  ⟨b.msg_type, b.event_id, b.dif_type, b.name⟩

/-- The cast `(struct rina_msg_ipcp_destroy *)bmsg`. -/
def msgbuf.as_ipcp_destroy (b : msgbuf) : rina_msg_ipcp_destroy :=
  ⟨b.msg_type, b.event_id, b.destroy_ipcp_id⟩

/-- The header `struct rina_msg_base` that `bmsg` points to. -/
def msgbuf.as_base (b : msgbuf) : rina_msg_base :=
  ⟨b.msg_type, b.event_id⟩

/-- The cast `(struct rina_msg_assign_to_dif *)bmsg`. -/
def msgbuf.as_assign_to_dif (b : msgbuf) : rina_msg_assign_to_dif :=
  ⟨b.msg_type, b.event_id, b.assign_ipcp_id, b.dif_name⟩

/-- The values a slot of `rina_handlers` can hold besides NULL: the four
handler functions. -/
inductive rina_msg_handler_t where
  | ipcp_create
  | ipcp_destroy
  | ipcp_fetch
  | assign_to_dif
deriving DecidableEq, Repr

/-- The table `rina_handlers`: its designated initializers fill the slots of
the four request types and name slot `RINA_CTRL_MSG_MAX`, so the array has
`RINA_CTRL_MSG_MAX + 1` slots and the others are NULL. -/
def rina_handlers : List (Option rina_msg_handler_t) :=
  [none, some .ipcp_create, none, some .ipcp_destroy, none, some .ipcp_fetch, none,
   some .assign_to_dif, none, none]

/-- What the kernel answers to the allocations a handler makes: the
indeterminate value of the local `ipcp_id` of `rina_ipcp_create`, the results
of `factory->create()` and of the entry `kmalloc` in `ipcp_add`, the result of
the response `kmalloc` (for `rina_ipcp_fetch` with the indeterminate content
of the object), and the results of the two `kmalloc` calls of
`rina_upqueue_append`. -/
structure handler_env where
  ipcp_id : Nat
  create_ret : Option Nat
  entry_alloc : Option Nat
  resp_ok : Bool
  fetch_resp_alloc : Option rina_msg_fetch_ipcp_resp
  entry_ok : Bool
  serbuf_ok : Bool
deriving DecidableEq, Repr

/-- The call `rina_handlers[bmsg->msg_type](rc, bmsg)` for the handler that
the slot holds. -/
def call_handler (hash_min : Nat → Fin IPCP_HASH_SIZE)
    (serialize_rina_msg : rina_msg → List Nat) (h : rina_msg_handler_t) (rc : rina_ctrl)
    (dm : rina_dm) (bmsg : msgbuf) (k : handler_env) : handler_result :=
  match h with
  | .ipcp_create =>
    rina_ipcp_create hash_min serialize_rina_msg rc dm bmsg.as_ipcp_create k.ipcp_id
      k.create_ret k.entry_alloc k.resp_ok k.entry_ok k.serbuf_ok
  | .ipcp_destroy =>
    rina_ipcp_destroy hash_min serialize_rina_msg rc dm bmsg.as_ipcp_destroy k.resp_ok
      k.entry_ok k.serbuf_ok
  | .ipcp_fetch =>
    rina_ipcp_fetch serialize_rina_msg rc dm bmsg.as_base k.fetch_resp_alloc k.entry_ok
      k.serbuf_ok
  | .assign_to_dif =>
    rina_assign_to_dif hash_min serialize_rina_msg rc dm bmsg.as_assign_to_dif k.resp_ok
      k.entry_ok k.serbuf_ok

/-- What `rina_ctrl_write` leaves behind: its return value, `*ppos`, the
session, the registry, the calls made through operation tables, whether
`deserialize_rina_msg` was invoked, and the handler that was invoked, if
any. -/
structure write_result where
  ret : Int
  ppos : Int
  rc : rina_ctrl
  dm : rina_dm
  calls : List ops_call
  parsed : Bool
  handler : Option rina_msg_handler_t

/-- The function `rina_ctrl_write`.  `ubuf` holds the `len` bytes at the user
address, so `len` is its length.  The deserializer belongs to the codec, which
is outside `kernel/rina-ctrl-main.c`: it is the parameter
`deserialize_rina_msg`, `none` being a nonzero return.  `kbuf_ok` and
`copy_ok` are the outcomes of `kmalloc(len)` and of `copy_from_user`.  The
slot of `rina_handlers` is read only when the guard `msg_type >
RINA_CTRL_MSG_MAX` has failed. -/
def rina_ctrl_write (hash_min : Nat → Fin IPCP_HASH_SIZE)
    (serialize_rina_msg : rina_msg → List Nat)
    (deserialize_rina_msg : List Nat → Option msgbuf) (rc : rina_ctrl) (dm : rina_dm)
    (ubuf : List Nat) (ppos : Int) (kbuf_ok copy_ok : Bool) (k : handler_env) : write_result :=
  if ubuf.length < sizeof_rina_msg_t then ⟨-EINVAL, ppos, rc, dm, [], false, none⟩
  else if !kbuf_ok then ⟨-ENOMEM, ppos, rc, dm, [], false, none⟩
  else if !copy_ok then ⟨-EFAULT, ppos, rc, dm, [], false, none⟩
  else
    match deserialize_rina_msg ubuf with
    | none => ⟨-EINVAL, ppos, rc, dm, [], true, none⟩
    | some bmsg =>
      if bmsg.msg_type > RINA_CTRL_MSG_MAX then ⟨-EINVAL, ppos, rc, dm, [], true, none⟩
      else
        match rina_handlers[bmsg.msg_type]? with
        | some (some h) =>
          let r := call_handler hash_min serialize_rina_msg h rc dm bmsg k
          if r.ret ≠ 0 then ⟨r.ret, ppos, r.rc, r.dm, r.calls, true, some h⟩
          else ⟨ubuf.length, ppos + ubuf.length, r.rc, r.dm, r.calls, true, some h⟩
        | _ => ⟨-EINVAL, ppos, rc, dm, [], true, none⟩

/-- One pass of the wait loop of `rina_ctrl_read` on an empty queue: whether
`signal_pending(current)` holds, and the entries that other contexts append
to the queue while the reader is in `schedule()`. -/
structure sleep_event where
  signal_pending : Bool
  appended : List upqueue_entry
deriving DecidableEq, Repr

/-- What `rina_ctrl_read` leaves behind: its return value, `*ppos`, the
session and the bytes copied to the user buffer, if any. -/
structure read_result where
  ret : Int
  ppos : Int
  rc : rina_ctrl
  ubuf : Option (List Nat)
deriving DecidableEq, Repr

/-- The function `rina_ctrl_read`.  `len` is the capacity of the user buffer
and `copy_ok` the outcome of `copy_to_user`.  On an empty queue the reader
sleeps; `events` lists what happens at each pass of the loop, and the result
is `none` when the reader is still asleep after the last of them. -/
def rina_ctrl_read (len : Nat) (ppos : Int) (copy_ok : Bool) :
    rina_ctrl → List sleep_event → Option read_result
  | rc, events =>
    if len = 0 then some ⟨0, ppos, rc, none⟩
    else
      match rc.upqueue, events with
      | entry :: rest, _ =>
        if len < entry.serlen then some ⟨-ENOBUFS, ppos, rc, none⟩
        else if !copy_ok then some ⟨-EFAULT, ppos, ⟨rest⟩, none⟩
        else some ⟨entry.serlen, ppos + entry.serlen, ⟨rest⟩, some (entry.sermsg.take entry.serlen)⟩
      | [], [] => none
      | [], ev :: later =>
        if ev.signal_pending then some ⟨-ERESTARTSYS, ppos, rc, none⟩
        else rina_ctrl_read len ppos copy_ok ⟨rc.upqueue ++ ev.appended⟩ later

/-- The header that the cast `(struct rina_msg_base *)` of a message sees:
every message struct begins with `msg_type` and `event_id`. -/
def rina_msg.base : rina_msg → rina_msg_base
  | .ipcp_create m => ⟨m.msg_type, m.event_id⟩
  | .ipcp_create_resp m => ⟨m.msg_type, m.event_id⟩
  | .ipcp_destroy m => ⟨m.msg_type, m.event_id⟩
  | .ipcp_destroy_resp m => ⟨m.msg_type, m.event_id⟩
  | .fetch_ipcp m => m
  | .fetch_ipcp_resp m => ⟨m.msg_type, m.event_id⟩
  | .assign_to_dif m => ⟨m.msg_type, m.event_id⟩
  | .assign_to_dif_resp m => ⟨m.msg_type, m.event_id⟩

/-- The bytes that `copy_to_user(buf, entry->sermsg, entry->serlen)` copies
for a queue node. -/
def upqueue_entry.bytes (e : upqueue_entry) : List Nat :=
  e.sermsg.take e.serlen

/-- One operation on the delivery queue of a session: a response is queued by
`rina_upqueue_append`, or the agent reads with a buffer of capacity `len`. -/
inductive session_op where
  | append (rmsg : rina_msg)
  | read (len : Nat)
deriving DecidableEq, Repr

/-- The byte strings that the reads of a sequence of queue operations return,
and the session afterwards.  Allocations and copies succeed; the result is
`none` as soon as a read does not return data (it would sleep on an empty
queue, or the buffer is too small). -/
def session_run (serialize_rina_msg : rina_msg → List Nat) :
    rina_ctrl → List session_op → Option (List (List Nat) × rina_ctrl)
  | rc, [] => some ([], rc)
  | rc, .append rmsg :: ops =>
    session_run serialize_rina_msg (rina_upqueue_append serialize_rina_msg rc rmsg true true).2 ops
  | rc, .read len :: ops =>
    match rina_ctrl_read len 0 true rc [] with
    | some r =>
      match r.ubuf with
      | some bytes => (session_run serialize_rina_msg r.rc ops).map fun p => (bytes :: p.1, p.2)
      | none => none
    | none => none

/-- The serialized responses that a sequence of queue operations appends, in
order. -/
def enqueued (serialize_rina_msg : rina_msg → List Nat) : List session_op → List (List Nat)
  | [] => []
  | .append rmsg :: ops => serialize_rina_msg rmsg :: enqueued serialize_rina_msg ops
  | .read _ :: ops => enqueued serialize_rina_msg ops

/-! ## Sequences of registry operations -/

/-- One operation on the registry, with the outcomes of its allocations. -/
inductive registry_op where
  | factory_register (factory : Option ipcp_factory) (kmalloc_ok : Bool)
  | factory_unregister (dif_type : Nat)
  | add (req : rina_msg_ipcp_create) (ipcp_id : Nat) (create_ret entry_alloc : Option Nat)
  | del (ipcp_id : Nat)
deriving DecidableEq, Repr

/-- The registry after one operation. -/
def registry_step (hash_min : Nat → Fin IPCP_HASH_SIZE) (dm : rina_dm) : registry_op → rina_dm
  | .factory_register factory kmalloc_ok => (rina_ipcp_factory_register dm factory kmalloc_ok).2
  | .factory_unregister dif_type => (rina_ipcp_factory_unregister dm dif_type).2
  | .add req ipcp_id create_ret entry_alloc =>
    (ipcp_add hash_min dm req ipcp_id create_ret entry_alloc).dm
  | .del ipcp_id => (ipcp_del hash_min dm ipcp_id).dm

/-- The registry after a sequence of operations. -/
def registry_run (hash_min : Nat → Fin IPCP_HASH_SIZE) (dm : rina_dm)
    (ops : List registry_op) : rina_dm :=
  ops.foldl (registry_step hash_min) dm

/-- The session and the registry after successive FETCH_IPCP requests: each
request comes with the indeterminate content of its freshly allocated
response, and every allocation succeeds. -/
def fetch_run (serialize_rina_msg : rina_msg → List Nat) :
    rina_ctrl → rina_dm → List (rina_msg_base × rina_msg_fetch_ipcp_resp) →
      rina_ctrl × rina_dm
  | rc, dm, [] => (rc, dm)
  | rc, dm, rq :: rest =>
    fetch_run serialize_rina_msg
      (rina_ipcp_fetch serialize_rina_msg rc dm rq.1 (some rq.2) true true).rc
      (rina_ipcp_fetch serialize_rina_msg rc dm rq.1 (some rq.2) true true).dm rest

/-- One step of a control session on the registry: an operation made directly
on the registry, or a call of one of the four message handlers on the content
`bmsg` of the scratch buffer with the allocation outcomes `k`. -/
inductive ctrl_op where
  | registry (op : registry_op)
  | handler (h : rina_msg_handler_t) (bmsg : msgbuf) (k : handler_env)

/-- The session and the registry after one step. -/
def ctrl_step (hash_min : Nat → Fin IPCP_HASH_SIZE)
    (serialize_rina_msg : rina_msg → List Nat) (s : rina_ctrl × rina_dm) :
    ctrl_op → rina_ctrl × rina_dm
  | .registry op => (s.1, registry_step hash_min s.2 op)
  | .handler h bmsg k =>
    ((call_handler hash_min serialize_rina_msg h s.1 s.2 bmsg k).rc,
     (call_handler hash_min serialize_rina_msg h s.1 s.2 bmsg k).dm)

/-- The session and the registry after a sequence of steps. -/
def ctrl_run (hash_min : Nat → Fin IPCP_HASH_SIZE)
    (serialize_rina_msg : rina_msg → List Nat) (s : rina_ctrl × rina_dm)
    (ops : List ctrl_op) : rina_ctrl × rina_dm :=
  ops.foldl (ctrl_step hash_min serialize_rina_msg) s

/-! ## Invariants -/

/-- The live entries of a registry, in table order. -/
def live (dm : rina_dm) : List ipcp_entry :=
  hash_entries dm.ipcp_table

/-- Consistency of the id bitmap with the process table: every entry sits in
the bucket of its id, ids are below the bitmap size, no bucket holds an id
twice, and a bit is set exactly when its id has an entry. -/
structure dm_inv (hash_min : Nat → Fin IPCP_HASH_SIZE) (dm : rina_dm) : Prop where
  bucket : ∀ b, ∀ e ∈ dm.ipcp_table b, hash_min e.id = b
  id_lt : ∀ b, ∀ e ∈ dm.ipcp_table b, e.id < IPCP_ID_BITMAP_SIZE
  nodup : ∀ b, ((dm.ipcp_table b).map ipcp_entry.id).Nodup
  bitmap : ∀ i, dm.ipcp_id_bitmap.testBit i = true ↔ ∃ e ∈ dm.ipcp_table (hash_min i), e.id = i

/-- Consistency of the factory list: every factory has a creation function
and no DIF type has two factories. -/
structure factories_inv (dm : rina_dm) : Prop where
  create : ∀ f ∈ dm.ipcp_factories, f.create.isSome = true
  nodup : (dm.ipcp_factories.map ipcp_factory.dif_type).Nodup

/-- Entries are distinct heap objects: no two live entries have the same
address. -/
def self_distinct (dm : rina_dm) : Prop :=
  ((live dm).map ipcp_entry.self).Nodup

/-- The fetch cursor is NULL or the address of an entry that is in the process
table. -/
def cursor_valid (dm : rina_dm) : Prop :=
  ∀ a, dm.ipcp_fetch_last = some a → ∃ e ∈ live dm, e.self = a

/-! ## Expected results

The values the properties below compare the results of the handlers with. -/

/-- What ASSIGN_TO_DIF does to one entry: the entry with the requested id gets
the requested DIF name, every other entry is left as it is. -/
def assign_entry (ipcp_id : Nat) (dif_name : rina_name) (e : ipcp_entry) : ipcp_entry :=
  if e.id = ipcp_id then { e with dif_name := dif_name } else e

/-- The queue node that `rina_upqueue_append` builds for a message. -/
def upqueue_node (serialize_rina_msg : rina_msg → List Nat) (m : rina_msg) : upqueue_entry :=
  ⟨serialize_rina_msg m, (serialize_rina_msg m).length⟩

/-- The FETCH_IPCP_RESP expected for the request `rq.1`, allocated with
content `rq.2`: for an entry, `end = 0` and the entry's id, DIF type, name and
DIF name; for no entry, `end = 1` and zeroed names (id and DIF type are not
written and keep the content of the allocation). -/
def fetch_resp (rq : rina_msg_base × rina_msg_fetch_ipcp_resp) :
    Option ipcp_entry → rina_msg_fetch_ipcp_resp
  | some e =>
    { msg_type := RINA_CTRL_FETCH_IPCP_RESP, event_id := rq.1.event_id, xend := 0,
      ipcp_id := e.id, dif_type := e.dif_type, ipcp_name := e.name, dif_name := e.dif_name }
  | none =>
    { msg_type := RINA_CTRL_FETCH_IPCP_RESP, event_id := rq.1.event_id, xend := 1,
      ipcp_id := rq.2.ipcp_id, dif_type := rq.2.dif_type, ipcp_name := rina_name_zero,
      dif_name := rina_name_zero }

/-! ## Concrete registries and requests -/

/-- The factory that `rina_shim_dummy_init` registers; the numbers stand for
the addresses of `rina_shim_dummy_create`, `rina_shim_dummy_destroy` and
`rina_shim_dummy_assign_to_dif`. -/
def shim_dummy_factory : ipcp_factory :=
  { dif_type := 2, create := some 0x1000,
    ops := { ipcp_ops_zero with destroy := some 0x1010, assign_to_dif := some 0x1020 } }

/-- The registry after `rina_ctrl_init` and `rina_shim_dummy_init`. -/
def dm_shim : rina_dm :=
  registry_run hash_32 rina_dm_init [registry_op.factory_register (some shim_dummy_factory) true]

/-- A CREATE_IPCP request for a shim-dummy IPC process named `apn`. -/
def create_req (event_id : Nat) (apn : String) : rina_msg_ipcp_create :=
  { msg_type := RINA_CTRL_CREATE_IPCP, event_id := event_id, dif_type := 2,
    name := ⟨some apn, some "1", none, none⟩ }

/-- The first `n` of a series of successful creations: the `i`-th one gets
private state `0x2000 + i` and entry address `0x100000 + i`. -/
def fill_ops (n : Nat) : List registry_op :=
  (List.range n).map fun i =>
    registry_op.add (create_req i "a.IPC") 0 (some (0x2000 + i)) (some (0x100000 + i))

/-- The registry after 1024 successful creations: every id is allocated. -/
def dm_full : rina_dm :=
  registry_run hash_32 dm_shim (fill_ops 1024)

/-- The registry after two successful creations: ids 0 and 1 are live. -/
def dm_two : rina_dm :=
  registry_run hash_32 dm_shim (fill_ops 2)

/-- An ASSIGN_TO_DIF request naming the DIF `test.DIF`. -/
def assign_req (event_id ipcp_id : Nat) : rina_msg_assign_to_dif :=
  { msg_type := RINA_CTRL_ASSIGN_TO_DIF, event_id := event_id, ipcp_id := ipcp_id,
    dif_name := ⟨some "test.DIF", none, none, none⟩ }

/-- A FETCH_IPCP request together with a zero-filled response allocation. -/
def fetch_req (event_id : Nat) : rina_msg_base × rina_msg_fetch_ipcp_resp :=
  (⟨RINA_CTRL_FETCH_IPCP, event_id⟩, ⟨0, 0, 0, 0, 0, rina_name_zero, rina_name_zero⟩)

/-- The entry that the first creation of `fill_ops` installs. -/
def entry_zero : ipcp_entry :=
  { self := 0x100000, id := 0, name := (create_req 0 "a.IPC").name, dif_name := rina_name_zero,
    dif_type := 2, ops := shim_dummy_factory.ops, priv := 0x2000 }

/-- The registry `dm_two` after one FETCH_IPCP: the cursor references the
first entry in table order. -/
def dm_two_fetched : rina_dm :=
  (fetch_run (fun _ => []) ⟨[]⟩ dm_two [fetch_req 1]).2

/-- A second shim-dummy factory with another creation function. -/
def shim_dummy_factory_bis : ipcp_factory :=
  { dif_type := 2, create := some 0x5000, ops := ipcp_ops_zero }

/-- A serializer for the examples: the message type and the event id, one
number each. -/
def header_codec (m : rina_msg) : List Nat :=
  [m.base.msg_type, m.base.event_id]

/-- A deserializer for the examples: the first two numbers are the message
type and the event id, the third, when present, is the id of the DESTROY_IPCP
and ASSIGN_TO_DIF views; shorter inputs are rejected. -/
def header_decoder : List Nat → Option msgbuf
  | t :: ev :: rest =>
    some ⟨t, ev, 2, rina_name_zero, rest.headD 0, rest.headD 0, rina_name_zero⟩
  | _ => none

/-- Allocations that all succeed. -/
def env_ok : handler_env :=
  { ipcp_id := 0, create_ret := some 0x2000, entry_alloc := some 0x3000, resp_ok := true,
    fetch_resp_alloc := some ⟨0, 0, 0, 0, 0, rina_name_zero, rina_name_zero⟩,
    entry_ok := true, serbuf_ok := true }

/-! ## The normal IPC process (`kernel/rina-normal.c`)

The file uses `struct ipcp_entry`, `struct flow_entry`, `struct rina_buf` and
`struct rina_pci` as a header that is not among the sources declares them; the
embedding gives each the fields that `rina-normal.c` reads and writes.  Kernel
objects live in a `memory` that maps addresses to their content, and the
chains of the forwarding table are kept as the kernel keeps them, by the
`next` and `pprev` pointers of `struct hlist_node`. -/

namespace Normal

def PDUFT_HASHTABLE_BITS : Nat := 3

/-- Number of buckets of `DECLARE_HASHTABLE(pdu_ft, PDUFT_HASHTABLE_BITS)`. -/
abbrev PDUFT_HASH_SIZE : Nat := 8

/-- The constants that `rina-normal.c` takes from headers that are not among
the sources. -/
structure rina_consts where
  sizeof_rina_pci : Nat
  PDU_TYPE_DT : Nat
  PDU_TYPE_MGMT : Nat
  RINA_MGMT_HDR_T_OUT_DST_ADDR : Nat
  RINA_MGMT_HDR_T_OUT_LOCAL_PORT : Nat
deriving DecidableEq, Repr

/-- The header `struct rina_pci`, with the fields that the file assigns. -/
structure rina_pci where
  dst_addr : Nat
  src_addr : Nat
  qos_id : Nat
  dst_cep : Nat
  src_cep : Nat
  pdu_type : Nat
  pdu_flags : Nat
  seqnum : Nat
deriving DecidableEq, Repr

/-- A buffer `struct rina_buf`: the headers in front of the payload, outermost
first, and the payload bytes. -/
structure rina_buf where
  pci : List rina_pci
  data : List Nat
deriving DecidableEq, Repr

/-- Modelled from the spec: the field `rb->len`, which grows by the size of a
header at each push and shrinks by it at each pop. -/
def rina_buf.len (c : rina_consts) (rb : rina_buf) : Nat :=
  rb.data.length + rb.pci.length * c.sizeof_rina_pci

/-- Modelled from the spec: the macro `rina_buf_pci_push` followed by the
assignments to the fields of `RINA_BUF_PCI(rb)`: a header is prepended. -/
def rina_buf_pci_push (rb : rina_buf) (pci : rina_pci) : rina_buf :=
  { rb with pci := pci :: rb.pci }

/-- Modelled from the spec: `RINA_BUF_PCI(rb)` followed by the macro
`rina_buf_pci_pop`: the leading header and the buffer without it, `none` for a
buffer that has no header in front. -/
def rina_buf_pci_pop (rb : rina_buf) : Option (rina_pci × rina_buf) :=
  match rb.pci with
  | [] => none
  | pci :: rest => some (pci, { rb with pci := rest })

/-- The address of a `struct hlist_node *` variable: the `first` field of a
bucket of the `pdu_ft` of the instance at `priv`, or the `next` field of the
`ftnode` of the flow at `node`. -/
inductive hlist_ref where
  | first (priv : Nat) (bkt : Fin PDUFT_HASH_SIZE)
  | next (node : Nat)
deriving DecidableEq, Repr

/-- The kernel's `struct hlist_node`; a node is identified with the flow that
contains it. -/
structure hlist_node where
  next : Option Nat
  pprev : Option hlist_ref
deriving DecidableEq, Repr

/-- The fields of `struct flow_entry` that the file uses. -/
structure flow_entry where
  local_port : Nat
  remote_port : Nat
  remote_addr : Nat
  next_seq_num_to_send : Nat
  txrx_ipcp : Option Nat
  upper_ipcp : Option Nat
  pduft_dest_addr : Nat
  ftnode : hlist_node
deriving DecidableEq, Repr

/-- The value of a function pointer of an operation table: NULL, the function
of `rina-normal.c` for that slot, or code outside these sources. -/
inductive ops_fn where
  | null
  | normal
  | other (code : Nat)
deriving DecidableEq, Repr

/-- The fields of `struct ipcp_entry` that the file uses: the address of the
instance, its private state and the two operations it calls through. -/
structure ipcp_entry where
  addr : Nat
  priv : Nat
  sdu_write : ops_fn
  sdu_rx : ops_fn
deriving DecidableEq, Repr

/-- The private state `struct rina_normal`: the first node of each bucket of
the forwarding table. -/
structure rina_normal where
  ipcp : Nat
  pdu_ft : Fin PDUFT_HASH_SIZE → Option Nat

/-- Kernel memory: the content of the instance, private-state and flow objects
at each address. -/
structure memory where
  ipcps : Nat → ipcp_entry
  normals : Nat → rina_normal
  flows : Nat → flow_entry

/-- The store `n->next = v`. -/
def set_next (mem : memory) (n : Nat) (v : Option Nat) : memory :=
  { mem with
    flows := Function.update mem.flows n
      { mem.flows n with ftnode := { (mem.flows n).ftnode with next := v } } }

/-- The store `n->pprev = v`. -/
def set_pprev (mem : memory) (n : Nat) (v : Option hlist_ref) : memory :=
  { mem with
    flows := Function.update mem.flows n
      { mem.flows n with ftnode := { (mem.flows n).ftnode with pprev := v } } }

/-- The store `h->first = v` for a bucket of a forwarding table. -/
def set_first (mem : memory) (priv : Nat) (bkt : Fin PDUFT_HASH_SIZE) (v : Option Nat) :
    memory :=
  { mem with
    normals := Function.update mem.normals priv
      { mem.normals priv with pdu_ft := Function.update (mem.normals priv).pdu_ft bkt v } }

/-- The store `*r = v` through a `struct hlist_node **`. -/
def hlist_store (mem : memory) (r : hlist_ref) (v : Option Nat) : memory :=
  match r with
  | .first priv bkt => set_first mem priv bkt v
  | .next node => set_next mem node v

/-- The kernel routine `hlist_del_init`, which is what `hash_del` calls: a
node with `pprev == NULL` is left alone; otherwise `*pprev = next`, the
`pprev` of the next node (if any) is redirected, and the node is
reinitialised. -/
def hash_del (mem : memory) (n : Nat) : memory :=
  match (mem.flows n).ftnode.pprev with
  | none => mem
  | some pprev =>
    let next := (mem.flows n).ftnode.next
    let mem1 := hlist_store mem pprev next
    let mem2 :=
      match next with
      | some x => set_pprev mem1 x (some pprev)
      | none => mem1
    set_pprev (set_next mem2 n none) n none

/-- The kernel routine `hlist_add_head(n, h)` on a bucket. -/
def hlist_add_head (mem : memory) (n priv : Nat) (bkt : Fin PDUFT_HASH_SIZE) : memory :=
  let first := (mem.normals priv).pdu_ft bkt
  let mem1 := set_next mem n first
  let mem2 :=
    match first with
    | some f => set_pprev mem1 f (some (.next n))
    | none => mem1
  set_pprev (set_first mem2 priv bkt (some n)) n (some (.first priv bkt))

/-- The 64-bit multiplicative hash `hash_64(val, 3)` with the constant
`GOLDEN_RATIO_PRIME_64`: the top 3 bits of the 64-bit product.  A concrete
instance of the bucket hash of the forwarding table, which is a parameter of
the embedding like the one of the process table. -/
def hash_64 (val : Nat) : Fin PDUFT_HASH_SIZE :=
  ⟨((val * 0x9e37fffffffc0001) % 2 ^ 64) >>> 61 % PDUFT_HASH_SIZE, Nat.mod_lt _ (by decide)⟩

/-- The loop `hlist_for_each_entry` of `pduft_lookup` from the node `pos`:
`some (some p)` when the flow at `p` is the first on the chain whose
`pduft_dest_addr` is `dest_addr`, `some none` when the chain ends without one,
and `none` when more than `fuel` nodes would be visited. -/
def pduft_scan (mem : memory) (dest_addr : Nat) : Nat → Option Nat → Option (Option Nat)
  | _, none => some none
  | 0, some _ => none
  | fuel + 1, some p =>
    if (mem.flows p).pduft_dest_addr = dest_addr then some (some p)
    else pduft_scan mem dest_addr fuel (mem.flows p).ftnode.next

/-- The function `pduft_lookup`, on the private state at `priv`. -/
def pduft_lookup (hash_min : Nat → Fin PDUFT_HASH_SIZE) (fuel : Nat) (mem : memory)
    (priv dest_addr : Nat) : Option (Option Nat) :=
  pduft_scan mem dest_addr fuel ((mem.normals priv).pdu_ft (hash_min dest_addr))

/-- The function `rina_normal_pduft_set`: its return value and the memory
afterwards, `none` when the lookup does not come to an end within `fuel`
nodes.  The node handed to `hash_del` is the one of `flow`. -/
def rina_normal_pduft_set (hash_min : Nat → Fin PDUFT_HASH_SIZE) (fuel : Nat) (mem : memory)
    (ipcp dest_addr flow : Nat) : Option (Int × memory) :=
  let priv := (mem.ipcps ipcp).priv
  match pduft_lookup hash_min fuel mem priv dest_addr with
  | none => none
  | some prev =>
    let mem1 := if prev.isSome then hash_del mem flow else mem
    let mem2 : memory :=
      { mem1 with
        flows := Function.update mem1.flows flow
          { mem1.flows flow with pduft_dest_addr := dest_addr } }
    some (0, hlist_add_head mem2 flow priv (hash_min dest_addr))

/-- The flows on the chain that starts at `pos`, at most `fuel` of them. -/
def hlist_chain (mem : memory) : Nat → Option Nat → List Nat
  | _, none => []
  | 0, some _ => []
  | fuel + 1, some p => p :: hlist_chain mem fuel (mem.flows p).ftnode.next

/-- The flows linked on the bucket of `dest_addr`, in chain order. -/
def pduft_bucket (hash_min : Nat → Fin PDUFT_HASH_SIZE) (fuel : Nat) (mem : memory)
    (priv dest_addr : Nat) : List Nat :=
  hlist_chain mem fuel ((mem.normals priv).pdu_ft (hash_min dest_addr))

/-- What the SDU paths do besides changing memory, in the order it happens:
`rina_buf_free(rb)`, a call of `ipcp->ops.sdu_write(ipcp, flow, rb)` on a lower
instance, a call of `ipcp->ops.sdu_rx(ipcp, rb)`, and the upward dispatch
`rina_sdu_rx(ipcp, rb, cep)`. -/
inductive sdu_event where
  | buf_free (rb : rina_buf)
  | sdu_write (ipcp flow : Nat) (rb : rina_buf)
  | sdu_rx (ipcp : Nat) (rb : rina_buf)
  | rina_sdu_rx (ipcp : Nat) (rb : rina_buf) (cep : Nat)
deriving DecidableEq, Repr

/-- The code outside `rina-normal.c` that the SDU paths call, by what it
returns: the upward dispatch `rina_sdu_rx(ipcp, rb, cep)`, the `sdu_write` and
`sdu_rx` operations of instances of other kinds, and `flow_lookup(port)`. -/
structure sdu_env where
  rina_sdu_rx : Nat → rina_buf → Nat → Int
  other_sdu_write : Nat → Nat → Nat → rina_buf → Int
  other_sdu_rx : Nat → Nat → rina_buf → Int
  flow_lookup : Nat → Option Nat

/-- What an SDU path leaves behind: its return value, the memory and the
events in order. -/
structure sdu_result where
  ret : Int
  mem : memory
  events : List sdu_event

/-- The conversion of a value to `int`. -/
def to_int (x : Int) : Int :=
  (x + 2 ^ 31) % 2 ^ 32 - 2 ^ 31

/-- The statement `if (ret >= sizeof(struct rina_pci)) ret -= sizeof(struct
rina_pci);` for an `int ret`: the comparison converts `ret` to the unsigned
64-bit `size_t`, and the difference is converted back to `int`. -/
def sub_pci_size (c : rina_consts) (ret : Int) : Int :=
  if (c.sizeof_rina_pci : Int) ≤ ret % 2 ^ 64 then to_int (ret - c.sizeof_rina_pci) else ret

/-- The function `rina_normal_sdu_rx`, `none` for a buffer without a header in
front. -/
def rina_normal_sdu_rx (c : rina_consts) (env : sdu_env) (ipcp : Nat) (rb : rina_buf) :
    Option (Int × List sdu_event) :=
  match rina_buf_pci_pop rb with
  | none => none
  | some (pci, rb1) =>
    if pci.pdu_type = c.PDU_TYPE_DT then
      some (env.rina_sdu_rx ipcp rb1 pci.dst_cep, [.rina_sdu_rx ipcp rb1 pci.dst_cep])
    else some (0, [.buf_free rb1])

/-- The header that `rina_normal_sdu_write` writes in front of the buffer. -/
def sdu_write_pci (c : rina_consts) (mem : memory) (ipcp flow : Nat) : rina_pci :=
  { dst_addr := (mem.flows flow).remote_addr, src_addr := (mem.ipcps ipcp).addr, qos_id := 0,
    dst_cep := (mem.flows flow).remote_port, src_cep := (mem.flows flow).local_port,
    pdu_type := c.PDU_TYPE_DT, pdu_flags := 0,
    seqnum := (mem.flows flow).next_seq_num_to_send }

/-- The post-increment `flow->dtp.next_seq_num_to_send++`. -/
def seq_num_incr (mem : memory) (flow : Nat) : memory :=
  { mem with
    flows := Function.update mem.flows flow
      { mem.flows flow with
        next_seq_num_to_send := (mem.flows flow).next_seq_num_to_send + 1 } }

/-- The function `rina_normal_sdu_write`.  `lfuel` bounds the nodes a lookup
visits and the first argument bounds the depth of the calls into lower
instances; the result is `none` when one of the two is exceeded, when
`BUG_ON(!lower_ipcp)` fires or when a NULL operation is called.  Code outside
these sources that is called through `ops.sdu_write` or `ops.sdu_rx`
contributes its return value. -/
def rina_normal_sdu_write (c : rina_consts) (hash_min : Nat → Fin PDUFT_HASH_SIZE)
    (env : sdu_env) (lfuel : Nat) : Nat → memory → Nat → Nat → rina_buf → Option sdu_result
  | 0, _, _, _, _ => none
  | depth + 1, mem, ipcp, flow, rb =>
    match pduft_lookup hash_min lfuel mem (mem.ipcps ipcp).priv (mem.flows flow).remote_addr with
    | none => none
    | some none =>
      if (mem.flows flow).remote_addr ≠ (mem.ipcps ipcp).addr then
        some ⟨0, mem, [.buf_free rb]⟩
      else
        let rb1 := rina_buf_pci_push rb (sdu_write_pci c mem ipcp flow)
        let mem1 := seq_num_incr mem flow
        let len := to_int ((rb1.len c : Int) - c.sizeof_rina_pci)
        match (mem1.ipcps ipcp).sdu_rx with
        | .null => none
        | .normal =>
          match rina_normal_sdu_rx c env ipcp rb1 with
          | none => none
          | some (ret, evs) =>
            some ⟨if ret = 0 then len else ret, mem1, .sdu_rx ipcp rb1 :: evs⟩
        | .other code =>
          some ⟨if env.other_sdu_rx code ipcp rb1 = 0 then len
                else env.other_sdu_rx code ipcp rb1, mem1, [.sdu_rx ipcp rb1]⟩
    | some (some lower_flow) =>
      match (mem.flows lower_flow).txrx_ipcp with
      | none => none
      | some lower_ipcp =>
        let rb1 := rina_buf_pci_push rb (sdu_write_pci c mem ipcp flow)
        let mem1 := seq_num_incr mem flow
        match (mem1.ipcps lower_ipcp).sdu_write with
        | .null => none
        | .normal =>
          match rina_normal_sdu_write c hash_min env lfuel depth mem1 lower_ipcp lower_flow rb1
          with
          | none => none
          | some r =>
            some ⟨sub_pci_size c r.ret, r.mem, .sdu_write lower_ipcp lower_flow rb1 :: r.events⟩
        | .other code =>
          some ⟨sub_pci_size c (env.other_sdu_write code lower_ipcp lower_flow rb1), mem1,
            [.sdu_write lower_ipcp lower_flow rb1]⟩

/-- A memory for the examples: the instance at address 1 is a normal instance
with RINA address 10 and private state at address 1, every forwarding table is
empty, and every flow has remote address 20 and its node unlinked. -/
def mem_zero : memory where
  ipcps := fun _ => ⟨10, 1, .normal, .normal⟩
  normals := fun _ => ⟨1, fun _ => none⟩
  flows := fun _ => ⟨1, 2, 20, 0, none, none, 0, ⟨none, none⟩⟩

/-- Constants for the examples. -/
def consts_example : rina_consts :=
  ⟨38, 0x80, 0x40, 1, 2⟩

/-- An environment for the examples: every outside call returns 0 and no port
has a flow. -/
def env_zero : sdu_env :=
  ⟨fun _ _ _ => 0, fun _ _ _ _ => 0, fun _ _ _ => 0, fun _ => none⟩

/-- The memory after `rina_normal_pduft_set(ipcp, dest_addr, flow)` with the
hash `hash_64`, the memory itself if the call does not return. -/
def pduft_set_mem (mem : memory) (ipcp dest_addr flow : Nat) : memory :=
  match rina_normal_pduft_set hash_64 8 mem ipcp dest_addr flow with
  | some r => r.2
  | none => mem

/-- The memory `mem_zero` after flow 1 has been set for destination 20 on the
instance at address 1. -/
def mem_one : memory :=
  pduft_set_mem mem_zero 1 20 1

/-- The memory `mem_one` after flow 2 has been set for the same destination. -/
def mem_two : memory :=
  pduft_set_mem mem_one 1 20 2

/-- The fields of `struct rina_mgmt_hdr` that the file reads. -/
structure rina_mgmt_hdr where
  type : Nat
  local_port : Nat
  remote_addr : Nat
deriving DecidableEq, Repr

/-- The header that `rina_normal_mgmt_sdu_write` writes in front of the
buffer. -/
def mgmt_sdu_write_pci (c : rina_consts) (mem : memory) (ipcp dst_addr : Nat) : rina_pci :=
  { dst_addr := dst_addr, src_addr := (mem.ipcps ipcp).addr, qos_id := 0, dst_cep := 0,
    src_cep := 0, pdu_type := c.PDU_TYPE_MGMT, pdu_flags := 0, seqnum := 0 }

/-- The tail of `rina_normal_mgmt_sdu_write`, from `lower_ipcp =
lower_flow->txrx.ipcp` on, for the flow and the `dst_addr` that the head of the
function has settled.  `depth` bounds the calls into lower instances; the
result is `none` when `BUG_ON(!lower_ipcp)` fires, when a NULL operation is
called or when the lower instance exceeds `depth` or `lfuel`. -/
def mgmt_sdu_forward (c : rina_consts) (hash_min : Nat → Fin PDUFT_HASH_SIZE) (env : sdu_env)
    (lfuel depth : Nat) (mem : memory) (ipcp lower_flow dst_addr : Nat) (rb : rina_buf) :
    Option sdu_result :=
  match (mem.flows lower_flow).txrx_ipcp with
  | none => none
  | some lower_ipcp =>
    let rb1 := rina_buf_pci_push rb (mgmt_sdu_write_pci c mem ipcp dst_addr)
    match (mem.ipcps lower_ipcp).sdu_write with
    | .null => none
    | .normal =>
      match rina_normal_sdu_write c hash_min env lfuel depth mem lower_ipcp lower_flow rb1 with
      | none => none
      | some r =>
        some ⟨sub_pci_size c r.ret, r.mem, .sdu_write lower_ipcp lower_flow rb1 :: r.events⟩
    | .other code =>
      some ⟨sub_pci_size c (env.other_sdu_write code lower_ipcp lower_flow rb1), mem,
        [.sdu_write lower_ipcp lower_flow rb1]⟩

/-- The function `rina_normal_mgmt_sdu_write`: `int ret = rb->len` is what the
three early returns give back after `rina_buf_free(rb)`. -/
def rina_normal_mgmt_sdu_write (c : rina_consts) (hash_min : Nat → Fin PDUFT_HASH_SIZE)
    (env : sdu_env) (lfuel depth : Nat) (mem : memory) (ipcp : Nat) (mhdr : rina_mgmt_hdr)
    (rb : rina_buf) : Option sdu_result :=
  let ret := to_int (rb.len c)
  if mhdr.type = c.RINA_MGMT_HDR_T_OUT_DST_ADDR then
    match pduft_lookup hash_min lfuel mem (mem.ipcps ipcp).priv mhdr.remote_addr with
    | none => none
    | some none => some ⟨ret, mem, [.buf_free rb]⟩
    | some (some lower_flow) =>
      mgmt_sdu_forward c hash_min env lfuel depth mem ipcp lower_flow mhdr.remote_addr rb
  else if mhdr.type = c.RINA_MGMT_HDR_T_OUT_LOCAL_PORT then
    match env.flow_lookup mhdr.local_port with
    | none => some ⟨ret, mem, [.buf_free rb]⟩
    | some lower_flow =>
      if (mem.flows lower_flow).upper_ipcp ≠ some ipcp then some ⟨ret, mem, [.buf_free rb]⟩
      else mgmt_sdu_forward c hash_min env lfuel depth mem ipcp lower_flow 0 rb
  else some ⟨ret, mem, [.buf_free rb]⟩

/-- A stack of normal instances, top first, each with the flow that is written
on it: the forwarding table of every instance but the last resolves the remote
address of its flow to the flow of the next one, whose `txrx.ipcp` is that
next instance with `rina_normal_sdu_write` as its `sdu_write`; on the last
instance the address has no entry and is the instance's own, and its `sdu_rx`
is `rina_normal_sdu_rx`. -/
def stack (hash_min : Nat → Fin PDUFT_HASH_SIZE) (lfuel : Nat) (mem : memory) :
    List (Nat × Nat) → Prop
  | [] => False
  | [l] =>
    pduft_lookup hash_min lfuel mem (mem.ipcps l.1).priv (mem.flows l.2).remote_addr = some none ∧
    (mem.flows l.2).remote_addr = (mem.ipcps l.1).addr ∧
    (mem.ipcps l.1).sdu_rx = .normal
  | l :: lower :: rest =>
    pduft_lookup hash_min lfuel mem (mem.ipcps l.1).priv (mem.flows l.2).remote_addr
      = some (some lower.2) ∧
    (mem.flows lower.2).txrx_ipcp = some lower.1 ∧
    (mem.ipcps lower.1).sdu_write = .normal ∧
    stack hash_min lfuel mem (lower :: rest)

/-- Whether a list of instances and flows is a stack can be computed. -/
instance stack_decidable (hash_min : Nat → Fin PDUFT_HASH_SIZE) (lfuel : Nat) (mem : memory) :
    (layers : List (Nat × Nat)) → Decidable (stack hash_min lfuel mem layers)
  | [] => isFalse id
  | [l] =>
    inferInstanceAs (Decidable
      (pduft_lookup hash_min lfuel mem (mem.ipcps l.1).priv (mem.flows l.2).remote_addr
          = some none ∧
        (mem.flows l.2).remote_addr = (mem.ipcps l.1).addr ∧
        (mem.ipcps l.1).sdu_rx = .normal))
  | l :: lower :: rest =>
    have := stack_decidable hash_min lfuel mem (lower :: rest)
    inferInstanceAs (Decidable
      (pduft_lookup hash_min lfuel mem (mem.ipcps l.1).priv (mem.flows l.2).remote_addr
          = some (some lower.2) ∧
        (mem.flows lower.2).txrx_ipcp = some lower.1 ∧
        (mem.ipcps lower.1).sdu_write = .normal ∧
        stack hash_min lfuel mem (lower :: rest)))

/-- The calls of `ops.sdu_rx` among the events: the instance and the buffer of
each, in order. -/
def sdu_rx_calls : List sdu_event → List (Nat × rina_buf)
  | [] => []
  | .sdu_rx ipcp rb :: rest => (ipcp, rb) :: sdu_rx_calls rest
  | _ :: rest => sdu_rx_calls rest

/-- A memory for the examples of forwarding: the instance at address 1 is a
normal instance with RINA address 10 and the one at address 2 a normal
instance with RINA address 20, each with its private state at its own address;
the one at address 3 has RINA address 20 and code outside these sources as its
operations.  Flow 3 goes through the instance at address 2 and flow 4 through
the one at address 3, both with the instance at address 1 above; every other
flow has local port 1, remote port 2 and remote address 20. -/
def mem_net : memory where
  ipcps := fun a =>
    if a = 2 then ⟨20, 2, .normal, .normal⟩
    else if a = 3 then ⟨20, 3, .other 7, .other 8⟩
    else ⟨10, 1, .normal, .normal⟩
  normals := fun a => ⟨a, fun _ => none⟩
  flows := fun f =>
    if f = 3 then ⟨5, 6, 20, 0, some 2, some 1, 0, ⟨none, none⟩⟩
    else if f = 4 then ⟨7, 8, 20, 0, some 3, some 1, 0, ⟨none, none⟩⟩
    else ⟨1, 2, 20, 0, none, none, 0, ⟨none, none⟩⟩

/-- The memory `mem_net` after flow 3 has been set for destination 20 on the
instance at address 1: writes for address 20 go down to the normal instance at
address 2, which delivers them locally. -/
def mem_stack : memory :=
  pduft_set_mem mem_net 1 20 3

/-- The memory `mem_net` after flow 4 has been set for destination 20 on the
instance at address 1: writes for address 20 go to the instance at address 3,
whose code is outside these sources. -/
def mem_fwd : memory :=
  pduft_set_mem mem_net 1 20 4

/-- An environment in which the `sdu_write` of outside code reports the error
`-EINVAL` and every other outside call returns 0. -/
def env_fail : sdu_env :=
  ⟨fun _ _ _ => 0, fun _ _ _ _ => -22, fun _ _ _ => 0, fun _ => none⟩

/-- An environment in which port 4 has flow 4, port 9 has flow 9 and no other
port has a flow; every outside call returns 0. -/
def env_ports : sdu_env :=
  ⟨fun _ _ _ => 0, fun _ _ _ _ => 0, fun _ _ _ => 0,
   fun p => if p = 4 then some 4 else if p = 9 then some 9 else none⟩

/-- The memory `mem_one` after `rina_normal_pduft_set(ipcp, 7, flow 1)`: flow 1,
which is hashed for destination 20, is set for destination 7, an address of
the same bucket that has no entry. -/
def mem_loop : memory :=
  pduft_set_mem mem_one 1 7 1

end Normal

/-! # Properties

## Bitmap routines -/

theorem testBit_bitmap_set (map i j : Nat) :
    (bitmap_set map i 1).testBit j = (map.testBit j || decide (j = i)) := by
  unfold bitmap_set
  rw [Nat.testBit_or, Nat.testBit_shiftLeft]
  by_cases h : j = i
  · subst h; simp
  · by_cases h2 : j ≥ i
    · have : j - i ≠ 0 := by omega
      simp [h, h2, Nat.testBit_one_eq_true_iff_self_eq_zero, this]
    · simp [h, h2]

theorem testBit_bitmap_clear (map i j : Nat) :
    (bitmap_clear map i 1).testBit j = (map.testBit j && !decide (j = i)) := by
  unfold bitmap_clear
  rw [Nat.testBit_xor, Nat.testBit_and, Nat.testBit_shiftLeft]
  by_cases h : j = i
  · subst h; simp
  · by_cases h2 : j ≥ i
    · have : j - i ≠ 0 := by omega
      have h1 : Nat.testBit 1 (j - i) = false := by
        cases hb : Nat.testBit 1 (j - i)
        · rfl
        · exact absurd (Nat.testBit_one_eq_true_iff_self_eq_zero.mp hb) this
      simp [h, h2, h1]
    · simp [h, h2]

theorem find_next_zero_bit_scan_spec (map size : Nat) :
    ∀ n i, (find_next_zero_bit_scan map size n i = size ∧ ∀ j, i ≤ j → j < i + n → map.testBit j = true) ∨
      (i ≤ find_next_zero_bit_scan map size n i ∧ find_next_zero_bit_scan map size n i < i + n ∧
        map.testBit (find_next_zero_bit_scan map size n i) = false ∧
        ∀ j, i ≤ j → j < find_next_zero_bit_scan map size n i → map.testBit j = true) := by
  intro n
  induction n with
  | zero => intro i; left; exact ⟨rfl, fun j h1 h2 => by omega⟩
  | succ n ih =>
    intro i
    by_cases hb : map.testBit i = true
    · simp only [find_next_zero_bit_scan, hb, if_true]
      rcases ih (i + 1) with ⟨h1, h2⟩ | ⟨h1, h2, h3, h4⟩
      · left
        refine ⟨h1, fun j hj1 hj2 => ?_⟩
        by_cases hji : j = i
        · subst hji; exact hb
        · exact h2 j (by omega) (by omega)
      · right
        refine ⟨by omega, by omega, h3, fun j hj1 hj2 => ?_⟩
        by_cases hji : j = i
        · subst hji; exact hb
        · exact h4 j (by omega) hj2
    · right
      simp only [Bool.not_eq_true] at hb
      have he : find_next_zero_bit_scan map size (n + 1) i = i := by
        simp [find_next_zero_bit_scan, hb]
      rw [he]
      exact ⟨le_refl _, by omega, hb, fun j h1 h2 => by omega⟩

theorem bitmap_find_next_zero_area_spec (map size : Nat) :
    (bitmap_find_next_zero_area map size 0 1 0 = size + 1 ∧ ∀ j, j < size → map.testBit j = true) ∨
      (bitmap_find_next_zero_area map size 0 1 0 < size ∧
        map.testBit (bitmap_find_next_zero_area map size 0 1 0) = false ∧
        ∀ j, j < bitmap_find_next_zero_area map size 0 1 0 → map.testBit j = true) := by
  have hal : ∀ x, ALIGN_MASK x 0 = x := by intro x; simp [ALIGN_MASK]
  rcases find_next_zero_bit_scan_spec map size size 0 with ⟨h1, h2⟩ | ⟨_, h2, h3, h4⟩
  · left
    have : bitmap_find_next_zero_area map size 0 1 0 = size + 1 := by
      simp [bitmap_find_next_zero_area, bitmap_find_next_zero_area_loop, find_next_zero_bit, hal, h1]
    exact ⟨this, fun j hj => h2 j (Nat.zero_le _) (by omega)⟩
  · right
    have : bitmap_find_next_zero_area map size 0 1 0 = find_next_zero_bit_scan map size size 0 := by
      simp only [bitmap_find_next_zero_area, bitmap_find_next_zero_area_loop, find_next_zero_bit, hal,
        Nat.sub_zero, find_next_bit]
      have hle : ¬ (find_next_zero_bit_scan map size size 0 + 1 > size) := by omega
      simp [hle, find_next_bit_scan, h3]
    rw [this]
    exact ⟨by omega, h3, fun j hj => h4 j (Nat.zero_le _) hj⟩

/-- With `nr = 1` and no alignment `bitmap_find_next_zero_area` never takes
the `goto again`: the first round returns, so the result does not depend on
the fuel of the embedding. -/
theorem bitmap_find_next_zero_area_loop_one (map size fuel start : Nat) :
    bitmap_find_next_zero_area_loop map size 1 0 (fuel + 1) start =
      if find_next_zero_bit map size start + 1 > size then find_next_zero_bit map size start + 1
      else find_next_zero_bit map size start := by
  have hal : ∀ x, ALIGN_MASK x 0 = x := by intro x; simp [ALIGN_MASK]
  simp only [bitmap_find_next_zero_area_loop, hal]
  split
  · rfl
  · rename_i hle
    have hclear : map.testBit (find_next_zero_bit map size start) = false := by
      unfold find_next_zero_bit at hle ⊢
      rcases find_next_zero_bit_scan_spec map size (size - start) start with ⟨h1, _⟩ | ⟨_, _, h3, _⟩
      · rw [h1] at hle; omega
      · exact h3
    have hnext : find_next_bit map (find_next_zero_bit map size start + 1)
        (find_next_zero_bit map size start) = find_next_zero_bit map size start + 1 := by
      simp [find_next_bit, find_next_bit_scan, hclear]
    rw [hnext]
    simp

/-! ## Table order -/

theorem mem_hash_entries (t : Fin IPCP_HASH_SIZE → List ipcp_entry) (e : ipcp_entry) :
    e ∈ hash_entries t ↔ ∃ b, e ∈ t b := by
  simp [hash_entries, List.mem_flatMap, List.mem_finRange]

theorem flatMap_update_of_not_mem (l : List (Fin IPCP_HASH_SIZE))
    (t : Fin IPCP_HASH_SIZE → List ipcp_entry) (b : Fin IPCP_HASH_SIZE) (v : List ipcp_entry)
    (h : b ∉ l) : l.flatMap (Function.update t b v) = l.flatMap t := by
  induction l with
  | nil => rfl
  | cons a l ih =>
    have ha : a ≠ b := fun hab => h (by simp [hab])
    have hl : b ∉ l := fun hbl => h (by simp [hbl])
    simp [List.flatMap_cons, Function.update_noteq ha, ih hl]

theorem hash_entries_split (t : Fin IPCP_HASH_SIZE → List ipcp_entry) (b : Fin IPCP_HASH_SIZE) :
    ∃ pre post : List ipcp_entry,
      (∀ v, hash_entries (Function.update t b v) = pre ++ v ++ post) ∧
      (∀ e ∈ pre ++ post, ∃ c, c ≠ b ∧ e ∈ t c) := by
  have hb : b ∈ List.finRange IPCP_HASH_SIZE := List.mem_finRange b
  obtain ⟨l1, l2, hl⟩ := List.append_of_mem hb
  have hnd : (l1 ++ b :: l2).Nodup := hl ▸ List.nodup_finRange IPCP_HASH_SIZE
  have h1 : b ∉ l1 := fun hm => by
    have := List.disjoint_of_nodup_append hnd hm
    exact this (by simp)
  have h2 : b ∉ l2 := by
    have := (List.nodup_append.mp hnd).2.1
    exact (List.nodup_cons.mp this).1
  refine ⟨l1.flatMap t, l2.flatMap t, fun v => ?_, fun e he => ?_⟩
  · simp [hash_entries, hl, List.flatMap_append, List.flatMap_cons, flatMap_update_of_not_mem _ _ _ _ h1,
      flatMap_update_of_not_mem _ _ _ _ h2]
  · rcases List.mem_append.mp he with he | he
    · obtain ⟨c, hc, hec⟩ := List.mem_flatMap.mp he
      exact ⟨c, fun hcb => h1 (hcb ▸ hc), hec⟩
    · obtain ⟨c, hc, hec⟩ := List.mem_flatMap.mp he
      exact ⟨c, fun hcb => h2 (hcb ▸ hc), hec⟩

theorem hash_entries_eq_split (t : Fin IPCP_HASH_SIZE → List ipcp_entry) (b : Fin IPCP_HASH_SIZE)
    (pre post : List ipcp_entry)
    (h : ∀ v, hash_entries (Function.update t b v) = pre ++ v ++ post) :
    hash_entries t = pre ++ t b ++ post := by
  have := h (t b)
  rwa [Function.update_eq_self] at this

theorem bitmap_clear_of_clear (map i : Nat) (h : map.testBit i = false) :
    bitmap_clear map i 1 = map := by
  apply Nat.eq_of_testBit_eq
  intro j
  rw [testBit_bitmap_clear]
  by_cases hj : j = i
  · subst hj; simp [h]
  · simp [hj]

theorem mem_eraseP_id (k : Nat) (l : List ipcp_entry) (hnd : (l.map ipcp_entry.id).Nodup)
    (e : ipcp_entry) :
    e ∈ l.eraseP (fun x => x.id == k) ↔ e ∈ l ∧ e.id ≠ k := by
  induction l with
  | nil => simp
  | cons a l ih =>
    rw [List.map_cons, List.nodup_cons] at hnd
    by_cases ha : a.id = k
    · have hp : List.eraseP (fun x : ipcp_entry => x.id == k) (a :: l) = l := by
        simp [List.eraseP_cons, ha]
      rw [hp]
      constructor
      · intro he
        refine ⟨List.mem_cons_of_mem _ he, fun hek => hnd.1 ?_⟩
        rw [ha, ← hek]
        exact List.mem_map_of_mem _ he
      · rintro ⟨he, hek⟩
        rcases List.mem_cons.mp he with rfl | he
        · exact absurd ha hek
        · exact he
    · have hp : List.eraseP (fun x : ipcp_entry => x.id == k) (a :: l) =
          a :: List.eraseP (fun x : ipcp_entry => x.id == k) l := by
        simp [List.eraseP_cons, ha]
      rw [hp, List.mem_cons, List.mem_cons, ih hnd.2]
      constructor
      · rintro (rfl | ⟨h1, h2⟩)
        · exact ⟨Or.inl rfl, ha⟩
        · exact ⟨Or.inr h1, h2⟩
      · rintro ⟨rfl | h1, h2⟩
        · exact Or.inl rfl
        · exact Or.inr ⟨h1, h2⟩

theorem find_id_some (k : Nat) (l : List ipcp_entry) (e : ipcp_entry)
    (h : l.find? (fun x => x.id == k) = some e) : e ∈ l ∧ e.id = k := by
  refine ⟨List.mem_of_find?_eq_some h, ?_⟩
  have := List.find?_some h
  simpa using this

theorem find_id_none (k : Nat) (l : List ipcp_entry)
    (h : l.find? (fun x => x.id == k) = none) : ∀ e ∈ l, e.id ≠ k := by
  intro e he
  have := List.find?_eq_none.mp h e he
  simpa using this

/-- The registry `ipcp_add` leaves behind is either the one it was given, or
that one with the lowest clear bit set and one entry for it at the head of its
bucket. -/
theorem ipcp_add_dm_cases (hash_min : Nat → Fin IPCP_HASH_SIZE) (dm : rina_dm)
    (req : rina_msg_ipcp_create) (ipcp_id : Nat) (create_ret entry_alloc : Option Nat) :
    (ipcp_add hash_min dm req ipcp_id create_ret entry_alloc).dm = dm ∨
    ∃ entry : ipcp_entry, entry.id < IPCP_ID_BITMAP_SIZE ∧
      dm.ipcp_id_bitmap.testBit entry.id = false ∧
      (ipcp_add hash_min dm req ipcp_id create_ret entry_alloc).dm =
        { dm with
          ipcp_id_bitmap := bitmap_set dm.ipcp_id_bitmap entry.id 1
          ipcp_table := hash_add hash_min dm.ipcp_table entry entry.id } := by
  unfold ipcp_add
  cases hf : ipcp_factories_find dm req.dif_type with
  | none => left; rfl
  | some factory =>
    cases create_ret with
    | none => left; rfl
    | some ipcp_priv =>
      cases entry_alloc with
      | none => left; rfl
      | some addr =>
        simp only
        split
        · rename_i hlt
          right
          refine ⟨{ self := addr,
                    id := bitmap_find_next_zero_area dm.ipcp_id_bitmap IPCP_ID_BITMAP_SIZE 0 1 0 % 2 ^ 16,
                    name := req.name, dif_name := rina_name_zero, dif_type := req.dif_type,
                    ops := factory.ops, priv := ipcp_priv }, hlt, ?_, rfl⟩
          simp only
          rcases bitmap_find_next_zero_area_spec dm.ipcp_id_bitmap IPCP_ID_BITMAP_SIZE with
            ⟨h1, _⟩ | ⟨h1, h2, _⟩
          · rw [h1] at hlt
            simp [IPCP_ID_BITMAP_SIZE] at hlt
          · have hm : bitmap_find_next_zero_area dm.ipcp_id_bitmap IPCP_ID_BITMAP_SIZE 0 1 0 % 2 ^ 16
                = bitmap_find_next_zero_area dm.ipcp_id_bitmap IPCP_ID_BITMAP_SIZE 0 1 0 := by
              apply Nat.mod_eq_of_lt
              simp only [IPCP_ID_BITMAP_SIZE] at h1 ⊢
              omega
            rw [hm]; exact h2
        · left; rfl

theorem dm_inv_init (hash_min : Nat → Fin IPCP_HASH_SIZE) : dm_inv hash_min rina_dm_init where
  bucket := fun _ e he => by simp [rina_dm_init] at he
  id_lt := fun _ e he => by simp [rina_dm_init] at he
  nodup := fun _ => by simp [rina_dm_init]
  bitmap := fun i => by simp [rina_dm_init]

theorem dm_inv_congr (hash_min : Nat → Fin IPCP_HASH_SIZE) (dm dm1 : rina_dm)
    (hb : dm1.ipcp_id_bitmap = dm.ipcp_id_bitmap) (ht : dm1.ipcp_table = dm.ipcp_table)
    (h : dm_inv hash_min dm) : dm_inv hash_min dm1 where
  bucket := by rw [ht]; exact h.bucket
  id_lt := by rw [ht]; exact h.id_lt
  nodup := by rw [ht]; exact h.nodup
  bitmap := by rw [ht, hb]; exact h.bitmap

theorem dm_inv_insert (hash_min : Nat → Fin IPCP_HASH_SIZE) (dm : rina_dm) (entry : ipcp_entry)
    (h : dm_inv hash_min dm) (hlt : entry.id < IPCP_ID_BITMAP_SIZE)
    (hclear : dm.ipcp_id_bitmap.testBit entry.id = false) :
    dm_inv hash_min
      { dm with
        ipcp_id_bitmap := bitmap_set dm.ipcp_id_bitmap entry.id 1
        ipcp_table := hash_add hash_min dm.ipcp_table entry entry.id } := by
  have hnone : ∀ e ∈ dm.ipcp_table (hash_min entry.id), e.id ≠ entry.id := by
    intro e he hid
    have := (h.bitmap entry.id).mpr ⟨e, he, hid⟩
    rw [hclear] at this
    exact Bool.false_ne_true this
  have hmem : ∀ b e, e ∈ hash_add hash_min dm.ipcp_table entry entry.id b ↔
      (b = hash_min entry.id ∧ e = entry) ∨ e ∈ dm.ipcp_table b := by
    intro b e
    unfold hash_add
    by_cases hb : b = hash_min entry.id
    · subst hb; simp
    · simp [Function.update_noteq hb, hb]
  constructor
  · intro b e he
    rcases (hmem b e).mp he with ⟨hb, rfl⟩ | he
    · exact hb.symm
    · exact h.bucket b e he
  · intro b e he
    rcases (hmem b e).mp he with ⟨_, rfl⟩ | he
    · exact hlt
    · exact h.id_lt b e he
  · intro b
    show ((hash_add hash_min dm.ipcp_table entry entry.id b).map ipcp_entry.id).Nodup
    unfold hash_add
    by_cases hb : b = hash_min entry.id
    · subst hb
      simp only [Function.update_same, List.map_cons, List.nodup_cons]
      refine ⟨fun hm => ?_, h.nodup _⟩
      obtain ⟨e, he, hid⟩ := List.mem_map.mp hm
      exact hnone e he hid
    · rw [Function.update_noteq hb]; exact h.nodup b
  · intro i
    show (bitmap_set dm.ipcp_id_bitmap entry.id 1).testBit i = true ↔
      ∃ e ∈ hash_add hash_min dm.ipcp_table entry entry.id (hash_min i), e.id = i
    rw [testBit_bitmap_set]
    simp only [Bool.or_eq_true, decide_eq_true_eq, hmem]
    constructor
    · rintro (hi | hi)
      · obtain ⟨e, he, hid⟩ := (h.bitmap i).mp hi
        exact ⟨e, Or.inr he, hid⟩
      · exact ⟨entry, Or.inl ⟨by rw [hi], rfl⟩, hi.symm⟩
    · rintro ⟨e, ⟨_, rfl⟩ | he, hid⟩
      · exact Or.inr hid.symm
      · exact Or.inl ((h.bitmap i).mpr ⟨e, he, hid⟩)

theorem dm_inv_ipcp_add (hash_min : Nat → Fin IPCP_HASH_SIZE) (dm : rina_dm)
    (req : rina_msg_ipcp_create) (ipcp_id : Nat) (create_ret entry_alloc : Option Nat)
    (h : dm_inv hash_min dm) :
    dm_inv hash_min (ipcp_add hash_min dm req ipcp_id create_ret entry_alloc).dm := by
  rcases ipcp_add_dm_cases hash_min dm req ipcp_id create_ret entry_alloc with he | ⟨entry, h1, h2, he⟩
  · rw [he]; exact h
  · rw [he]; exact dm_inv_insert hash_min dm entry h h1 h2

/-- The registry `ipcp_del` leaves behind when the bucket holds the id. -/
theorem ipcp_del_found (hash_min : Nat → Fin IPCP_HASH_SIZE) (dm : rina_dm) (ipcp_id : Nat)
    (entry : ipcp_entry) (hlt : ipcp_id < IPCP_ID_BITMAP_SIZE)
    (hf : (dm.ipcp_table (hash_min ipcp_id)).find? (fun e => e.id == ipcp_id) = some entry) :
    ipcp_del hash_min dm ipcp_id =
      ⟨0,
       { dm with
         ipcp_table := Function.update dm.ipcp_table (hash_min ipcp_id)
           ((dm.ipcp_table (hash_min ipcp_id)).eraseP (fun e => e.id == ipcp_id))
         ipcp_fetch_last :=
           if dm.ipcp_fetch_last = some entry.self then none else dm.ipcp_fetch_last
         ipcp_id_bitmap := bitmap_clear dm.ipcp_id_bitmap ipcp_id 1 },
       call_destroy entry.ops entry.priv⟩ := by
  unfold ipcp_del
  have : ¬ ipcp_id ≥ IPCP_ID_BITMAP_SIZE := by omega
  simp only [this, if_false, hf]

/-- The registry `ipcp_del` leaves behind when the bucket does not hold the
id. -/
theorem ipcp_del_not_found (hash_min : Nat → Fin IPCP_HASH_SIZE) (dm : rina_dm) (ipcp_id : Nat)
    (hlt : ipcp_id < IPCP_ID_BITMAP_SIZE)
    (hf : (dm.ipcp_table (hash_min ipcp_id)).find? (fun e => e.id == ipcp_id) = none) :
    ipcp_del hash_min dm ipcp_id =
      ⟨1, { dm with ipcp_id_bitmap := bitmap_clear dm.ipcp_id_bitmap ipcp_id 1 }, []⟩ := by
  unfold ipcp_del
  have : ¬ ipcp_id ≥ IPCP_ID_BITMAP_SIZE := by omega
  simp only [this, if_false, hf]

theorem ipcp_del_out_of_range (hash_min : Nat → Fin IPCP_HASH_SIZE) (dm : rina_dm) (ipcp_id : Nat)
    (hge : ipcp_id ≥ IPCP_ID_BITMAP_SIZE) :
    ipcp_del hash_min dm ipcp_id = ⟨1, dm, []⟩ := by
  unfold ipcp_del
  simp only [hge, if_true]

theorem dm_inv_remove (hash_min : Nat → Fin IPCP_HASH_SIZE) (dm : rina_dm) (ipcp_id : Nat)
    (cur : Option Nat) (h : dm_inv hash_min dm) :
    dm_inv hash_min
      { dm with
        ipcp_table := Function.update dm.ipcp_table (hash_min ipcp_id)
          ((dm.ipcp_table (hash_min ipcp_id)).eraseP (fun e => e.id == ipcp_id))
        ipcp_fetch_last := cur
        ipcp_id_bitmap := bitmap_clear dm.ipcp_id_bitmap ipcp_id 1 } := by
  have hmem : ∀ b e, e ∈ Function.update dm.ipcp_table (hash_min ipcp_id)
        ((dm.ipcp_table (hash_min ipcp_id)).eraseP (fun e => e.id == ipcp_id)) b ↔
      e ∈ dm.ipcp_table b ∧ (b = hash_min ipcp_id → e.id ≠ ipcp_id) := by
    intro b e
    by_cases hb : b = hash_min ipcp_id
    · subst hb
      simp [mem_eraseP_id ipcp_id _ (h.nodup _)]
    · simp [Function.update_noteq hb, hb]
  constructor
  · intro b e he
    exact h.bucket b e ((hmem b e).mp he).1
  · intro b e he
    exact h.id_lt b e ((hmem b e).mp he).1
  · intro b
    show ((Function.update dm.ipcp_table (hash_min ipcp_id)
      ((dm.ipcp_table (hash_min ipcp_id)).eraseP (fun e => e.id == ipcp_id)) b).map
        ipcp_entry.id).Nodup
    by_cases hb : b = hash_min ipcp_id
    · subst hb
      rw [Function.update_same]
      exact (h.nodup _).sublist ((List.eraseP_sublist _).map _)
    · rw [Function.update_noteq hb]; exact h.nodup b
  · intro i
    show (bitmap_clear dm.ipcp_id_bitmap ipcp_id 1).testBit i = true ↔
      ∃ e ∈ Function.update dm.ipcp_table (hash_min ipcp_id)
        ((dm.ipcp_table (hash_min ipcp_id)).eraseP (fun e => e.id == ipcp_id)) (hash_min i),
        e.id = i
    rw [testBit_bitmap_clear]
    simp only [Bool.and_eq_true, Bool.not_eq_true', decide_eq_false_iff_not, hmem]
    constructor
    · rintro ⟨hi, hne⟩
      obtain ⟨e, he, hid⟩ := (h.bitmap i).mp hi
      exact ⟨e, ⟨he, fun _ => by rw [hid]; exact hne⟩, hid⟩
    · rintro ⟨e, ⟨he, hne⟩, hid⟩
      refine ⟨(h.bitmap i).mpr ⟨e, he, hid⟩, fun hi => ?_⟩
      subst hi
      exact hne rfl hid

theorem dm_inv_ipcp_del (hash_min : Nat → Fin IPCP_HASH_SIZE) (dm : rina_dm) (ipcp_id : Nat)
    (h : dm_inv hash_min dm) : dm_inv hash_min (ipcp_del hash_min dm ipcp_id).dm := by
  by_cases hge : ipcp_id ≥ IPCP_ID_BITMAP_SIZE
  · rw [ipcp_del_out_of_range hash_min dm ipcp_id hge]; exact h
  · have hlt : ipcp_id < IPCP_ID_BITMAP_SIZE := by omega
    cases hf : (dm.ipcp_table (hash_min ipcp_id)).find? (fun e => e.id == ipcp_id) with
    | some entry =>
      rw [ipcp_del_found hash_min dm ipcp_id entry hlt hf]
      exact dm_inv_remove hash_min dm ipcp_id _ h
    | none =>
      rw [ipcp_del_not_found hash_min dm ipcp_id hlt hf]
      have hclear : dm.ipcp_id_bitmap.testBit ipcp_id = false := by
        cases hb : dm.ipcp_id_bitmap.testBit ipcp_id
        · rfl
        · obtain ⟨e, he, hid⟩ := (h.bitmap ipcp_id).mp hb
          exact absurd hid (find_id_none ipcp_id _ hf e he)
      exact dm_inv_congr hash_min dm _ (bitmap_clear_of_clear _ _ hclear) rfl h

/-! ## The registry invariant -/

theorem mem_live (dm : rina_dm) (e : ipcp_entry) : e ∈ live dm ↔ ∃ b, e ∈ dm.ipcp_table b :=
  mem_hash_entries dm.ipcp_table e

theorem dm_inv_mem_live (hash_min : Nat → Fin IPCP_HASH_SIZE) (dm : rina_dm)
    (h : dm_inv hash_min dm) (e : ipcp_entry) :
    e ∈ live dm ↔ e ∈ dm.ipcp_table (hash_min e.id) := by
  rw [mem_live]
  constructor
  · rintro ⟨b, hb⟩
    rw [h.bucket b e hb]; exact hb
  · intro he; exact ⟨_, he⟩

theorem dm_inv_live_id_lt (hash_min : Nat → Fin IPCP_HASH_SIZE) (dm : rina_dm)
    (h : dm_inv hash_min dm) : ∀ e ∈ live dm, e.id < IPCP_ID_BITMAP_SIZE := by
  intro e he
  obtain ⟨b, hb⟩ := (mem_live dm e).mp he
  exact h.id_lt b e hb

theorem dm_inv_live_nodup (hash_min : Nat → Fin IPCP_HASH_SIZE) (dm : rina_dm)
    (h : dm_inv hash_min dm) : ((live dm).map ipcp_entry.id).Nodup := by
  unfold live hash_entries
  rw [List.map_flatMap, List.nodup_flatMap]
  refine ⟨fun b _ => h.nodup b, ?_⟩
  apply (List.nodup_finRange IPCP_HASH_SIZE).pairwise_of_forall_ne
  intro a _ b _ hab
  show List.Disjoint ((dm.ipcp_table a).map ipcp_entry.id) ((dm.ipcp_table b).map ipcp_entry.id)
  intro k hka hkb
  obtain ⟨e1, he1, hk1⟩ := List.mem_map.mp hka
  obtain ⟨e2, he2, hk2⟩ := List.mem_map.mp hkb
  have h1 := h.bucket a e1 he1
  have h2 := h.bucket b e2 he2
  rw [hk1] at h1
  rw [hk2] at h2
  exact hab (h1.symm.trans h2)

theorem dm_inv_live_bitmap (hash_min : Nat → Fin IPCP_HASH_SIZE) (dm : rina_dm)
    (h : dm_inv hash_min dm) (i : Nat) :
    dm.ipcp_id_bitmap.testBit i = true ↔ ∃ e ∈ live dm, e.id = i := by
  rw [h.bitmap i]
  constructor
  · rintro ⟨e, he, hid⟩
    exact ⟨e, (mem_live dm e).mpr ⟨_, he⟩, hid⟩
  · rintro ⟨e, he, hid⟩
    refine ⟨e, ?_, hid⟩
    rw [← hid]
    exact (dm_inv_mem_live hash_min dm h e).mp he

theorem dm_inv_registry_step (hash_min : Nat → Fin IPCP_HASH_SIZE) (dm : rina_dm)
    (op : registry_op) (h : dm_inv hash_min dm) : dm_inv hash_min (registry_step hash_min dm op) := by
  cases op with
  | factory_register factory kmalloc_ok =>
    refine dm_inv_congr hash_min dm _ ?_ ?_ h <;>
    · simp only [registry_step, rina_ipcp_factory_register]
      cases factory with
      | none => rfl
      | some fac => simp only; split_ifs <;> rfl
  | factory_unregister dif_type =>
    refine dm_inv_congr hash_min dm _ ?_ ?_ h <;>
    · simp only [registry_step, rina_ipcp_factory_unregister]
      cases ipcp_factories_find dm dif_type <;> rfl
  | add req ipcp_id create_ret entry_alloc => exact dm_inv_ipcp_add hash_min dm req ipcp_id _ _ h
  | del ipcp_id => exact dm_inv_ipcp_del hash_min dm ipcp_id h

theorem dm_inv_registry_run (hash_min : Nat → Fin IPCP_HASH_SIZE) (ops : List registry_op) :
    ∀ dm, dm_inv hash_min dm → dm_inv hash_min (registry_run hash_min dm ops) := by
  induction ops with
  | nil => intro dm h; exact h
  | cons op ops ih =>
    intro dm h
    exact ih _ (dm_inv_registry_step hash_min dm op h)

/-- C1: after every sequence of factory registrations, creations (`ipcp_add`)
and destructions (`ipcp_del`) run from the registry of `rina_ctrl_init`, every
live entry has an id below 1024, no two live entries have the same id, and a
bit of the id bitmap is set exactly when the process table holds an entry with
that id. -/
theorem C1_registry_ids_consistent (hash_min : Nat → Fin IPCP_HASH_SIZE)
    (ops : List registry_op) :
    (∀ e ∈ live (registry_run hash_min rina_dm_init ops), e.id < 1024) ∧
    (live (registry_run hash_min rina_dm_init ops)).Pairwise (fun e1 e2 => e1.id ≠ e2.id) ∧
    (∀ i, (registry_run hash_min rina_dm_init ops).ipcp_id_bitmap.testBit i = true ↔
      ∃ e ∈ live (registry_run hash_min rina_dm_init ops), e.id = i) := by
  have h := dm_inv_registry_run hash_min ops rina_dm_init (dm_inv_init hash_min)
  refine ⟨dm_inv_live_id_lt hash_min _ h, ?_, dm_inv_live_bitmap hash_min _ h⟩
  have := dm_inv_live_nodup hash_min _ h
  exact (List.pairwise_map.mp this)

theorem bitmap_find_next_zero_area_eq (map size k : Nat) (hk : k < size)
    (hclear : map.testBit k = false) (hset : ∀ j, j < k → map.testBit j = true) :
    bitmap_find_next_zero_area map size 0 1 0 = k := by
  rcases bitmap_find_next_zero_area_spec map size with ⟨_, h2⟩ | ⟨_, h2, h3⟩
  · rw [h2 k hk] at hclear
    exact absurd hclear (by simp)
  · rcases Nat.lt_trichotomy (bitmap_find_next_zero_area map size 0 1 0) k with hlt | heq | hgt
    · rw [hset _ hlt] at h2
      exact absurd h2 (by simp)
    · exact heq
    · rw [h3 k hgt] at hclear
      exact absurd hclear (by simp)

theorem bitmap_find_next_zero_area_full (map size : Nat)
    (hset : ∀ j, j < size → map.testBit j = true) :
    bitmap_find_next_zero_area map size 0 1 0 = size + 1 := by
  rcases bitmap_find_next_zero_area_spec map size with ⟨h1, _⟩ | ⟨h1, h2, _⟩
  · exact h1
  · rw [hset _ h1] at h2
    exact absurd h2 (by simp)

/-- The lowest clear bit below `size` exists as soon as one bit below `size` is
clear. -/
theorem exists_lowest_clear (map size : Nat) (h : ∃ i, i < size ∧ map.testBit i = false) :
    ∃ k, k < size ∧ map.testBit k = false ∧ ∀ j, j < k → map.testBit j = true := by
  rcases bitmap_find_next_zero_area_spec map size with ⟨_, h2⟩ | ⟨h1, h2, h3⟩
  · obtain ⟨i, hi, hc⟩ := h
    rw [h2 i hi] at hc
    exact absurd hc (by simp)
  · exact ⟨_, h1, h2, h3⟩

/-- The successful path of `ipcp_add`, with the id it allocates. -/
theorem ipcp_add_ok (hash_min : Nat → Fin IPCP_HASH_SIZE) (dm : rina_dm)
    (req : rina_msg_ipcp_create) (ipcp_id priv addr k : Nat) (factory : ipcp_factory)
    (hfac : ipcp_factories_find dm req.dif_type = some factory)
    (hk : k < IPCP_ID_BITMAP_SIZE) (hclear : dm.ipcp_id_bitmap.testBit k = false)
    (hset : ∀ j, j < k → dm.ipcp_id_bitmap.testBit j = true) :
    ipcp_add hash_min dm req ipcp_id (some priv) (some addr) =
      ⟨0, k,
       { dm with
         ipcp_id_bitmap := bitmap_set dm.ipcp_id_bitmap k 1
         ipcp_table := hash_add hash_min dm.ipcp_table
           { self := addr, id := k, name := req.name, dif_name := rina_name_zero,
             dif_type := req.dif_type, ops := factory.ops, priv := priv } k },
       []⟩ := by
  have hb := bitmap_find_next_zero_area_eq dm.ipcp_id_bitmap IPCP_ID_BITMAP_SIZE k hk hclear hset
  have hm : k % 2 ^ 16 = k := Nat.mod_eq_of_lt (by simp only [IPCP_ID_BITMAP_SIZE] at hk; omega)
  simp only [ipcp_add, hfac, hb, hm, hk, if_true]

/-- The path of `ipcp_add` taken when every bit of the id bitmap is set. -/
theorem ipcp_add_full (hash_min : Nat → Fin IPCP_HASH_SIZE) (dm : rina_dm)
    (req : rina_msg_ipcp_create) (ipcp_id priv addr : Nat) (factory : ipcp_factory)
    (hfac : ipcp_factories_find dm req.dif_type = some factory)
    (hset : ∀ j, j < IPCP_ID_BITMAP_SIZE → dm.ipcp_id_bitmap.testBit j = true) :
    ipcp_add hash_min dm req ipcp_id (some priv) (some addr) =
      ⟨0, 1025, dm, call_destroy factory.ops priv⟩ := by
  have hb := bitmap_find_next_zero_area_full dm.ipcp_id_bitmap IPCP_ID_BITMAP_SIZE hset
  simp only [ipcp_add, hfac, hb]
  simp [IPCP_ID_BITMAP_SIZE]

theorem live_hash_add (hash_min : Nat → Fin IPCP_HASH_SIZE)
    (table : Fin IPCP_HASH_SIZE → List ipcp_entry) (entry : ipcp_entry) (key : Nat) :
    (hash_entries (hash_add hash_min table entry key)).Perm (entry :: hash_entries table) := by
  obtain ⟨pre, post, h1, _⟩ := hash_entries_split table (hash_min key)
  unfold hash_add
  rw [h1, hash_entries_eq_split table (hash_min key) pre post h1]
  simp only [List.append_assoc, List.cons_append]
  exact List.perm_middle

/-! ## Creation -/

theorem dm_inv_bit_of_live (hash_min : Nat → Fin IPCP_HASH_SIZE) (dm : rina_dm)
    (h : dm_inv hash_min dm) (k : Nat) (hclear : dm.ipcp_id_bitmap.testBit k = false) :
    ∀ e ∈ live dm, e.id ≠ k := by
  intro e he hid
  have := (dm_inv_live_bitmap hash_min dm h k).mpr ⟨e, he, hid⟩
  rw [hclear] at this
  exact Bool.false_ne_true this

theorem register_init (factory : ipcp_factory) (hc : factory.create.isSome = true) :
    rina_ipcp_factory_register rina_dm_init (some factory) true =
      (0, { rina_dm_init with ipcp_factories := [factory] }) := by
  have hn : factory.create.isNone = false := by
    cases h : factory.create with
    | none => rw [h] at hc; exact absurd hc (by simp)
    | some _ => rfl
  simp [rina_ipcp_factory_register, hn, ipcp_factories_find, rina_dm_init]

/-- C2: in a consistent registry with a clear bit below 1024 and a factory for
the requested DIF type, when the factory's creation function and the entry
allocation succeed, `ipcp_add` returns 0 and stores in `*ipcp_id` the smallest
id `k` that is not allocated (bit `k` clear, no live entry with id `k`, every
smaller id allocated); the table gains exactly one entry, at the head of the
bucket of `k`, with id `k`, the request's name and DIF type and the factory's
operation table, and bit `k` becomes set.  In particular, on the initial
registry with one factory registered, two creations in a row return ids 0 and
1. -/
theorem C2_create_returns_lowest_free_id (hash_min : Nat → Fin IPCP_HASH_SIZE) (dm : rina_dm)
    (req : rina_msg_ipcp_create) (ipcp_id priv addr : Nat) (factory : ipcp_factory)
    (hinv : dm_inv hash_min dm)
    (hfac : ipcp_factories_find dm req.dif_type = some factory)
    (hfree : ∃ i, i < 1024 ∧ dm.ipcp_id_bitmap.testBit i = false) :
    (∃ k entry,
      (ipcp_add hash_min dm req ipcp_id (some priv) (some addr)).ret = 0 ∧
      (ipcp_add hash_min dm req ipcp_id (some priv) (some addr)).ipcp_id = k ∧
      (ipcp_add hash_min dm req ipcp_id (some priv) (some addr)).calls = [] ∧
      k < 1024 ∧
      dm.ipcp_id_bitmap.testBit k = false ∧ (∀ e ∈ live dm, e.id ≠ k) ∧
      (∀ j, j < k → dm.ipcp_id_bitmap.testBit j = true ∧ ∃ e ∈ live dm, e.id = j) ∧
      entry = { self := addr, id := k, name := req.name, dif_name := rina_name_zero,
                dif_type := req.dif_type, ops := factory.ops, priv := priv } ∧
      (ipcp_add hash_min dm req ipcp_id (some priv) (some addr)).dm.ipcp_table =
        Function.update dm.ipcp_table (hash_min k) (entry :: dm.ipcp_table (hash_min k)) ∧
      (live (ipcp_add hash_min dm req ipcp_id (some priv) (some addr)).dm).Perm
        (entry :: live dm) ∧
      (∀ i, (ipcp_add hash_min dm req ipcp_id (some priv) (some addr)).dm.ipcp_id_bitmap.testBit i
        = (dm.ipcp_id_bitmap.testBit i || decide (i = k))) ∧
      (ipcp_add hash_min dm req ipcp_id (some priv) (some addr)).dm.ipcp_fetch_last =
        dm.ipcp_fetch_last ∧
      (ipcp_add hash_min dm req ipcp_id (some priv) (some addr)).dm.ipcp_factories =
        dm.ipcp_factories) ∧
    (∀ (fac : ipcp_factory) (req1 req2 : rina_msg_ipcp_create) (i1 i2 p1 p2 a1 a2 : Nat),
      fac.create.isSome = true → req1.dif_type = fac.dif_type → req2.dif_type = fac.dif_type →
      (ipcp_add hash_min (rina_ipcp_factory_register rina_dm_init (some fac) true).2
        req1 i1 (some p1) (some a1)).ret = 0 ∧
      (ipcp_add hash_min (rina_ipcp_factory_register rina_dm_init (some fac) true).2
        req1 i1 (some p1) (some a1)).ipcp_id = 0 ∧
      (ipcp_add hash_min
        (ipcp_add hash_min (rina_ipcp_factory_register rina_dm_init (some fac) true).2
          req1 i1 (some p1) (some a1)).dm req2 i2 (some p2) (some a2)).ret = 0 ∧
      (ipcp_add hash_min
        (ipcp_add hash_min (rina_ipcp_factory_register rina_dm_init (some fac) true).2
          req1 i1 (some p1) (some a1)).dm req2 i2 (some p2) (some a2)).ipcp_id = 1) := by
  constructor
  · obtain ⟨k, hk, hclear, hset⟩ := exists_lowest_clear dm.ipcp_id_bitmap 1024 hfree
    rw [ipcp_add_ok hash_min dm req ipcp_id priv addr k factory hfac hk hclear hset]
    exact ⟨k, _, rfl, rfl, rfl, hk, hclear, dm_inv_bit_of_live hash_min dm hinv k hclear,
      fun j hj => ⟨hset j hj, (dm_inv_live_bitmap hash_min dm hinv j).mp (hset j hj)⟩, rfl,
      rfl, live_hash_add hash_min dm.ipcp_table _ k, fun i => testBit_bitmap_set _ _ _, rfl, rfl⟩
  · intro fac req1 req2 i1 i2 p1 p2 a1 a2 hc h1 h2
    rw [register_init fac hc]
    have hf1 : ipcp_factories_find { rina_dm_init with ipcp_factories := [fac] } req1.dif_type
        = some fac := by simp [ipcp_factories_find, h1]
    rw [ipcp_add_ok hash_min _ req1 i1 p1 a1 0 fac hf1 (by decide) (by simp [rina_dm_init])
      (fun j hj => absurd hj (Nat.not_lt_zero j))]
    refine ⟨rfl, rfl, ?_⟩
    have hf2 : ipcp_factories_find
        { ({ rina_dm_init with ipcp_factories := [fac] } : rina_dm) with
          ipcp_id_bitmap := bitmap_set rina_dm_init.ipcp_id_bitmap 0 1
          ipcp_table := hash_add hash_min rina_dm_init.ipcp_table
            { self := a1, id := 0, name := req1.name, dif_name := rina_name_zero,
              dif_type := req1.dif_type, ops := fac.ops, priv := p1 } 0 } req2.dif_type
        = some fac := by simp [ipcp_factories_find, h2]
    rw [ipcp_add_ok hash_min _ req2 i2 p2 a2 1 fac hf2 (by decide)
      (by simp [rina_dm_init, bitmap_set]; decide) (fun j hj => by
        have : j = 0 := by omega
        subst this
        simp [rina_dm_init, bitmap_set])]
    exact ⟨rfl, rfl⟩

theorem dm_inv_dm_shim : dm_inv hash_32 dm_shim :=
  dm_inv_registry_run hash_32 _ rina_dm_init (dm_inv_init hash_32)

/-- C2 at the registry of `rina_shim_dummy_init`, for the request of an IPC
process named `a.IPC` followed by one named `b.IPC`. -/
theorem C2_create_returns_lowest_free_id_witness :
    dm_inv hash_32 dm_shim ∧
    ipcp_factories_find dm_shim (create_req 7 "a.IPC").dif_type = some shim_dummy_factory ∧
    (∃ i, i < 1024 ∧ dm_shim.ipcp_id_bitmap.testBit i = false) ∧
    (∃ k,
      (ipcp_add hash_32 dm_shim (create_req 7 "a.IPC") 0 (some 0x2000) (some 0x3000)).ret = 0 ∧
      (ipcp_add hash_32 dm_shim (create_req 7 "a.IPC") 0 (some 0x2000) (some 0x3000)).ipcp_id = k ∧
      k < 1024 ∧ dm_shim.ipcp_id_bitmap.testBit k = false) ∧
    (ipcp_add hash_32 dm_shim (create_req 7 "a.IPC") 0 (some 0x2000) (some 0x3000)).ipcp_id = 0 ∧
    (ipcp_add hash_32
      (ipcp_add hash_32 dm_shim (create_req 7 "a.IPC") 0 (some 0x2000) (some 0x3000)).dm
      (create_req 8 "b.IPC") 0 (some 0x2001) (some 0x3001)).ipcp_id = 1 :=
  have hfac : ipcp_factories_find dm_shim (create_req 7 "a.IPC").dif_type
      = some shim_dummy_factory := by decide
  have hfree : ∃ i, i < 1024 ∧ dm_shim.ipcp_id_bitmap.testBit i = false :=
    ⟨0, by decide, by decide⟩
  have h := C2_create_returns_lowest_free_id hash_32 dm_shim (create_req 7 "a.IPC") 0 0x2000
    0x3000 shim_dummy_factory dm_inv_dm_shim hfac hfree
  have h2 := h.2 shim_dummy_factory (create_req 7 "a.IPC") (create_req 8 "b.IPC") 0 0 0x2000
    0x2001 0x3000 0x3001 (by decide) (by decide) (by decide)
  ⟨dm_inv_dm_shim, hfac, hfree,
    h.1.elim fun k hk => hk.elim fun _ hk => ⟨k, hk.1, hk.2.1, hk.2.2.2.1, hk.2.2.2.2.1⟩,
    h2.2.1, h2.2.2.2⟩

theorem ipcp_add_factories (hash_min : Nat → Fin IPCP_HASH_SIZE) (dm : rina_dm)
    (req : rina_msg_ipcp_create) (ipcp_id : Nat) (create_ret entry_alloc : Option Nat) :
    (ipcp_add hash_min dm req ipcp_id create_ret entry_alloc).dm.ipcp_factories =
      dm.ipcp_factories := by
  rcases ipcp_add_dm_cases hash_min dm req ipcp_id create_ret entry_alloc with he | ⟨_, _, _, he⟩ <;>
    rw [he]

theorem registry_run_append (hash_min : Nat → Fin IPCP_HASH_SIZE) (dm : rina_dm)
    (ops1 ops2 : List registry_op) :
    registry_run hash_min dm (ops1 ++ ops2) =
      registry_run hash_min (registry_run hash_min dm ops1) ops2 := by
  simp [registry_run, List.foldl_append]

theorem fill_ops_succ (n : Nat) :
    fill_ops (n + 1) = fill_ops n ++
      [registry_op.add (create_req n "a.IPC") 0 (some (0x2000 + n)) (some (0x100000 + n))] := by
  simp [fill_ops, List.range_succ]

theorem bitmap_set_low_ones (n : Nat) : bitmap_set (2 ^ n - 1) n 1 = 2 ^ (n + 1) - 1 := by
  apply Nat.eq_of_testBit_eq
  intro j
  rw [testBit_bitmap_set, Nat.testBit_two_pow_sub_one, Nat.testBit_two_pow_sub_one]
  by_cases h1 : j < n
  · have : j < n + 1 := by omega
    simp [h1, this]
  · by_cases h2 : j = n
    · simp [h2]
    · have : ¬ j < n + 1 := by omega
      simp [h1, h2, this]

/-- After the first `n` creations of the series the ids `0 .. n-1` are
allocated and the factory list is the one of `dm_shim`. -/
theorem fill_ops_bitmap (n : Nat) (hn : n ≤ 1024) :
    (registry_run hash_32 dm_shim (fill_ops n)).ipcp_id_bitmap = 2 ^ n - 1 ∧
    (registry_run hash_32 dm_shim (fill_ops n)).ipcp_factories = [shim_dummy_factory] := by
  induction n with
  | zero => exact ⟨rfl, rfl⟩
  | succ n ih =>
    obtain ⟨hb, hf⟩ := ih (by omega)
    rw [fill_ops_succ, registry_run_append]
    have hfac : ipcp_factories_find (registry_run hash_32 dm_shim (fill_ops n))
        (create_req n "a.IPC").dif_type = some shim_dummy_factory := by
      simp only [ipcp_factories_find, hf]; rfl
    have hadd := ipcp_add_ok hash_32 (registry_run hash_32 dm_shim (fill_ops n))
      (create_req n "a.IPC") 0 (0x2000 + n) (0x100000 + n) n shim_dummy_factory hfac
      (by simp only [IPCP_ID_BITMAP_SIZE]; omega)
      (by rw [hb, Nat.testBit_two_pow_sub_one]; simp)
      (fun j hj => by rw [hb, Nat.testBit_two_pow_sub_one]; simpa using hj)
    simp only [registry_run, List.foldl_cons, List.foldl_nil, registry_step]
    simp only [registry_run] at hadd hb hf
    rw [hadd]
    exact ⟨by simp only [hb]; exact bitmap_set_low_ones n, hf⟩

theorem dm_full_bits : ∀ j, j < IPCP_ID_BITMAP_SIZE → dm_full.ipcp_id_bitmap.testBit j = true := by
  intro j hj
  unfold dm_full
  rw [(fill_ops_bitmap 1024 (le_refl _)).1, Nat.testBit_two_pow_sub_one]
  simpa [IPCP_ID_BITMAP_SIZE] using hj

theorem dm_full_factories : dm_full.ipcp_factories = [shim_dummy_factory] :=
  (fill_ops_bitmap 1024 (le_refl _)).2

theorem dm_inv_dm_full : dm_inv hash_32 dm_full :=
  dm_inv_registry_run hash_32 _ dm_shim dm_inv_dm_shim

/-- A consistent registry whose bitmap is full holds exactly 1024 entries. -/
theorem live_length_of_full (hash_min : Nat → Fin IPCP_HASH_SIZE) (dm : rina_dm)
    (h : dm_inv hash_min dm)
    (hfull : ∀ j, j < IPCP_ID_BITMAP_SIZE → dm.ipcp_id_bitmap.testBit j = true) :
    (live dm).length = 1024 := by
  have hnd := dm_inv_live_nodup hash_min dm h
  have hset : ((live dm).map ipcp_entry.id).toFinset = Finset.range 1024 := by
    ext i
    simp only [List.mem_toFinset, List.mem_map, Finset.mem_range]
    constructor
    · rintro ⟨e, he, rfl⟩
      exact dm_inv_live_id_lt hash_min dm h e he
    · intro hi
      exact (dm_inv_live_bitmap hash_min dm h i).mp (hfull i hi)
  have := List.toFinset_card_of_nodup hnd
  rw [hset, Finset.card_range, List.length_map] at this
  exact this.symm

/-- The handler `rina_ipcp_create` when `ipcp_add` returns 0 and the three
allocations of the response path succeed. -/
theorem rina_ipcp_create_of_add_ok (hash_min : Nat → Fin IPCP_HASH_SIZE)
    (serialize_rina_msg : rina_msg → List Nat) (rc : rina_ctrl) (dm : rina_dm)
    (req : rina_msg_ipcp_create) (ipcp_id : Nat) (create_ret entry_alloc : Option Nat)
    (hret : (ipcp_add hash_min dm req ipcp_id create_ret entry_alloc).ret = 0) :
    rina_ipcp_create hash_min serialize_rina_msg rc dm req ipcp_id create_ret entry_alloc
        true true true =
      ⟨0,
       ⟨rc.upqueue ++
        [⟨serialize_rina_msg (rina_msg.ipcp_create_resp
            ⟨RINA_CTRL_CREATE_IPCP_RESP, req.event_id,
             (ipcp_add hash_min dm req ipcp_id create_ret entry_alloc).ipcp_id % 2 ^ 16⟩),
          (serialize_rina_msg (rina_msg.ipcp_create_resp
            ⟨RINA_CTRL_CREATE_IPCP_RESP, req.event_id,
             (ipcp_add hash_min dm req ipcp_id create_ret entry_alloc).ipcp_id % 2 ^ 16⟩)).length⟩]⟩,
       (ipcp_add hash_min dm req ipcp_id create_ret entry_alloc).dm,
       (ipcp_add hash_min dm req ipcp_id create_ret entry_alloc).calls⟩ := by
  simp [rina_ipcp_create, hret, rina_upqueue_append]

/-- C3: on the registry in which all 1024 ids are allocated, `ipcp_add` tears
the new instance down but returns 0 with `*ipcp_id = 1025`, and the handler
`rina_ipcp_create` returns 0 and queues a CREATE_IPCP_RESP carrying the id
1025: no error reaches the caller. -/
theorem C3_create_on_full_registry_returns_zero (serialize_rina_msg : rina_msg → List Nat) :
    (∀ j, j < 1024 → dm_full.ipcp_id_bitmap.testBit j = true) ∧
    (live dm_full).length = 1024 ∧
    (ipcp_add hash_32 dm_full (create_req 5000 "x.IPC") 0 (some 0x9000) (some 0x9100)).ret = 0 ∧
    (ipcp_add hash_32 dm_full (create_req 5000 "x.IPC") 0 (some 0x9000) (some 0x9100)).ipcp_id
      = 1025 ∧
    (rina_ipcp_create hash_32 serialize_rina_msg ⟨[]⟩ dm_full (create_req 5000 "x.IPC") 0
      (some 0x9000) (some 0x9100) true true true).ret = 0 ∧
    (rina_ipcp_create hash_32 serialize_rina_msg ⟨[]⟩ dm_full (create_req 5000 "x.IPC") 0
      (some 0x9000) (some 0x9100) true true true).rc.upqueue =
      [⟨serialize_rina_msg (rina_msg.ipcp_create_resp ⟨RINA_CTRL_CREATE_IPCP_RESP, 5000, 1025⟩),
        (serialize_rina_msg
          (rina_msg.ipcp_create_resp ⟨RINA_CTRL_CREATE_IPCP_RESP, 5000, 1025⟩)).length⟩] := by
  have hfac : ipcp_factories_find dm_full (create_req 5000 "x.IPC").dif_type
      = some shim_dummy_factory := by
    simp only [ipcp_factories_find, dm_full_factories]; rfl
  have hadd := ipcp_add_full hash_32 dm_full (create_req 5000 "x.IPC") 0 0x9000 0x9100
    shim_dummy_factory hfac dm_full_bits
  refine ⟨dm_full_bits, live_length_of_full hash_32 dm_full dm_inv_dm_full dm_full_bits, ?_, ?_,
    ?_, ?_⟩
  · rw [hadd]
  · rw [hadd]
  · rw [rina_ipcp_create_of_add_ok hash_32 serialize_rina_msg ⟨[]⟩ dm_full _ 0 _ _
      (by rw [hadd])]
  · rw [rina_ipcp_create_of_add_ok hash_32 serialize_rina_msg ⟨[]⟩ dm_full _ 0 _ _
      (by rw [hadd]), hadd]
    rfl

/-- C4: in a consistent registry whose 1024 ids are all allocated, a creation
whose factory call and entry allocation succeed invokes the factory's destroy
operation (when it has one) once, on the private state just created, and makes
no other call; the registry it leaves is the one it was given (bitmap, table,
cursor, factories), which holds 1024 entries. -/
theorem C4_failed_allocation_tears_down (hash_min : Nat → Fin IPCP_HASH_SIZE) (dm : rina_dm)
    (req : rina_msg_ipcp_create) (ipcp_id priv addr : Nat) (factory : ipcp_factory)
    (hinv : dm_inv hash_min dm)
    (hfac : ipcp_factories_find dm req.dif_type = some factory)
    (hfull : ∀ j, j < 1024 → dm.ipcp_id_bitmap.testBit j = true) :
    (ipcp_add hash_min dm req ipcp_id (some priv) (some addr)).calls =
      call_destroy factory.ops priv ∧
    (∀ fn, factory.ops.destroy = some fn →
      (ipcp_add hash_min dm req ipcp_id (some priv) (some addr)).calls = [⟨fn, priv⟩]) ∧
    (ipcp_add hash_min dm req ipcp_id (some priv) (some addr)).dm = dm ∧
    (live (ipcp_add hash_min dm req ipcp_id (some priv) (some addr)).dm).length = 1024 := by
  rw [ipcp_add_full hash_min dm req ipcp_id priv addr factory hfac hfull]
  refine ⟨rfl, fun fn hfn => ?_, rfl, live_length_of_full hash_min dm hinv hfull⟩
  simp [call_destroy, hfn]

/-- C4 at the registry reached by 1024 creations: the shim-dummy destroy
function is called on the new private state. -/
theorem C4_failed_allocation_tears_down_witness :
    dm_inv hash_32 dm_full ∧
    ipcp_factories_find dm_full (create_req 5000 "x.IPC").dif_type = some shim_dummy_factory ∧
    (∀ j, j < 1024 → dm_full.ipcp_id_bitmap.testBit j = true) ∧
    (ipcp_add hash_32 dm_full (create_req 5000 "x.IPC") 0 (some 0x9000) (some 0x9100)).calls =
      [⟨0x1010, 0x9000⟩] ∧
    (ipcp_add hash_32 dm_full (create_req 5000 "x.IPC") 0 (some 0x9000) (some 0x9100)).dm
      = dm_full ∧
    (live (ipcp_add hash_32 dm_full (create_req 5000 "x.IPC") 0 (some 0x9000)
      (some 0x9100)).dm).length = 1024 :=
  have hfac : ipcp_factories_find dm_full (create_req 5000 "x.IPC").dif_type
      = some shim_dummy_factory := by
    simp only [ipcp_factories_find, dm_full_factories]; rfl
  have h := C4_failed_allocation_tears_down hash_32 dm_full (create_req 5000 "x.IPC") 0 0x9000
    0x9100 shim_dummy_factory dm_inv_dm_full hfac dm_full_bits
  ⟨dm_inv_dm_full, hfac, dm_full_bits, h.2.1 0x1010 rfl, h.2.2.1, h.2.2.2⟩

/-! ## Destruction -/

theorem rina_dm_bitmap_eta (dm : rina_dm) (b : Nat) (h : b = dm.ipcp_id_bitmap) :
    { dm with ipcp_id_bitmap := b } = dm := by
  subst h; rfl

/-- In a consistent registry the bucket scan for an id finds the live entry
with that id. -/
theorem dm_inv_find (hash_min : Nat → Fin IPCP_HASH_SIZE) (dm : rina_dm)
    (h : dm_inv hash_min dm) (e : ipcp_entry) (he : e ∈ live dm) :
    (dm.ipcp_table (hash_min e.id)).find? (fun x => x.id == e.id) = some e := by
  have hb := (dm_inv_mem_live hash_min dm h e).mp he
  cases hf : (dm.ipcp_table (hash_min e.id)).find? (fun x => x.id == e.id) with
  | none => exact absurd rfl (find_id_none e.id _ hf e hb)
  | some e0 =>
    obtain ⟨h0, hid⟩ := find_id_some e.id _ e0 hf
    rw [List.inj_on_of_nodup_map (h.nodup _) h0 hb hid]

theorem dm_inv_find_none (hash_min : Nat → Fin IPCP_HASH_SIZE) (dm : rina_dm) (k : Nat)
    (hno : ∀ e ∈ live dm, e.id ≠ k) :
    (dm.ipcp_table (hash_min k)).find? (fun x => x.id == k) = none := by
  rw [List.find?_eq_none]
  intro e he
  have := hno e ((mem_live dm e).mpr ⟨_, he⟩)
  simpa using this

/-- Unlinking the entry with id `k` from its bucket removes it from the table
order and moves nothing else. -/
theorem hash_entries_eraseP (hash_min : Nat → Fin IPCP_HASH_SIZE) (dm : rina_dm)
    (h : dm_inv hash_min dm) (k : Nat) :
    hash_entries (Function.update dm.ipcp_table (hash_min k)
        ((dm.ipcp_table (hash_min k)).eraseP (fun x => x.id == k))) =
      (hash_entries dm.ipcp_table).eraseP (fun x => x.id == k) := by
  obtain ⟨pre, post, h1, h2⟩ := hash_entries_split dm.ipcp_table (hash_min k)
  rw [h1, hash_entries_eq_split dm.ipcp_table (hash_min k) pre post h1]
  have hout : ∀ e ∈ pre ++ post, ¬ (fun x : ipcp_entry => x.id == k) e = true := by
    intro e he hp
    obtain ⟨c, hc, hec⟩ := h2 e he
    have hid : e.id = k := by simpa using hp
    exact hc (by rw [← h.bucket c e hec, hid])
  have hpre : ∀ e ∈ pre, ¬ (fun x : ipcp_entry => x.id == k) e = true :=
    fun e he => hout e (List.mem_append_left _ he)
  have hpost : ∀ e ∈ post, ¬ (fun x : ipcp_entry => x.id == k) e = true :=
    fun e he => hout e (List.mem_append_right _ he)
  rw [List.append_assoc, List.append_assoc, List.eraseP_append_right _ hpre]
  by_cases hex : ∃ e ∈ dm.ipcp_table (hash_min k), (fun x : ipcp_entry => x.id == k) e = true
  · obtain ⟨e, he, hp⟩ := hex
    rw [@List.eraseP_append_left _ (fun x : ipcp_entry => x.id == k) e hp _ post he]
  · have hb : ∀ e ∈ dm.ipcp_table (hash_min k), ¬ (fun x : ipcp_entry => x.id == k) e = true :=
      fun e he hp => hex ⟨e, he, hp⟩
    rw [List.eraseP_append_right _ hb, List.eraseP_of_forall_not hb,
      List.eraseP_of_forall_not hpost]

/-- The outcome of `ipcp_del` on the id of a live entry of a consistent
registry. -/
theorem ipcp_del_live (hash_min : Nat → Fin IPCP_HASH_SIZE) (dm : rina_dm)
    (h : dm_inv hash_min dm) (e : ipcp_entry) (he : e ∈ live dm) :
    ipcp_del hash_min dm e.id =
      ⟨0,
       { dm with
         ipcp_table := Function.update dm.ipcp_table (hash_min e.id)
           ((dm.ipcp_table (hash_min e.id)).eraseP (fun x => x.id == e.id))
         ipcp_fetch_last :=
           if dm.ipcp_fetch_last = some e.self then none else dm.ipcp_fetch_last
         ipcp_id_bitmap := bitmap_clear dm.ipcp_id_bitmap e.id 1 },
       call_destroy e.ops e.priv⟩ :=
  ipcp_del_found hash_min dm e.id e (dm_inv_live_id_lt hash_min dm h e he)
    (dm_inv_find hash_min dm h e he)

/-- The outcome of `ipcp_del` on an id that no live entry has. -/
theorem ipcp_del_unknown (hash_min : Nat → Fin IPCP_HASH_SIZE) (dm : rina_dm)
    (h : dm_inv hash_min dm) (k : Nat) (hno : ∀ e ∈ live dm, e.id ≠ k) :
    ipcp_del hash_min dm k = ⟨1, dm, []⟩ := by
  by_cases hge : k ≥ IPCP_ID_BITMAP_SIZE
  · exact ipcp_del_out_of_range hash_min dm k hge
  · rw [ipcp_del_not_found hash_min dm k (by omega) (dm_inv_find_none hash_min dm k hno)]
    have hclear : dm.ipcp_id_bitmap.testBit k = false := by
      cases hb : dm.ipcp_id_bitmap.testBit k
      · rfl
      · obtain ⟨e, he, hid⟩ := (dm_inv_live_bitmap hash_min dm h k).mp hb
        exact absurd hid (hno e he)
    rw [rina_dm_bitmap_eta dm _ (bitmap_clear_of_clear _ _ hclear)]

theorem live_after_del (hash_min : Nat → Fin IPCP_HASH_SIZE) (dm : rina_dm)
    (h : dm_inv hash_min dm) (e : ipcp_entry) (he : e ∈ live dm) :
    live (ipcp_del hash_min dm e.id).dm = (live dm).eraseP (fun x => x.id == e.id) := by
  rw [ipcp_del_live hash_min dm h e he]
  exact hash_entries_eraseP hash_min dm h e.id

/-- C5: in a consistent registry `ipcp_del` returns 0 exactly when a live
entry has the id, and 1 otherwise.  When the entry `e` has the id: `e` is
dropped from the table and every other entry stays, in the same order; the bit
of the id is cleared and no other bit changes; the only call made is
`e.ops.destroy(e.priv)` (one call when the entry has a destroy operation); the
factory list is untouched.  When no entry has the id (any id from 1024 on in
particular) the registry is returned as it was and nothing is called.  A second
destruction of the same id returns 1. -/
theorem C5_destroy_removes_exactly_the_entry (hash_min : Nat → Fin IPCP_HASH_SIZE)
    (dm : rina_dm) (ipcp_id : Nat) (hinv : dm_inv hash_min dm) :
    ((ipcp_del hash_min dm ipcp_id).result = 0 ↔ ∃ e ∈ live dm, e.id = ipcp_id) ∧
    ((ipcp_del hash_min dm ipcp_id).result = 0 ∨ (ipcp_del hash_min dm ipcp_id).result = 1) ∧
    (∀ e ∈ live dm, e.id = ipcp_id →
      live (ipcp_del hash_min dm ipcp_id).dm = (live dm).eraseP (fun x => x.id == ipcp_id) ∧
      (∀ x, x ∈ live (ipcp_del hash_min dm ipcp_id).dm ↔ x ∈ live dm ∧ x ≠ e) ∧
      (live (ipcp_del hash_min dm ipcp_id).dm).length + 1 = (live dm).length ∧
      (∀ i, (ipcp_del hash_min dm ipcp_id).dm.ipcp_id_bitmap.testBit i =
        (dm.ipcp_id_bitmap.testBit i && !decide (i = ipcp_id))) ∧
      (ipcp_del hash_min dm ipcp_id).calls = call_destroy e.ops e.priv ∧
      (∀ fn, e.ops.destroy = some fn → (ipcp_del hash_min dm ipcp_id).calls = [⟨fn, e.priv⟩]) ∧
      (ipcp_del hash_min dm ipcp_id).dm.ipcp_factories = dm.ipcp_factories ∧
      (ipcp_del hash_min (ipcp_del hash_min dm ipcp_id).dm ipcp_id).result = 1) ∧
    ((∀ e ∈ live dm, e.id ≠ ipcp_id) →
      (ipcp_del hash_min dm ipcp_id).result = 1 ∧ (ipcp_del hash_min dm ipcp_id).dm = dm ∧
      (ipcp_del hash_min dm ipcp_id).calls = []) ∧
    (ipcp_id ≥ 1024 →
      (ipcp_del hash_min dm ipcp_id).result = 1 ∧ (ipcp_del hash_min dm ipcp_id).dm = dm) := by
  have hlive : ∀ e ∈ live dm, e.id = ipcp_id → (ipcp_del hash_min dm ipcp_id).result = 0 := by
    intro e he hid
    subst hid
    rw [ipcp_del_live hash_min dm hinv e he]
  have hunk : (∀ e ∈ live dm, e.id ≠ ipcp_id) → ipcp_del hash_min dm ipcp_id = ⟨1, dm, []⟩ :=
    ipcp_del_unknown hash_min dm hinv ipcp_id
  have hmemid : ∀ x, x ∈ (live dm).eraseP (fun y => y.id == ipcp_id) ↔
      x ∈ live dm ∧ x.id ≠ ipcp_id :=
    mem_eraseP_id ipcp_id (live dm) (dm_inv_live_nodup hash_min dm hinv)
  refine ⟨⟨fun h0 => ?_, fun ⟨e, he, hid⟩ => hlive e he hid⟩, ?_, ?_, ?_, ?_⟩
  · by_contra hno
    have hno' : ∀ e ∈ live dm, e.id ≠ ipcp_id := fun e he hid => hno ⟨e, he, hid⟩
    rw [hunk hno'] at h0
    exact absurd h0 Nat.one_ne_zero
  · by_cases hex : ∃ e ∈ live dm, e.id = ipcp_id
    · obtain ⟨e, he, hid⟩ := hex
      exact Or.inl (hlive e he hid)
    · have hno' : ∀ e ∈ live dm, e.id ≠ ipcp_id := fun e he hid => hex ⟨e, he, hid⟩
      rw [hunk hno']
      exact Or.inr rfl
  · intro e he hid
    subst hid
    have hl := live_after_del hash_min dm hinv e he
    have hmem : ∀ x, x ∈ live (ipcp_del hash_min dm e.id).dm ↔ x ∈ live dm ∧ x ≠ e := by
      intro x
      rw [hl, hmemid]
      constructor
      · rintro ⟨hx, hne⟩
        exact ⟨hx, fun hxe => hne (by rw [hxe])⟩
      · rintro ⟨hx, hne⟩
        refine ⟨hx, fun hxid => hne ?_⟩
        exact List.inj_on_of_nodup_map (dm_inv_live_nodup hash_min dm hinv) hx he hxid
    refine ⟨hl, hmem, ?_, ?_, ?_, ?_, ?_, ?_⟩
    · rw [hl, List.length_eraseP]
      have hany : (live dm).any (fun x => x.id == e.id) = true := by
        rw [List.any_eq_true]; exact ⟨e, he, by simp⟩
      have hpos : 0 < (live dm).length := List.length_pos_of_mem he
      rw [if_pos hany]; omega
    · intro i
      rw [ipcp_del_live hash_min dm hinv e he]
      exact testBit_bitmap_clear _ _ _
    · rw [ipcp_del_live hash_min dm hinv e he]
    · intro fn hfn
      rw [ipcp_del_live hash_min dm hinv e he]
      simp [call_destroy, hfn]
    · rw [ipcp_del_live hash_min dm hinv e he]
    · have hno : ∀ x ∈ live (ipcp_del hash_min dm e.id).dm, x.id ≠ e.id := by
        intro x hx
        rw [hl, hmemid] at hx
        exact hx.2
      rw [ipcp_del_unknown hash_min _ (dm_inv_ipcp_del hash_min dm e.id hinv) e.id hno]
  · intro hno
    rw [hunk hno]
    exact ⟨rfl, rfl, rfl⟩
  · intro hge
    rw [ipcp_del_out_of_range hash_min dm ipcp_id hge]
    exact ⟨rfl, rfl⟩

theorem dm_inv_dm_two : dm_inv hash_32 dm_two :=
  dm_inv_registry_run hash_32 _ dm_shim dm_inv_dm_shim

/-- C5 at the registry with ids 0 and 1 live: destroying id 0 returns 0, and
destroying it again returns 1. -/
theorem C5_destroy_removes_exactly_the_entry_witness :
    dm_inv hash_32 dm_two ∧
    (∃ e ∈ live dm_two, e.id = 0) ∧
    (ipcp_del hash_32 dm_two 0).result = 0 ∧
    (ipcp_del hash_32 (ipcp_del hash_32 dm_two 0).dm 0).result = 1 :=
  have hex : ∃ e ∈ live dm_two, e.id = 0 :=
    (dm_inv_live_bitmap hash_32 dm_two dm_inv_dm_two 0).mp
      (by unfold dm_two; rw [(fill_ops_bitmap 2 (by decide)).1]; decide)
  have h := C5_destroy_removes_exactly_the_entry hash_32 dm_two 0 dm_inv_dm_two
  ⟨dm_inv_dm_two, hex, h.1.mpr hex,
    hex.elim fun e he => (h.2.2.1 e he.1 he.2).2.2.2.2.2.2.2⟩

theorem assign_entry_of_ne (k : Nat) (n : rina_name) (l : List ipcp_entry)
    (h : ∀ e ∈ l, e.id ≠ k) : l.map (assign_entry k n) = l := by
  induction l with
  | nil => rfl
  | cons a l ih =>
    have ha : a.id ≠ k := h a (List.mem_cons_self _ _)
    rw [List.map_cons, ih (fun e he => h e (List.mem_cons_of_mem _ he))]
    simp [assign_entry, ha]

theorem assign_scan_list (k : Nat) (n : rina_name) (l : List ipcp_entry)
    (hnd : (l.map ipcp_entry.id).Nodup) :
    (assign_scan k n l).1 = l.map (assign_entry k n) := by
  induction l with
  | nil => rfl
  | cons a l ih =>
    rw [List.map_cons, List.nodup_cons] at hnd
    by_cases ha : a.id = k
    · have hrest : ∀ e ∈ l, e.id ≠ k := by
        intro e he hek
        exact hnd.1 (by rw [ha, ← hek]; exact List.mem_map_of_mem _ he)
      simp [assign_scan, ha, assign_entry_of_ne k n l hrest, assign_entry]
    · simp [assign_scan, ha, ih hnd.2, assign_entry]

theorem assign_scan_result (k : Nat) (n : rina_name) (l : List ipcp_entry) :
    ((assign_scan k n l).2 = 0 ↔ ∃ e ∈ l, e.id = k) ∧
    ((assign_scan k n l).2 = 0 ∨ (assign_scan k n l).2 = 1) := by
  induction l with
  | nil => simp [assign_scan]
  | cons a l ih =>
    by_cases ha : a.id = k
    · simp [assign_scan, ha]
    · simp only [assign_scan, ha, if_false, List.mem_cons, exists_eq_or_imp, false_or]
      exact ih

/-- The handler `rina_assign_to_dif` when its three allocations succeed. -/
theorem rina_assign_to_dif_ok (hash_min : Nat → Fin IPCP_HASH_SIZE)
    (serialize_rina_msg : rina_msg → List Nat) (rc : rina_ctrl) (dm : rina_dm)
    (req : rina_msg_assign_to_dif) :
    rina_assign_to_dif hash_min serialize_rina_msg rc dm req true true true =
      ⟨0,
       ⟨rc.upqueue ++
        [⟨serialize_rina_msg (rina_msg.assign_to_dif_resp
            ⟨RINA_CTRL_ASSIGN_TO_DIF_RESP, req.event_id,
             (assign_scan req.ipcp_id req.dif_name (dm.ipcp_table (hash_min req.ipcp_id))).2⟩),
          (serialize_rina_msg (rina_msg.assign_to_dif_resp
            ⟨RINA_CTRL_ASSIGN_TO_DIF_RESP, req.event_id,
             (assign_scan req.ipcp_id req.dif_name
               (dm.ipcp_table (hash_min req.ipcp_id))).2⟩)).length⟩]⟩,
       { dm with
         ipcp_table := Function.update dm.ipcp_table (hash_min req.ipcp_id)
           (assign_scan req.ipcp_id req.dif_name (dm.ipcp_table (hash_min req.ipcp_id))).1 },
       []⟩ := by
  simp [rina_assign_to_dif, rina_upqueue_append]

/-- In a consistent registry the table after the scan of `rina_assign_to_dif`
is the old table with `assign_entry` applied to every entry. -/
theorem assign_table (hash_min : Nat → Fin IPCP_HASH_SIZE) (dm : rina_dm)
    (h : dm_inv hash_min dm) (k : Nat) (n : rina_name) :
    Function.update dm.ipcp_table (hash_min k) (assign_scan k n (dm.ipcp_table (hash_min k))).1 =
      fun b => (dm.ipcp_table b).map (assign_entry k n) := by
  funext b
  by_cases hb : b = hash_min k
  · subst hb
    rw [Function.update_same, assign_scan_list k n _ (h.nodup _)]
  · rw [Function.update_noteq hb]
    symm
    apply assign_entry_of_ne
    intro e he hek
    exact hb (by rw [← h.bucket b e he, hek])

theorem hash_entries_map (t : Fin IPCP_HASH_SIZE → List ipcp_entry) (f : ipcp_entry → ipcp_entry) :
    hash_entries (fun b => (t b).map f) = (hash_entries t).map f := by
  simp [hash_entries, List.map_flatMap]

theorem rina_dm_table_eta (dm : rina_dm) (t : Fin IPCP_HASH_SIZE → List ipcp_entry)
    (h : t = dm.ipcp_table) : { dm with ipcp_table := t } = dm := by
  subst h; rfl

/-- C6: in a consistent registry, when its allocations succeed,
`rina_assign_to_dif` returns 0 and appends to the session queue exactly one
ASSIGN_TO_DIF_RESP with the request's event id, whose result is 0 when a live
entry has the requested id and 1 when none has.  The table afterwards is the
old one with the DIF name of the entry with that id replaced by the requested
name: no other entry and no other field changes, entries keep their address,
and the bitmap, the fetch cursor and the factory list are untouched.  With an
unknown id the registry is returned as it was. -/
theorem C6_assign_to_dif_sets_dif_name (hash_min : Nat → Fin IPCP_HASH_SIZE)
    (serialize_rina_msg : rina_msg → List Nat) (rc : rina_ctrl) (dm : rina_dm)
    (req : rina_msg_assign_to_dif) (hinv : dm_inv hash_min dm) :
    (rina_assign_to_dif hash_min serialize_rina_msg rc dm req true true true).ret = 0 ∧
    (∃ result,
      (rina_assign_to_dif hash_min serialize_rina_msg rc dm req true true true).rc.upqueue =
        rc.upqueue ++
          [⟨serialize_rina_msg (rina_msg.assign_to_dif_resp
              ⟨RINA_CTRL_ASSIGN_TO_DIF_RESP, req.event_id, result⟩),
            (serialize_rina_msg (rina_msg.assign_to_dif_resp
              ⟨RINA_CTRL_ASSIGN_TO_DIF_RESP, req.event_id, result⟩)).length⟩] ∧
      (result = 0 ↔ ∃ e ∈ live dm, e.id = req.ipcp_id) ∧
      (result = 1 ↔ ∀ e ∈ live dm, e.id ≠ req.ipcp_id)) ∧
    (rina_assign_to_dif hash_min serialize_rina_msg rc dm req true true true).dm.ipcp_table =
      (fun b => (dm.ipcp_table b).map (assign_entry req.ipcp_id req.dif_name)) ∧
    live (rina_assign_to_dif hash_min serialize_rina_msg rc dm req true true true).dm =
      (live dm).map (assign_entry req.ipcp_id req.dif_name) ∧
    (rina_assign_to_dif hash_min serialize_rina_msg rc dm req true true true).dm.ipcp_id_bitmap =
      dm.ipcp_id_bitmap ∧
    (rina_assign_to_dif hash_min serialize_rina_msg rc dm req true true true).dm.ipcp_fetch_last =
      dm.ipcp_fetch_last ∧
    (rina_assign_to_dif hash_min serialize_rina_msg rc dm req true true true).dm.ipcp_factories =
      dm.ipcp_factories ∧
    (rina_assign_to_dif hash_min serialize_rina_msg rc dm req true true true).calls = [] ∧
    ((∀ e ∈ live dm, e.id ≠ req.ipcp_id) →
      (rina_assign_to_dif hash_min serialize_rina_msg rc dm req true true true).dm = dm) := by
  rw [rina_assign_to_dif_ok]
  have hres := assign_scan_result req.ipcp_id req.dif_name (dm.ipcp_table (hash_min req.ipcp_id))
  have hex : (∃ e ∈ dm.ipcp_table (hash_min req.ipcp_id), e.id = req.ipcp_id) ↔
      ∃ e ∈ live dm, e.id = req.ipcp_id := by
    constructor
    · rintro ⟨e, he, hid⟩
      exact ⟨e, (mem_live dm e).mpr ⟨_, he⟩, hid⟩
    · rintro ⟨e, he, hid⟩
      refine ⟨e, ?_, hid⟩
      rw [← hid]
      exact (dm_inv_mem_live hash_min dm hinv e).mp he
  have htab := assign_table hash_min dm hinv req.ipcp_id req.dif_name
  refine ⟨rfl, ⟨_, rfl, hres.1.trans hex, ?_⟩, htab, ?_, rfl, rfl, rfl, rfl, ?_⟩
  · constructor
    · intro h1 e he hid
      have h0 := (hres.1.trans hex).mpr ⟨e, he, hid⟩
      rw [h1] at h0
      exact absurd h0 Nat.one_ne_zero
    · intro hno
      rcases hres.2 with h0 | h1
      · obtain ⟨e, he, hid⟩ := (hres.1.trans hex).mp h0
        exact absurd hid (hno e he)
      · exact h1
  · show hash_entries (Function.update dm.ipcp_table (hash_min req.ipcp_id) _) = _
    rw [htab, hash_entries_map]
    rfl
  · intro hno
    apply rina_dm_table_eta
    rw [htab]
    funext b
    apply assign_entry_of_ne
    intro e he
    exact hno e ((mem_live dm e).mpr ⟨b, he⟩)

/-- C6 at the registry with ids 0 and 1 live: assigning id 1 reports result 0,
assigning id 99 reports result 1. -/
theorem C6_assign_to_dif_sets_dif_name_witness :
    dm_inv hash_32 dm_two ∧
    (rina_assign_to_dif hash_32 (fun _ => []) ⟨[]⟩ dm_two (assign_req 3 1) true true true).ret
      = 0 ∧
    live (rina_assign_to_dif hash_32 (fun _ => []) ⟨[]⟩ dm_two (assign_req 3 1) true true
      true).dm = (live dm_two).map (assign_entry 1 ⟨some "test.DIF", none, none, none⟩) ∧
    (rina_assign_to_dif hash_32 (fun _ => []) ⟨[]⟩ dm_two (assign_req 4 99) true true true).ret
      = 0 :=
  have h1 := C6_assign_to_dif_sets_dif_name hash_32 (fun _ => []) ⟨[]⟩ dm_two (assign_req 3 1)
    dm_inv_dm_two
  have h2 := C6_assign_to_dif_sets_dif_name hash_32 (fun _ => []) ⟨[]⟩ dm_two (assign_req 4 99)
    dm_inv_dm_two
  ⟨dm_inv_dm_two, h1.1, h1.2.2.2.1, h2.1⟩

/-! ## Enumeration -/

theorem fetch_scan_stop (last : Option Nat) (l : List ipcp_entry) :
    fetch_scan last true l = l.head? := by
  cases l <;> simp [fetch_scan]

theorem fetch_scan_after (x : ipcp_entry) (pre post : List ipcp_entry)
    (h : ∀ e ∈ pre, e.self ≠ x.self) :
    fetch_scan (some x.self) false (pre ++ x :: post) = post.head? := by
  induction pre with
  | nil => simp [fetch_scan, fetch_scan_stop]
  | cons a pre ih =>
    have ha : x.self ≠ a.self := fun hax => h a (List.mem_cons_self _ _) hax.symm
    simp only [List.cons_append, fetch_scan, Bool.false_eq_true, if_false, Option.some.injEq, ha]
    exact ih (fun e he => h e (List.mem_cons_of_mem _ he))

/-- The entry the scan of `rina_ipcp_fetch` stops at, when the cursor is at
the end of the part `pre` of the table order already returned. -/
theorem fetch_scan_next (pre suf : List ipcp_entry)
    (hnd : ((pre ++ suf).map ipcp_entry.self).Nodup) :
    fetch_scan (pre.getLast?.map ipcp_entry.self) (pre.getLast?.map ipcp_entry.self).isNone
      (pre ++ suf) = suf.head? := by
  rcases List.eq_nil_or_concat pre with rfl | ⟨p, x, rfl⟩
  · simp [fetch_scan_stop]
  · rw [List.concat_eq_append] at hnd ⊢
    have hx : ∀ e ∈ p, e.self ≠ x.self := by
      intro e he hs
      rw [List.map_append, List.map_append] at hnd
      have h1 := (List.nodup_append.mp (List.nodup_append.mp hnd).1)
      exact h1.2.2 (List.mem_map_of_mem _ he) (by simp [hs])
    have hl : (p ++ [x]).getLast? = some x := by simp
    rw [hl]
    simp only [Option.map_some', Option.isNone_some, List.append_assoc, List.singleton_append]
    exact fetch_scan_after x p suf hx

/-- The handler `rina_ipcp_fetch` when its three allocations succeed. -/
theorem rina_ipcp_fetch_ok (serialize_rina_msg : rina_msg → List Nat) (rc : rina_ctrl)
    (dm : rina_dm) (rq : rina_msg_base × rina_msg_fetch_ipcp_resp) :
    rina_ipcp_fetch serialize_rina_msg rc dm rq.1 (some rq.2) true true =
      ⟨0,
       ⟨rc.upqueue ++ [upqueue_node serialize_rina_msg (rina_msg.fetch_ipcp_resp
          (fetch_resp rq (fetch_scan dm.ipcp_fetch_last dm.ipcp_fetch_last.isNone (live dm))))]⟩,
       { dm with
         ipcp_fetch_last :=
           (fetch_scan dm.ipcp_fetch_last dm.ipcp_fetch_last.isNone (live dm)).map
             ipcp_entry.self },
       []⟩ := by
  unfold live
  cases hf : fetch_scan dm.ipcp_fetch_last dm.ipcp_fetch_last.isNone (hash_entries dm.ipcp_table) <;>
    simp [rina_ipcp_fetch, rina_upqueue_append, hf, fetch_resp, upqueue_node]

theorem fetch_run_cons (serialize_rina_msg : rina_msg → List Nat) (rc : rina_ctrl) (dm : rina_dm)
    (rq : rina_msg_base × rina_msg_fetch_ipcp_resp)
    (rest : List (rina_msg_base × rina_msg_fetch_ipcp_resp)) :
    fetch_run serialize_rina_msg rc dm (rq :: rest) =
      fetch_run serialize_rina_msg
        ⟨rc.upqueue ++ [upqueue_node serialize_rina_msg (rina_msg.fetch_ipcp_resp
          (fetch_resp rq (fetch_scan dm.ipcp_fetch_last dm.ipcp_fetch_last.isNone (live dm))))]⟩
        { dm with
          ipcp_fetch_last :=
            (fetch_scan dm.ipcp_fetch_last dm.ipcp_fetch_last.isNone (live dm)).map
              ipcp_entry.self } rest := by
  rw [fetch_run, rina_ipcp_fetch_ok]

/-- One pass of the enumeration, entered after the part `pre` of the table
order has been returned: the remaining entries `suf` are returned in order,
then the end of the sequence, and the cursor is back at NULL. -/
theorem fetch_run_pass (serialize_rina_msg : rina_msg → List Nat) (dm : rina_dm)
    (last : rina_msg_base × rina_msg_fetch_ipcp_resp)
    (hnd : ((live dm).map ipcp_entry.self).Nodup) :
    ∀ (suf pre : List ipcp_entry) (rc : rina_ctrl)
      (rqs : List (rina_msg_base × rina_msg_fetch_ipcp_resp)),
      live dm = pre ++ suf → rqs.length = suf.length →
      fetch_run serialize_rina_msg rc
          { dm with ipcp_fetch_last := pre.getLast?.map ipcp_entry.self } (rqs ++ [last]) =
        (⟨rc.upqueue ++
            List.zipWith (fun rq e => upqueue_node serialize_rina_msg
              (rina_msg.fetch_ipcp_resp (fetch_resp rq (some e)))) rqs suf ++
            [upqueue_node serialize_rina_msg (rina_msg.fetch_ipcp_resp (fetch_resp last none))]⟩,
         { dm with ipcp_fetch_last := none }) := by
  intro suf
  induction suf with
  | nil =>
    intro pre rc rqs hl hlen
    have hr : rqs = [] := List.length_eq_zero.mp hlen
    subst hr
    have hscan := fetch_scan_next pre [] (hl ▸ hnd)
    rw [← hl] at hscan
    rw [List.nil_append, fetch_run_cons]
    simp only [fetch_run, List.zipWith_nil_left, List.append_nil]
    have hlive : live { dm with ipcp_fetch_last := pre.getLast?.map ipcp_entry.self } = live dm :=
      rfl
    rw [hlive, hscan]
    rfl
  | cons y suf ih =>
    intro pre rc rqs hl hlen
    cases rqs with
    | nil => simp at hlen
    | cons rq rqs =>
      have hscan := fetch_scan_next pre (y :: suf) (hl ▸ hnd)
      rw [← hl] at hscan
      have hlive : live { dm with ipcp_fetch_last := pre.getLast?.map ipcp_entry.self } = live dm :=
        rfl
      rw [List.cons_append, fetch_run_cons, hlive]
      simp only [hscan, List.head?_cons, Option.map_some']
      have hl2 : live dm = (pre ++ [y]) ++ suf := by rw [hl]; simp
      have hlen2 : rqs.length = suf.length := by simpa using hlen
      have hc : (pre ++ [y]).getLast?.map ipcp_entry.self = some y.self := by simp
      have := ih (pre ++ [y]) ⟨rc.upqueue ++ [upqueue_node serialize_rina_msg
        (rina_msg.fetch_ipcp_resp (fetch_resp rq (some y)))]⟩ rqs hl2 hlen2
      rw [hc] at this
      simp only [List.zipWith_cons_cons, List.append_assoc, List.singleton_append] at this ⊢
      exact this

theorem fetch_run_append (serialize_rina_msg : rina_msg → List Nat) :
    ∀ (l1 l2 : List (rina_msg_base × rina_msg_fetch_ipcp_resp)) (rc : rina_ctrl) (dm : rina_dm),
      fetch_run serialize_rina_msg rc dm (l1 ++ l2) =
        fetch_run serialize_rina_msg (fetch_run serialize_rina_msg rc dm l1).1
          (fetch_run serialize_rina_msg rc dm l1).2 l2 := by
  intro l1
  induction l1 with
  | nil => intro l2 rc dm; rfl
  | cons a l1 ih =>
    intro l2 rc dm
    simp only [List.cons_append, fetch_run]
    exact ih l2 _ _

theorem rina_dm_cursor_eta (dm : rina_dm) (c : Option Nat) (h : dm.ipcp_fetch_last = c) :
    { dm with ipcp_fetch_last := c } = dm := by
  subst h; rfl

/-- C7: in a registry with the fetch cursor at NULL whose `n` live entries are
distinct heap objects, and with every allocation succeeding, `n` FETCH_IPCP
requests followed by one more put on the session queue, in this order, one
response with `end = 0` for each live entry in table order (the `k`-th carries
the id, DIF type, name and DIF name of the `k`-th entry and the event id of the
`k`-th request) and then one response with `end = 1` and zeroed names.  The
live entries are pairwise distinct, so each is returned exactly once.  The
registry afterwards is the one before the pass, cursor at NULL included, so the
next request is answered with the first entry again. -/
theorem C7_fetch_enumerates_each_entry_once (serialize_rina_msg : rina_msg → List Nat)
    (rc : rina_ctrl) (dm : rina_dm)
    (rqs : List (rina_msg_base × rina_msg_fetch_ipcp_resp))
    (last next : rina_msg_base × rina_msg_fetch_ipcp_resp)
    (hself : self_distinct dm) (hcur : dm.ipcp_fetch_last = none)
    (hlen : rqs.length = (live dm).length) :
    (fetch_run serialize_rina_msg rc dm (rqs ++ [last])).1.upqueue =
      rc.upqueue ++
        List.zipWith (fun rq e => upqueue_node serialize_rina_msg
          (rina_msg.fetch_ipcp_resp (fetch_resp rq (some e)))) rqs (live dm) ++
        [upqueue_node serialize_rina_msg (rina_msg.fetch_ipcp_resp (fetch_resp last none))] ∧
    (live dm).Nodup ∧
    (fetch_run serialize_rina_msg rc dm (rqs ++ [last])).2 = dm ∧
    (fetch_run serialize_rina_msg rc dm (rqs ++ [last] ++ [next])).1.upqueue =
      (fetch_run serialize_rina_msg rc dm (rqs ++ [last])).1.upqueue ++
        [upqueue_node serialize_rina_msg
          (rina_msg.fetch_ipcp_resp (fetch_resp next (live dm).head?))] := by
  have hpass := fun rc0 rqs0 last0 hlen0 =>
    fetch_run_pass serialize_rina_msg dm last0 hself (live dm) [] rc0 rqs0 rfl hlen0
  simp only [List.getLast?_nil, Option.map_none', List.nil_append] at hpass
  rw [rina_dm_cursor_eta dm none hcur] at hpass
  have h1 := hpass rc rqs last hlen
  refine ⟨by rw [h1], List.Nodup.of_map _ hself, by rw [h1], ?_⟩
  rw [fetch_run_append serialize_rina_msg (rqs ++ [last]) [next], h1, fetch_run_cons]
  simp only [fetch_run, hcur, Option.isNone_none, fetch_scan_stop]

/-- C7 at the registry with ids 0 and 1 live: three requests produce the two
entries and then the end of the sequence, and leave the registry as it was. -/
theorem C7_fetch_enumerates_each_entry_once_witness :
    self_distinct dm_two ∧ dm_two.ipcp_fetch_last = none ∧
    [fetch_req 1, fetch_req 2].length = (live dm_two).length ∧
    (fetch_run (fun _ => []) ⟨[]⟩ dm_two ([fetch_req 1, fetch_req 2] ++ [fetch_req 3])).1.upqueue =
      [] ++
        List.zipWith (fun rq e => upqueue_node (fun _ => [])
          (rina_msg.fetch_ipcp_resp (fetch_resp rq (some e)))) [fetch_req 1, fetch_req 2]
          (live dm_two) ++
        [upqueue_node (fun _ => []) (rina_msg.fetch_ipcp_resp (fetch_resp (fetch_req 3) none))] ∧
    (fetch_run (fun _ => []) ⟨[]⟩ dm_two ([fetch_req 1, fetch_req 2] ++ [fetch_req 3])).2
      = dm_two :=
  have hself : self_distinct dm_two := by unfold self_distinct; decide
  have hcur : dm_two.ipcp_fetch_last = none := by decide
  have hlen : [fetch_req 1, fetch_req 2].length = (live dm_two).length := by decide
  have h := C7_fetch_enumerates_each_entry_once (fun _ => []) ⟨[]⟩ dm_two
    [fetch_req 1, fetch_req 2] (fetch_req 3) (fetch_req 4) hself hcur hlen
  ⟨hself, hcur, hlen, h.1, h.2.2.1⟩

/-- C8: in a consistent registry whose fetch cursor references the live entry
`e`, `ipcp_del` on the id of `e` returns 0 and leaves the cursor at NULL; the
table keeps its other entries in their order, and the next FETCH_IPCP (its
allocations succeeding) answers with the first entry of that table, exactly as
at the start of an enumeration, or with `end = 1` when the table is empty. -/
theorem C8_destroy_invalidates_cursor (hash_min : Nat → Fin IPCP_HASH_SIZE)
    (serialize_rina_msg : rina_msg → List Nat) (rc : rina_ctrl) (dm : rina_dm)
    (e : ipcp_entry) (rq : rina_msg_base × rina_msg_fetch_ipcp_resp)
    (hinv : dm_inv hash_min dm) (he : e ∈ live dm)
    (hcur : dm.ipcp_fetch_last = some e.self) :
    (ipcp_del hash_min dm e.id).result = 0 ∧
    (ipcp_del hash_min dm e.id).dm.ipcp_fetch_last = none ∧
    live (ipcp_del hash_min dm e.id).dm = (live dm).eraseP (fun x => x.id == e.id) ∧
    (rina_ipcp_fetch serialize_rina_msg rc (ipcp_del hash_min dm e.id).dm rq.1 (some rq.2)
      true true).ret = 0 ∧
    (rina_ipcp_fetch serialize_rina_msg rc (ipcp_del hash_min dm e.id).dm rq.1 (some rq.2)
      true true).rc.upqueue =
      rc.upqueue ++ [upqueue_node serialize_rina_msg (rina_msg.fetch_ipcp_resp
        (fetch_resp rq (live (ipcp_del hash_min dm e.id).dm).head?))] ∧
    (rina_ipcp_fetch serialize_rina_msg rc (ipcp_del hash_min dm e.id).dm rq.1 (some rq.2)
      true true).dm.ipcp_fetch_last =
      (live (ipcp_del hash_min dm e.id).dm).head?.map ipcp_entry.self ∧
    (live (ipcp_del hash_min dm e.id).dm = [] →
      (fetch_resp rq (live (ipcp_del hash_min dm e.id).dm).head?).xend = 1) := by
  have hc : (ipcp_del hash_min dm e.id).dm.ipcp_fetch_last = none := by
    rw [ipcp_del_live hash_min dm hinv e he]
    simp [hcur]
  have hr : (ipcp_del hash_min dm e.id).result = 0 := by
    rw [ipcp_del_live hash_min dm hinv e he]
  refine ⟨hr, hc, live_after_del hash_min dm hinv e he, ?_, ?_, ?_, ?_⟩
  · rw [rina_ipcp_fetch_ok]
  · rw [rina_ipcp_fetch_ok, hc]
    simp only [Option.isNone_none, fetch_scan_stop]
  · rw [rina_ipcp_fetch_ok, hc]
    simp only [Option.isNone_none, fetch_scan_stop]
  · intro hnil
    rw [hnil]
    rfl

/-- C8 at the registry with ids 0 and 1 live and the cursor on the entry of
id 0: destroying id 0 resets the cursor. -/
theorem C8_destroy_invalidates_cursor_witness :
    dm_inv hash_32 dm_two_fetched ∧ entry_zero ∈ live dm_two_fetched ∧
    dm_two_fetched.ipcp_fetch_last = some entry_zero.self ∧
    (ipcp_del hash_32 dm_two_fetched entry_zero.id).result = 0 ∧
    (ipcp_del hash_32 dm_two_fetched entry_zero.id).dm.ipcp_fetch_last = none :=
  have hinv : dm_inv hash_32 dm_two_fetched :=
    dm_inv_congr hash_32 dm_two dm_two_fetched rfl rfl dm_inv_dm_two
  have he : entry_zero ∈ live dm_two_fetched := by decide
  have hcur : dm_two_fetched.ipcp_fetch_last = some entry_zero.self := by decide
  have h := C8_destroy_invalidates_cursor hash_32 (fun _ => []) ⟨[]⟩ dm_two_fetched entry_zero
    (fetch_req 2) hinv he hcur
  ⟨hinv, he, hcur, h.1, h.2.1⟩

/-! ## Factories -/

theorem find_factory_some (l : List ipcp_factory) (t : Nat) (f : ipcp_factory)
    (h : l.find? (fun x => x.dif_type == t) = some f) : f ∈ l ∧ f.dif_type = t := by
  refine ⟨List.mem_of_find?_eq_some h, ?_⟩
  have := List.find?_some h
  simpa using this

theorem eraseP_eq_erase_of_find (l : List ipcp_factory) (t : Nat) (f : ipcp_factory)
    (h : l.find? (fun x => x.dif_type == t) = some f) :
    l.eraseP (fun x => x.dif_type == t) = l.erase f := by
  induction l with
  | nil => simp at h
  | cons a l ih =>
    by_cases ha : a.dif_type = t
    · have hfa : a = f := by simpa [List.find?_cons, ha] using h
      subst hfa
      simp [List.eraseP_cons, ha]
    · have hne : a ≠ f := by
        intro haf
        exact ha (haf ▸ (find_factory_some _ t f h).2)
      have h2 : l.find? (fun x => x.dif_type == t) = some f := by
        simpa [List.find?_cons, ha] using h
      have hbeq : (a == f) = false := by simpa using hne
      simp [List.eraseP_cons, ha, List.erase_cons, hbeq, ih h2]

theorem find_eraseP_same (l : List ipcp_factory) (t : Nat)
    (hnd : (l.map ipcp_factory.dif_type).Nodup) :
    (l.eraseP (fun x => x.dif_type == t)).find? (fun x => x.dif_type == t) = none := by
  induction l with
  | nil => rfl
  | cons a l ih =>
    rw [List.map_cons, List.nodup_cons] at hnd
    by_cases ha : a.dif_type = t
    · have : ∀ x ∈ l, ¬ (fun y : ipcp_factory => y.dif_type == t) x = true := by
        intro x hx hp
        have hxt : x.dif_type = t := by simpa using hp
        exact hnd.1 (by rw [ha, ← hxt]; exact List.mem_map_of_mem _ hx)
      simpa [List.eraseP_cons, ha] using List.find?_eq_none.mpr this
    · simp [List.eraseP_cons, ha, List.find?_cons, ih hnd.2]

theorem find_eraseP_other (l : List ipcp_factory) (t u : Nat) (hne : u ≠ t) :
    (l.eraseP (fun x => x.dif_type == t)).find? (fun x => x.dif_type == u) =
      l.find? (fun x => x.dif_type == u) := by
  induction l with
  | nil => rfl
  | cons a l ih =>
    by_cases ha : a.dif_type = t
    · have hau : ¬ a.dif_type = u := fun h => hne (h.symm.trans ha)
      subst ha
      simp [List.eraseP_cons, List.find?_cons, hau]
    · by_cases hau : a.dif_type = u
      · subst hau
        simp [List.eraseP_cons, ha, List.find?_cons]
      · simp [List.eraseP_cons, ha, List.find?_cons, hau, ih]

theorem isNone_of_isSome {α : Type} (o : Option α) (h : o.isSome = true) : o.isNone = false := by
  cases o with
  | none => exact absurd h (by simp)
  | some _ => rfl

/-- The successful path of `rina_ipcp_factory_register`. -/
theorem register_ok (dm : rina_dm) (fac : ipcp_factory) (hc : fac.create.isSome = true)
    (hnew : ipcp_factories_find dm fac.dif_type = none) :
    rina_ipcp_factory_register dm (some fac) true =
      (0, { dm with ipcp_factories := dm.ipcp_factories ++ [fac] }) := by
  simp [rina_ipcp_factory_register, isNone_of_isSome _ hc, hnew]

/-- The duplicate path of `rina_ipcp_factory_register`. -/
theorem register_busy (dm : rina_dm) (fac orig : ipcp_factory) (kmalloc_ok : Bool)
    (hc : fac.create.isSome = true)
    (hdup : ipcp_factories_find dm fac.dif_type = some orig) :
    rina_ipcp_factory_register dm (some fac) kmalloc_ok = (-EBUSY, dm) := by
  simp [rina_ipcp_factory_register, isNone_of_isSome _ hc, hdup]

theorem find_after_register (dm : rina_dm) (fac : ipcp_factory)
    (hnew : ipcp_factories_find dm fac.dif_type = none) :
    ipcp_factories_find { dm with ipcp_factories := dm.ipcp_factories ++ [fac] } fac.dif_type
      = some fac := by
  unfold ipcp_factories_find at hnew ⊢
  simp [List.find?_append, hnew]

/-- C9: `rina_ipcp_factory_register` returns `-EINVAL` for a NULL factory and
for a factory without creation function, and `-EBUSY` for a factory whose DIF
type already has one; in each case the registry, factory list included, is
returned as it was, and the lookup of the DIF type still finds the factory
registered first.  In particular, after a first registration has succeeded, a
second one for the same DIF type is rejected and the lookup returns the first
factory, with its creation function and operation table. -/
theorem C9_register_rejects_invalid_and_duplicate (dm : rina_dm) (factory : ipcp_factory)
    (kmalloc_ok : Bool) :
    rina_ipcp_factory_register dm none kmalloc_ok = (-22, dm) ∧
    (factory.create = none →
      rina_ipcp_factory_register dm (some factory) kmalloc_ok = (-22, dm)) ∧
    (∀ orig, factory.create.isSome = true →
      ipcp_factories_find dm factory.dif_type = some orig →
      rina_ipcp_factory_register dm (some factory) kmalloc_ok = (-16, dm) ∧
      ipcp_factories_find (rina_ipcp_factory_register dm (some factory) kmalloc_ok).2
        factory.dif_type = some orig) ∧
    (∀ first, first.create.isSome = true → factory.create.isSome = true →
      factory.dif_type = first.dif_type →
      ipcp_factories_find dm first.dif_type = none →
      (rina_ipcp_factory_register dm (some first) true).1 = 0 ∧
      (rina_ipcp_factory_register (rina_ipcp_factory_register dm (some first) true).2
        (some factory) kmalloc_ok) =
        (-16, (rina_ipcp_factory_register dm (some first) true).2) ∧
      ipcp_factories_find
        (rina_ipcp_factory_register (rina_ipcp_factory_register dm (some first) true).2
          (some factory) kmalloc_ok).2 first.dif_type = some first) := by
  refine ⟨rfl, fun hc => ?_, fun orig hc hdup => ?_, fun first hc1 hc2 hty hnew => ?_⟩
  · simp [rina_ipcp_factory_register, hc, EINVAL]
  · have h := register_busy dm factory orig kmalloc_ok hc hdup
    rw [h]
    exact ⟨rfl, hdup⟩
  · rw [register_ok dm first hc1 hnew]
    have hfind := find_after_register dm first hnew
    have h := register_busy { dm with ipcp_factories := dm.ipcp_factories ++ [first] } factory
      first kmalloc_ok hc2 (hty ▸ hfind)
    rw [h]
    exact ⟨rfl, rfl, hfind⟩

/-- C9 at the initial registry: the shim-dummy factory registers, a second
factory for DIF type 2 is rejected, and the lookup returns the first. -/
theorem C9_register_rejects_invalid_and_duplicate_witness :
    shim_dummy_factory.create.isSome = true ∧ shim_dummy_factory_bis.create.isSome = true ∧
    shim_dummy_factory_bis.dif_type = shim_dummy_factory.dif_type ∧
    ipcp_factories_find rina_dm_init shim_dummy_factory.dif_type = none ∧
    (rina_ipcp_factory_register (rina_ipcp_factory_register rina_dm_init
      (some shim_dummy_factory) true).2 (some shim_dummy_factory_bis) true).1 = -16 ∧
    ipcp_factories_find
      (rina_ipcp_factory_register (rina_ipcp_factory_register rina_dm_init
        (some shim_dummy_factory) true).2 (some shim_dummy_factory_bis) true).2
      shim_dummy_factory.dif_type = some shim_dummy_factory :=
  have h := (C9_register_rejects_invalid_and_duplicate rina_dm_init shim_dummy_factory_bis
    true).2.2.2 shim_dummy_factory (by decide) (by decide) (by decide) (by decide)
  ⟨by decide, by decide, by decide, by decide, congrArg Prod.fst h.2.1, h.2.2⟩

/-- The successful path of `rina_ipcp_factory_unregister`. -/
theorem unregister_ok (dm : rina_dm) (t : Nat) (f : ipcp_factory)
    (h : ipcp_factories_find dm t = some f) :
    rina_ipcp_factory_unregister dm t =
      (0, { dm with ipcp_factories := dm.ipcp_factories.eraseP (fun x => x.dif_type == t) }) := by
  simp [rina_ipcp_factory_unregister, h]

theorem ipcp_add_no_factory (hash_min : Nat → Fin IPCP_HASH_SIZE) (dm : rina_dm)
    (req : rina_msg_ipcp_create) (ipcp_id : Nat) (create_ret entry_alloc : Option Nat)
    (h : ipcp_factories_find dm req.dif_type = none) :
    ipcp_add hash_min dm req ipcp_id create_ret entry_alloc = ⟨-EINVAL, ipcp_id, dm, []⟩ := by
  simp [ipcp_add, h]

/-- C10: `rina_ipcp_factory_unregister` returns `-EINVAL` and the registry as
it was when the DIF type has no factory.  When it has the factory `f` (in a
factory list with one factory per DIF type) it returns 0 and removes `f` and
nothing else: the lookups of the other DIF types answer as before and the
table, bitmap and cursor are untouched.  Afterwards the lookup of the DIF type
finds nothing, `ipcp_add` for it returns `-EINVAL` without changing the
registry, and a factory for it can be registered again. -/
theorem C10_unregister_removes_exactly_the_factory (hash_min : Nat → Fin IPCP_HASH_SIZE)
    (dm : rina_dm) (dif_type : Nat) (hinv : factories_inv dm) :
    (ipcp_factories_find dm dif_type = none →
      rina_ipcp_factory_unregister dm dif_type = (-22, dm)) ∧
    (∀ f, ipcp_factories_find dm dif_type = some f →
      (rina_ipcp_factory_unregister dm dif_type).1 = 0 ∧
      (rina_ipcp_factory_unregister dm dif_type).2.ipcp_factories = dm.ipcp_factories.erase f ∧
      (rina_ipcp_factory_unregister dm dif_type).2.ipcp_table = dm.ipcp_table ∧
      (rina_ipcp_factory_unregister dm dif_type).2.ipcp_id_bitmap = dm.ipcp_id_bitmap ∧
      (rina_ipcp_factory_unregister dm dif_type).2.ipcp_fetch_last = dm.ipcp_fetch_last ∧
      (∀ u, u ≠ dif_type →
        ipcp_factories_find (rina_ipcp_factory_unregister dm dif_type).2 u =
          ipcp_factories_find dm u) ∧
      ipcp_factories_find (rina_ipcp_factory_unregister dm dif_type).2 dif_type = none ∧
      (∀ (req : rina_msg_ipcp_create) (ipcp_id : Nat) (create_ret entry_alloc : Option Nat),
        req.dif_type = dif_type →
        (ipcp_add hash_min (rina_ipcp_factory_unregister dm dif_type).2 req ipcp_id create_ret
          entry_alloc).ret = -22 ∧
        (ipcp_add hash_min (rina_ipcp_factory_unregister dm dif_type).2 req ipcp_id create_ret
          entry_alloc).dm = (rina_ipcp_factory_unregister dm dif_type).2) ∧
      (∀ g : ipcp_factory, g.dif_type = dif_type → g.create.isSome = true →
        (rina_ipcp_factory_register (rina_ipcp_factory_unregister dm dif_type).2 (some g)
          true).1 = 0 ∧
        ipcp_factories_find
          (rina_ipcp_factory_register (rina_ipcp_factory_unregister dm dif_type).2 (some g)
            true).2 dif_type = some g)) := by
  refine ⟨fun hnone => ?_, fun f hf => ?_⟩
  · simp [rina_ipcp_factory_unregister, hnone, EINVAL]
  · rw [unregister_ok dm dif_type f hf]
    have hgone : ipcp_factories_find
        { dm with ipcp_factories := dm.ipcp_factories.eraseP (fun x => x.dif_type == dif_type) }
        dif_type = none := find_eraseP_same dm.ipcp_factories dif_type hinv.nodup
    refine ⟨rfl, eraseP_eq_erase_of_find dm.ipcp_factories dif_type f hf, rfl, rfl, rfl,
      fun u hu => find_eraseP_other dm.ipcp_factories dif_type u hu, hgone, ?_, ?_⟩
    · intro req ipcp_id create_ret entry_alloc hty
      rw [ipcp_add_no_factory hash_min _ req ipcp_id create_ret entry_alloc (hty ▸ hgone)]
      exact ⟨rfl, rfl⟩
    · intro g hg hc
      rw [register_ok _ g hc (hg ▸ hgone)]
      exact ⟨rfl, hg ▸ find_after_register _ g (hg ▸ hgone)⟩

theorem factories_inv_dm_shim : factories_inv dm_shim where
  create := by decide
  nodup := by decide

/-- C10 at the registry of `rina_shim_dummy_init`: unregistering DIF type 2
returns 0 and the lookup then finds nothing; unregistering DIF type 1, which
has no factory, returns `-EINVAL`. -/
theorem C10_unregister_removes_exactly_the_factory_witness :
    factories_inv dm_shim ∧
    ipcp_factories_find dm_shim 2 = some shim_dummy_factory ∧
    ipcp_factories_find dm_shim 1 = none ∧
    (rina_ipcp_factory_unregister dm_shim 2).1 = 0 ∧
    ipcp_factories_find (rina_ipcp_factory_unregister dm_shim 2).2 2 = none ∧
    rina_ipcp_factory_unregister dm_shim 1 = (-22, dm_shim) :=
  have h2 := (C10_unregister_removes_exactly_the_factory hash_32 dm_shim 2
    factories_inv_dm_shim).2 shim_dummy_factory (by decide)
  have h1 := (C10_unregister_removes_exactly_the_factory hash_32 dm_shim 1
    factories_inv_dm_shim).1 (by decide)
  ⟨factories_inv_dm_shim, by decide, by decide, h2.1, h2.2.2.2.2.2.2.1, h1⟩

theorem ipcp_del_factories (hash_min : Nat → Fin IPCP_HASH_SIZE) (dm : rina_dm) (ipcp_id : Nat) :
    (ipcp_del hash_min dm ipcp_id).dm.ipcp_factories = dm.ipcp_factories := by
  unfold ipcp_del
  split
  · rfl
  · simp only
    split <;> rfl

theorem factories_inv_congr (dm dm1 : rina_dm) (h : dm1.ipcp_factories = dm.ipcp_factories)
    (hinv : factories_inv dm) : factories_inv dm1 where
  create := by rw [h]; exact hinv.create
  nodup := by rw [h]; exact hinv.nodup

theorem factories_inv_register (dm : rina_dm) (factory : Option ipcp_factory) (kmalloc_ok : Bool)
    (hinv : factories_inv dm) :
    factories_inv (rina_ipcp_factory_register dm factory kmalloc_ok).2 := by
  cases factory with
  | none => exact hinv
  | some fac =>
    simp only [rina_ipcp_factory_register]
    split_ifs with h1 h2 h3
    · exact hinv
    · exact hinv
    · exact hinv
    · have hc : fac.create.isSome = true := by
        cases hcr : fac.create with
        | none => rw [hcr] at h1; exact absurd rfl h1
        | some _ => rfl
      have hnone : dm.ipcp_factories.find? (fun x => x.dif_type == fac.dif_type) = none := by
        cases hfd : ipcp_factories_find dm fac.dif_type with
        | none => exact hfd
        | some _ => rw [hfd] at h2; exact absurd rfl h2
      constructor
      · intro f hf
        rcases List.mem_append.mp hf with hf | hf
        · exact hinv.create f hf
        · rw [List.mem_singleton.mp hf]; exact hc
      · show ((dm.ipcp_factories ++ [fac]).map ipcp_factory.dif_type).Nodup
        rw [List.map_append, List.nodup_append]
        refine ⟨hinv.nodup, by simp, ?_⟩
        intro t ht1 ht2
        obtain ⟨f, hf, hft⟩ := List.mem_map.mp ht1
        have htf : t = fac.dif_type := by simpa using ht2
        have := List.find?_eq_none.mp hnone f hf
        exact this (by simp [hft, htf])

theorem factories_inv_unregister (dm : rina_dm) (dif_type : Nat) (hinv : factories_inv dm) :
    factories_inv (rina_ipcp_factory_unregister dm dif_type).2 := by
  simp only [rina_ipcp_factory_unregister]
  cases ipcp_factories_find dm dif_type with
  | none => exact hinv
  | some _ =>
    constructor
    · intro f hf
      exact hinv.create f (List.mem_of_mem_eraseP hf)
    · exact hinv.nodup.sublist ((List.eraseP_sublist _).map _)

theorem factories_inv_init : factories_inv rina_dm_init where
  create := fun f hf => by simp [rina_dm_init] at hf
  nodup := by simp [rina_dm_init]

/-- Every registry reached from the initial one has a consistent factory
list. -/
theorem factories_inv_registry_run (hash_min : Nat → Fin IPCP_HASH_SIZE)
    (ops : List registry_op) :
    ∀ dm, factories_inv dm → factories_inv (registry_run hash_min dm ops) := by
  induction ops with
  | nil => intro dm h; exact h
  | cons op ops ih =>
    intro dm h
    apply ih
    cases op with
    | factory_register factory kmalloc_ok => exact factories_inv_register dm factory kmalloc_ok h
    | factory_unregister dif_type => exact factories_inv_unregister dm dif_type h
    | add req ipcp_id create_ret entry_alloc =>
      exact factories_inv_congr dm _ (ipcp_add_factories hash_min dm req ipcp_id _ _) h
    | del ipcp_id => exact factories_inv_congr dm _ (ipcp_del_factories hash_min dm ipcp_id) h

/-! ## The handlers keep the invariants -/

theorem dm_inv_assign (hash_min : Nat → Fin IPCP_HASH_SIZE) (dm : rina_dm) (k : Nat)
    (n : rina_name) (h : dm_inv hash_min dm) :
    dm_inv hash_min
      { dm with
        ipcp_table := Function.update dm.ipcp_table (hash_min k)
          (assign_scan k n (dm.ipcp_table (hash_min k))).1 } := by
  have hid : ∀ e, (assign_entry k n e).id = e.id := by
    intro e
    unfold assign_entry
    split <;> rfl
  have hmap : ∀ b, ((dm.ipcp_table b).map (assign_entry k n)).map ipcp_entry.id =
      (dm.ipcp_table b).map ipcp_entry.id := by
    intro b
    rw [List.map_map]
    exact List.map_congr_left (fun e _ => hid e)
  rw [assign_table hash_min dm h k n]
  constructor
  · intro b e he
    obtain ⟨e0, he0, rfl⟩ := List.mem_map.mp he
    rw [hid]; exact h.bucket b e0 he0
  · intro b e he
    obtain ⟨e0, he0, rfl⟩ := List.mem_map.mp he
    rw [hid]; exact h.id_lt b e0 he0
  · intro b
    show (((dm.ipcp_table b).map (assign_entry k n)).map ipcp_entry.id).Nodup
    rw [hmap]; exact h.nodup b
  · intro i
    rw [h.bitmap i]
    constructor
    · rintro ⟨e, he, hei⟩
      exact ⟨assign_entry k n e, List.mem_map_of_mem _ he, by rw [hid]; exact hei⟩
    · rintro ⟨e, he, hei⟩
      obtain ⟨e0, he0, rfl⟩ := List.mem_map.mp he
      exact ⟨e0, he0, by rw [← hid e0]; exact hei⟩

/-- The handler `rina_ipcp_create` keeps the registry consistent, whatever its
allocations return. -/
theorem dm_inv_rina_ipcp_create (hash_min : Nat → Fin IPCP_HASH_SIZE)
    (serialize_rina_msg : rina_msg → List Nat) (rc : rina_ctrl) (dm : rina_dm)
    (req : rina_msg_ipcp_create) (ipcp_id : Nat) (create_ret entry_alloc : Option Nat)
    (resp_ok entry_ok serbuf_ok : Bool) (h : dm_inv hash_min dm) :
    dm_inv hash_min (rina_ipcp_create hash_min serialize_rina_msg rc dm req ipcp_id create_ret
      entry_alloc resp_ok entry_ok serbuf_ok).dm := by
  have ha := dm_inv_ipcp_add hash_min dm req ipcp_id create_ret entry_alloc h
  have hd := dm_inv_ipcp_del hash_min _
    (ipcp_add hash_min dm req ipcp_id create_ret entry_alloc).ipcp_id ha
  unfold rina_ipcp_create
  simp only
  split_ifs <;> assumption

/-- The handler `rina_ipcp_destroy` keeps the registry consistent. -/
theorem dm_inv_rina_ipcp_destroy (hash_min : Nat → Fin IPCP_HASH_SIZE)
    (serialize_rina_msg : rina_msg → List Nat) (rc : rina_ctrl) (dm : rina_dm)
    (req : rina_msg_ipcp_destroy) (resp_ok entry_ok serbuf_ok : Bool) (h : dm_inv hash_min dm) :
    dm_inv hash_min (rina_ipcp_destroy hash_min serialize_rina_msg rc dm req resp_ok entry_ok
      serbuf_ok).dm := by
  have hd := dm_inv_ipcp_del hash_min dm req.ipcp_id h
  unfold rina_ipcp_destroy
  simp only
  split_ifs <;> assumption

/-- The handler `rina_ipcp_fetch` changes nothing but the cursor. -/
theorem rina_ipcp_fetch_frame (serialize_rina_msg : rina_msg → List Nat) (rc : rina_ctrl)
    (dm : rina_dm) (req : rina_msg_base) (resp_alloc : Option rina_msg_fetch_ipcp_resp)
    (entry_ok serbuf_ok : Bool) :
    (rina_ipcp_fetch serialize_rina_msg rc dm req resp_alloc entry_ok serbuf_ok).dm.ipcp_id_bitmap
      = dm.ipcp_id_bitmap ∧
    (rina_ipcp_fetch serialize_rina_msg rc dm req resp_alloc entry_ok serbuf_ok).dm.ipcp_table
      = dm.ipcp_table ∧
    (rina_ipcp_fetch serialize_rina_msg rc dm req resp_alloc entry_ok serbuf_ok).dm.ipcp_factories
      = dm.ipcp_factories := by
  unfold rina_ipcp_fetch
  cases resp_alloc with
  | none => exact ⟨rfl, rfl, rfl⟩
  | some resp0 =>
    simp only
    cases fetch_scan dm.ipcp_fetch_last dm.ipcp_fetch_last.isNone (hash_entries dm.ipcp_table) <;>
      split_ifs <;> exact ⟨rfl, rfl, rfl⟩

/-- The handler `rina_ipcp_fetch` keeps the registry consistent. -/
theorem dm_inv_rina_ipcp_fetch (hash_min : Nat → Fin IPCP_HASH_SIZE)
    (serialize_rina_msg : rina_msg → List Nat) (rc : rina_ctrl) (dm : rina_dm)
    (req : rina_msg_base) (resp_alloc : Option rina_msg_fetch_ipcp_resp)
    (entry_ok serbuf_ok : Bool) (h : dm_inv hash_min dm) :
    dm_inv hash_min
      (rina_ipcp_fetch serialize_rina_msg rc dm req resp_alloc entry_ok serbuf_ok).dm :=
  have hf := rina_ipcp_fetch_frame serialize_rina_msg rc dm req resp_alloc entry_ok serbuf_ok
  dm_inv_congr hash_min dm _ hf.1 hf.2.1 h

/-- The handler `rina_assign_to_dif` keeps the registry consistent. -/
theorem dm_inv_rina_assign_to_dif (hash_min : Nat → Fin IPCP_HASH_SIZE)
    (serialize_rina_msg : rina_msg → List Nat) (rc : rina_ctrl) (dm : rina_dm)
    (req : rina_msg_assign_to_dif) (resp_ok entry_ok serbuf_ok : Bool)
    (h : dm_inv hash_min dm) :
    dm_inv hash_min (rina_assign_to_dif hash_min serialize_rina_msg rc dm req resp_ok entry_ok
      serbuf_ok).dm := by
  have ha := dm_inv_assign hash_min dm req.ipcp_id req.dif_name h
  unfold rina_assign_to_dif
  simp only
  split_ifs <;> assumption

/-- Creation keeps entries distinct heap objects when the allocator returns an
address that no live entry has. -/
theorem self_distinct_ipcp_add (hash_min : Nat → Fin IPCP_HASH_SIZE) (dm : rina_dm)
    (req : rina_msg_ipcp_create) (ipcp_id : Nat) (create_ret : Option Nat) (addr : Nat)
    (h : self_distinct dm) (hfresh : ∀ e ∈ live dm, e.self ≠ addr) :
    self_distinct (ipcp_add hash_min dm req ipcp_id create_ret (some addr)).dm := by
  unfold ipcp_add
  cases ipcp_factories_find dm req.dif_type with
  | none => exact h
  | some factory =>
    cases create_ret with
    | none => exact h
    | some ipcp_priv =>
      simp only
      split
      · unfold self_distinct live
        have hp := (live_hash_add hash_min dm.ipcp_table
          { self := addr,
            id := bitmap_find_next_zero_area dm.ipcp_id_bitmap IPCP_ID_BITMAP_SIZE 0 1 0 % 2 ^ 16,
            name := req.name, dif_name := rina_name_zero, dif_type := req.dif_type,
            ops := factory.ops, priv := ipcp_priv }
          (bitmap_find_next_zero_area dm.ipcp_id_bitmap IPCP_ID_BITMAP_SIZE 0 1 0 % 2 ^ 16)).map
          ipcp_entry.self
        refine (List.Perm.nodup_iff hp).mpr ?_
        rw [List.map_cons, List.nodup_cons]
        refine ⟨fun hm => ?_, h⟩
        obtain ⟨e, he, hs⟩ := List.mem_map.mp hm
        exact hfresh e he hs
      · exact h

/-- Destruction keeps entries distinct heap objects. -/
theorem self_distinct_ipcp_del (hash_min : Nat → Fin IPCP_HASH_SIZE) (dm : rina_dm)
    (ipcp_id : Nat) (hinv : dm_inv hash_min dm) (h : self_distinct dm) :
    self_distinct (ipcp_del hash_min dm ipcp_id).dm := by
  by_cases hex : ∃ e ∈ live dm, e.id = ipcp_id
  · obtain ⟨e, he, rfl⟩ := hex
    unfold self_distinct
    rw [live_after_del hash_min dm hinv e he]
    exact h.sublist ((List.eraseP_sublist _).map _)
  · have hno : ∀ e ∈ live dm, e.id ≠ ipcp_id := fun e he hid => hex ⟨e, he, hid⟩
    rw [ipcp_del_unknown hash_min dm hinv ipcp_id hno]
    exact h

/-! ## The control device: submit -/

/-- The non-empty slots of `rina_handlers`. -/
theorem rina_handlers_slot (t : Nat) (h : rina_msg_handler_t) :
    rina_handlers[t]? = some (some h) ↔
      (t = RINA_CTRL_CREATE_IPCP ∧ h = .ipcp_create) ∨
      (t = RINA_CTRL_DESTROY_IPCP ∧ h = .ipcp_destroy) ∨
      (t = RINA_CTRL_FETCH_IPCP ∧ h = .ipcp_fetch) ∨
      (t = RINA_CTRL_ASSIGN_TO_DIF ∧ h = .assign_to_dif) := by
  simp only [RINA_CTRL_CREATE_IPCP, RINA_CTRL_DESTROY_IPCP, RINA_CTRL_FETCH_IPCP,
    RINA_CTRL_ASSIGN_TO_DIF]
  by_cases ht : t < 10
  · interval_cases t <;> cases h <;> simp [rina_handlers]
  · have hnone : rina_handlers[t]? = none := by
      apply List.getElem?_eq_none
      simp [rina_handlers]; omega
    rw [hnone]
    constructor
    · intro h0; exact absurd h0 (by simp)
    · rintro (⟨h1, _⟩ | ⟨h1, _⟩ | ⟨h1, _⟩ | ⟨h1, _⟩) <;> omega

/-- The rejection of `rina_ctrl_write` for a message type without handler. -/
theorem rina_ctrl_write_no_handler (hash_min : Nat → Fin IPCP_HASH_SIZE)
    (serialize_rina_msg : rina_msg → List Nat)
    (deserialize_rina_msg : List Nat → Option msgbuf) (rc : rina_ctrl) (dm : rina_dm)
    (ubuf : List Nat) (ppos : Int) (k : handler_env) (bmsg : msgbuf)
    (hlen : sizeof_rina_msg_t ≤ ubuf.length) (hd : deserialize_rina_msg ubuf = some bmsg)
    (hno : ∀ h, rina_handlers[bmsg.msg_type]? ≠ some (some h)) :
    rina_ctrl_write hash_min serialize_rina_msg deserialize_rina_msg rc dm ubuf ppos true true k =
      ⟨-EINVAL, ppos, rc, dm, [], true, none⟩ := by
  have hl : ¬ ubuf.length < sizeof_rina_msg_t := by omega
  simp only [rina_ctrl_write, hl, if_false, Bool.not_true, Bool.false_eq_true, hd]
  split <;> rfl

/-- The dispatch of `rina_ctrl_write` for a message type with handler. -/
theorem rina_ctrl_write_handler (hash_min : Nat → Fin IPCP_HASH_SIZE)
    (serialize_rina_msg : rina_msg → List Nat)
    (deserialize_rina_msg : List Nat → Option msgbuf) (rc : rina_ctrl) (dm : rina_dm)
    (ubuf : List Nat) (ppos : Int) (k : handler_env) (bmsg : msgbuf) (h : rina_msg_handler_t)
    (hlen : sizeof_rina_msg_t ≤ ubuf.length) (hd : deserialize_rina_msg ubuf = some bmsg)
    (hslot : rina_handlers[bmsg.msg_type]? = some (some h)) :
    rina_ctrl_write hash_min serialize_rina_msg deserialize_rina_msg rc dm ubuf ppos true true k =
      if (call_handler hash_min serialize_rina_msg h rc dm bmsg k).ret ≠ 0 then
        ⟨(call_handler hash_min serialize_rina_msg h rc dm bmsg k).ret, ppos,
         (call_handler hash_min serialize_rina_msg h rc dm bmsg k).rc,
         (call_handler hash_min serialize_rina_msg h rc dm bmsg k).dm,
         (call_handler hash_min serialize_rina_msg h rc dm bmsg k).calls, true, some h⟩
      else
        ⟨ubuf.length, ppos + ubuf.length,
         (call_handler hash_min serialize_rina_msg h rc dm bmsg k).rc,
         (call_handler hash_min serialize_rina_msg h rc dm bmsg k).dm,
         (call_handler hash_min serialize_rina_msg h rc dm bmsg k).calls, true, some h⟩ := by
  have hl : ¬ ubuf.length < sizeof_rina_msg_t := by omega
  have hmax : ¬ bmsg.msg_type > RINA_CTRL_MSG_MAX := by
    intro hgt
    have hnone : rina_handlers[bmsg.msg_type]? = none := by
      apply List.getElem?_eq_none
      simp only [RINA_CTRL_MSG_MAX] at hgt
      simp [rina_handlers]; omega
    rw [hnone] at hslot
    exact absurd hslot (by simp)
  simp only [rina_ctrl_write, hl, if_false, Bool.not_true, Bool.false_eq_true, hd, hmax, hslot]

/-- Creation for a DIF type without factory fails in `ipcp_add`, before any
allocation. -/
theorem rina_ipcp_create_no_factory (hash_min : Nat → Fin IPCP_HASH_SIZE)
    (serialize_rina_msg : rina_msg → List Nat) (rc : rina_ctrl) (dm : rina_dm)
    (req : rina_msg_ipcp_create) (ipcp_id : Nat) (create_ret entry_alloc : Option Nat)
    (resp_ok entry_ok serbuf_ok : Bool) (h : ipcp_factories_find dm req.dif_type = none) :
    rina_ipcp_create hash_min serialize_rina_msg rc dm req ipcp_id create_ret entry_alloc
      resp_ok entry_ok serbuf_ok = ⟨-EINVAL, rc, dm, []⟩ := by
  simp [rina_ipcp_create, ipcp_add_no_factory hash_min dm req ipcp_id create_ret entry_alloc h,
    EINVAL]

/-- C11: for a CREATE_IPCP message whose DIF type has no factory, whatever the
allocations would return, the handler `rina_ipcp_create` returns `-EINVAL`
with the session and the registry as they were, and `rina_ctrl_write` invokes
that handler and returns its `-EINVAL`: no response is queued, `*ppos` does
not move, and the id bitmap, the process table, the fetch cursor and the
factory list are unchanged. -/
theorem C11_create_without_factory_is_rejected (hash_min : Nat → Fin IPCP_HASH_SIZE)
    (serialize_rina_msg : rina_msg → List Nat)
    (deserialize_rina_msg : List Nat → Option msgbuf) (rc : rina_ctrl) (dm : rina_dm)
    (ubuf : List Nat) (ppos : Int) (k : handler_env) (bmsg : msgbuf)
    (hlen : sizeof_rina_msg_t ≤ ubuf.length) (hd : deserialize_rina_msg ubuf = some bmsg)
    (htype : bmsg.msg_type = RINA_CTRL_CREATE_IPCP)
    (hfac : ipcp_factories_find dm bmsg.dif_type = none) :
    rina_ipcp_create hash_min serialize_rina_msg rc dm bmsg.as_ipcp_create k.ipcp_id
      k.create_ret k.entry_alloc k.resp_ok k.entry_ok k.serbuf_ok = ⟨-22, rc, dm, []⟩ ∧
    rina_ctrl_write hash_min serialize_rina_msg deserialize_rina_msg rc dm ubuf ppos true true k =
      ⟨-22, ppos, rc, dm, [], true, some .ipcp_create⟩ := by
  have hc := rina_ipcp_create_no_factory hash_min serialize_rina_msg rc dm bmsg.as_ipcp_create
    k.ipcp_id k.create_ret k.entry_alloc k.resp_ok k.entry_ok k.serbuf_ok hfac
  have hslot : rina_handlers[bmsg.msg_type]? = some (some .ipcp_create) :=
    (rina_handlers_slot _ _).mpr (Or.inl ⟨htype, rfl⟩)
  refine ⟨hc, ?_⟩
  rw [rina_ctrl_write_handler hash_min serialize_rina_msg deserialize_rina_msg rc dm ubuf ppos k
    bmsg .ipcp_create hlen hd hslot]
  simp only [call_handler, hc]
  rfl

/-- C11 at the initial registry, which has no factory: a CREATE_IPCP message
is rejected and nothing changes. -/
theorem C11_create_without_factory_is_rejected_witness :
    sizeof_rina_msg_t ≤ [1, 7].length ∧
    header_decoder [1, 7] = some ⟨1, 7, 2, rina_name_zero, 0, 0, rina_name_zero⟩ ∧
    ipcp_factories_find rina_dm_init 2 = none ∧
    rina_ctrl_write hash_32 header_codec header_decoder ⟨[]⟩ rina_dm_init [1, 7] 0 true true
      env_ok = ⟨-22, 0, ⟨[]⟩, rina_dm_init, [], true, some .ipcp_create⟩ :=
  ⟨by decide, rfl, rfl,
    (C11_create_without_factory_is_rejected hash_32 header_codec header_decoder ⟨[]⟩
      rina_dm_init [1, 7] 0 env_ok ⟨1, 7, 2, rina_name_zero, 0, 0, rina_name_zero⟩ (by decide)
      rfl rfl rfl).2⟩

/-- C12: for every message that `rina_ctrl_write` has deserialized, a handler
is invoked exactly when the message type is CREATE_IPCP, DESTROY_IPCP,
FETCH_IPCP or ASSIGN_TO_DIF, and it is the handler of that type, whose
session, registry and calls are those of the write.  For every other type (0,
a response type, `RINA_CTRL_MSG_MAX` or more) the write returns `-EINVAL` and
leaves `*ppos`, the session queue and the registry unchanged. -/
theorem C12_dispatch_by_message_type (hash_min : Nat → Fin IPCP_HASH_SIZE)
    (serialize_rina_msg : rina_msg → List Nat)
    (deserialize_rina_msg : List Nat → Option msgbuf) (rc : rina_ctrl) (dm : rina_dm)
    (ubuf : List Nat) (ppos : Int) (k : handler_env) (bmsg : msgbuf)
    (hlen : sizeof_rina_msg_t ≤ ubuf.length) (hd : deserialize_rina_msg ubuf = some bmsg) :
    ((rina_ctrl_write hash_min serialize_rina_msg deserialize_rina_msg rc dm ubuf ppos true true
        k).handler ≠ none ↔
      bmsg.msg_type = RINA_CTRL_CREATE_IPCP ∨ bmsg.msg_type = RINA_CTRL_DESTROY_IPCP ∨
      bmsg.msg_type = RINA_CTRL_FETCH_IPCP ∨ bmsg.msg_type = RINA_CTRL_ASSIGN_TO_DIF) ∧
    (∀ h, (rina_ctrl_write hash_min serialize_rina_msg deserialize_rina_msg rc dm ubuf ppos true
        true k).handler = some h →
      ((bmsg.msg_type = RINA_CTRL_CREATE_IPCP ∧ h = .ipcp_create) ∨
       (bmsg.msg_type = RINA_CTRL_DESTROY_IPCP ∧ h = .ipcp_destroy) ∨
       (bmsg.msg_type = RINA_CTRL_FETCH_IPCP ∧ h = .ipcp_fetch) ∨
       (bmsg.msg_type = RINA_CTRL_ASSIGN_TO_DIF ∧ h = .assign_to_dif)) ∧
      (rina_ctrl_write hash_min serialize_rina_msg deserialize_rina_msg rc dm ubuf ppos true true
        k).rc = (call_handler hash_min serialize_rina_msg h rc dm bmsg k).rc ∧
      (rina_ctrl_write hash_min serialize_rina_msg deserialize_rina_msg rc dm ubuf ppos true true
        k).dm = (call_handler hash_min serialize_rina_msg h rc dm bmsg k).dm ∧
      (rina_ctrl_write hash_min serialize_rina_msg deserialize_rina_msg rc dm ubuf ppos true true
        k).calls = (call_handler hash_min serialize_rina_msg h rc dm bmsg k).calls) ∧
    (bmsg.msg_type ≠ RINA_CTRL_CREATE_IPCP → bmsg.msg_type ≠ RINA_CTRL_DESTROY_IPCP →
      bmsg.msg_type ≠ RINA_CTRL_FETCH_IPCP → bmsg.msg_type ≠ RINA_CTRL_ASSIGN_TO_DIF →
      rina_ctrl_write hash_min serialize_rina_msg deserialize_rina_msg rc dm ubuf ppos true true k
        = ⟨-22, ppos, rc, dm, [], true, none⟩) := by
  have hother : (bmsg.msg_type ≠ RINA_CTRL_CREATE_IPCP → bmsg.msg_type ≠ RINA_CTRL_DESTROY_IPCP →
      bmsg.msg_type ≠ RINA_CTRL_FETCH_IPCP → bmsg.msg_type ≠ RINA_CTRL_ASSIGN_TO_DIF →
      rina_ctrl_write hash_min serialize_rina_msg deserialize_rina_msg rc dm ubuf ppos true true k
        = ⟨-22, ppos, rc, dm, [], true, none⟩) := by
    intro h1 h3 h5 h7
    apply rina_ctrl_write_no_handler hash_min serialize_rina_msg deserialize_rina_msg rc dm ubuf
      ppos k bmsg hlen hd
    intro h hs
    rcases (rina_handlers_slot _ _).mp hs with ⟨ht, _⟩ | ⟨ht, _⟩ | ⟨ht, _⟩ | ⟨ht, _⟩
    · exact h1 ht
    · exact h3 ht
    · exact h5 ht
    · exact h7 ht
  have hsome : ∀ h, rina_handlers[bmsg.msg_type]? = some (some h) →
      (rina_ctrl_write hash_min serialize_rina_msg deserialize_rina_msg rc dm ubuf ppos true true
        k).handler = some h ∧
      (rina_ctrl_write hash_min serialize_rina_msg deserialize_rina_msg rc dm ubuf ppos true true
        k).rc = (call_handler hash_min serialize_rina_msg h rc dm bmsg k).rc ∧
      (rina_ctrl_write hash_min serialize_rina_msg deserialize_rina_msg rc dm ubuf ppos true true
        k).dm = (call_handler hash_min serialize_rina_msg h rc dm bmsg k).dm ∧
      (rina_ctrl_write hash_min serialize_rina_msg deserialize_rina_msg rc dm ubuf ppos true true
        k).calls = (call_handler hash_min serialize_rina_msg h rc dm bmsg k).calls := by
    intro h hs
    rw [rina_ctrl_write_handler hash_min serialize_rina_msg deserialize_rina_msg rc dm ubuf ppos k
      bmsg h hlen hd hs]
    split <;> exact ⟨rfl, rfl, rfl, rfl⟩
  have hcases : (∃ h, rina_handlers[bmsg.msg_type]? = some (some h)) ∨
      (bmsg.msg_type ≠ RINA_CTRL_CREATE_IPCP ∧ bmsg.msg_type ≠ RINA_CTRL_DESTROY_IPCP ∧
        bmsg.msg_type ≠ RINA_CTRL_FETCH_IPCP ∧ bmsg.msg_type ≠ RINA_CTRL_ASSIGN_TO_DIF) := by
    by_cases h1 : bmsg.msg_type = RINA_CTRL_CREATE_IPCP
    · exact Or.inl ⟨_, (rina_handlers_slot _ _).mpr (Or.inl ⟨h1, rfl⟩)⟩
    by_cases h3 : bmsg.msg_type = RINA_CTRL_DESTROY_IPCP
    · exact Or.inl ⟨_, (rina_handlers_slot _ _).mpr (Or.inr (Or.inl ⟨h3, rfl⟩))⟩
    by_cases h5 : bmsg.msg_type = RINA_CTRL_FETCH_IPCP
    · exact Or.inl ⟨_, (rina_handlers_slot _ _).mpr (Or.inr (Or.inr (Or.inl ⟨h5, rfl⟩)))⟩
    by_cases h7 : bmsg.msg_type = RINA_CTRL_ASSIGN_TO_DIF
    · exact Or.inl ⟨_, (rina_handlers_slot _ _).mpr (Or.inr (Or.inr (Or.inr ⟨h7, rfl⟩)))⟩
    exact Or.inr ⟨h1, h3, h5, h7⟩
  refine ⟨⟨fun hne => ?_, fun ht => ?_⟩, fun h hh => ?_, hother⟩
  · rcases hcases with ⟨h, hs⟩ | ⟨h1, h3, h5, h7⟩
    · rcases (rina_handlers_slot _ _).mp hs with ⟨ht, _⟩ | ⟨ht, _⟩ | ⟨ht, _⟩ | ⟨ht, _⟩
      · exact Or.inl ht
      · exact Or.inr (Or.inl ht)
      · exact Or.inr (Or.inr (Or.inl ht))
      · exact Or.inr (Or.inr (Or.inr ht))
    · rw [hother h1 h3 h5 h7] at hne
      exact absurd rfl hne
  · rcases hcases with ⟨h, hs⟩ | ⟨h1, h3, h5, h7⟩
    · rw [(hsome h hs).1]; simp
    · rcases ht with ht | ht | ht | ht
      · exact absurd ht h1
      · exact absurd ht h3
      · exact absurd ht h5
      · exact absurd ht h7
  · rcases hcases with ⟨h0, hs⟩ | ⟨h1, h3, h5, h7⟩
    · have h00 := hsome h0 hs
      have heq : h0 = h := by
        have := h00.1.symm.trans hh
        exact Option.some.inj this
      subst heq
      exact ⟨(rina_handlers_slot _ _).mp hs, h00.2.1, h00.2.2.1, h00.2.2.2⟩
    · rw [hother h1 h3 h5 h7] at hh
      exact absurd hh (by simp)

/-- C12 on the registry of `rina_shim_dummy_init`: a message of type
DESTROY_IPCP_RESP is rejected and nothing changes. -/
theorem C12_dispatch_by_message_type_witness :
    sizeof_rina_msg_t ≤ [4, 1].length ∧
    header_decoder [4, 1] = some ⟨4, 1, 2, rina_name_zero, 0, 0, rina_name_zero⟩ ∧
    rina_ctrl_write hash_32 header_codec header_decoder ⟨[]⟩ dm_shim [4, 1] 0 true true env_ok
      = ⟨-22, 0, ⟨[]⟩, dm_shim, [], true, none⟩ :=
  ⟨by decide, rfl,
    (C12_dispatch_by_message_type hash_32 header_codec header_decoder ⟨[]⟩ dm_shim [4, 1] 0
      env_ok ⟨4, 1, 2, rina_name_zero, 0, 0, rina_name_zero⟩ (by decide) rfl).2.2
      (by decide) (by decide) (by decide) (by decide)⟩

/-- A write shorter than `rina_msg_t` is rejected at the first guard. -/
theorem rina_ctrl_write_short (hash_min : Nat → Fin IPCP_HASH_SIZE)
    (serialize_rina_msg : rina_msg → List Nat)
    (deserialize_rina_msg : List Nat → Option msgbuf) (rc : rina_ctrl) (dm : rina_dm)
    (ubuf : List Nat) (ppos : Int) (kbuf_ok copy_ok : Bool) (k : handler_env)
    (hlen : ubuf.length < sizeof_rina_msg_t) :
    rina_ctrl_write hash_min serialize_rina_msg deserialize_rina_msg rc dm ubuf ppos kbuf_ok
      copy_ok k = ⟨-EINVAL, ppos, rc, dm, [], false, none⟩ := by
  simp only [rina_ctrl_write, hlen, if_true]

/-- C13, as amended: a write shorter than the message type field
(`sizeof(rina_msg_t)`, 2 bytes) returns `-EINVAL` before any allocation, copy
or deserialization, whatever the deserializer and the allocator would answer,
and leaves `*ppos`, the session queue and the registry unchanged.  Every write
of at least 2 bytes, and so every write of 2 to 5 bytes, which is shorter than
the header, passes this guard: a failed `kmalloc` gives `-ENOMEM` and a failed
`copy_from_user` gives `-EFAULT`, and once both have succeeded
`deserialize_rina_msg` is invoked on it; when the deserializer rejects it the
write returns `-EINVAL` with everything unchanged. -/
theorem C13_write_below_message_type_size_is_rejected (hash_min : Nat → Fin IPCP_HASH_SIZE)
    (serialize_rina_msg : rina_msg → List Nat)
    (deserialize_rina_msg : List Nat → Option msgbuf) (rc : rina_ctrl) (dm : rina_dm)
    (ubuf : List Nat) (ppos : Int) (k : handler_env) :
    (ubuf.length < 2 → ∀ kbuf_ok copy_ok,
      rina_ctrl_write hash_min serialize_rina_msg deserialize_rina_msg rc dm ubuf ppos kbuf_ok
        copy_ok k = ⟨-22, ppos, rc, dm, [], false, none⟩) ∧
    (2 ≤ ubuf.length →
      (rina_ctrl_write hash_min serialize_rina_msg deserialize_rina_msg rc dm ubuf ppos true true
        k).parsed = true ∧
      (deserialize_rina_msg ubuf = none →
        rina_ctrl_write hash_min serialize_rina_msg deserialize_rina_msg rc dm ubuf ppos true
          true k = ⟨-22, ppos, rc, dm, [], true, none⟩) ∧
      (∀ copy_ok,
        rina_ctrl_write hash_min serialize_rina_msg deserialize_rina_msg rc dm ubuf ppos false
          copy_ok k = ⟨-12, ppos, rc, dm, [], false, none⟩) ∧
      rina_ctrl_write hash_min serialize_rina_msg deserialize_rina_msg rc dm ubuf ppos true false
        k = ⟨-14, ppos, rc, dm, [], false, none⟩) := by
  refine ⟨fun hlen kbuf_ok copy_ok =>
    rina_ctrl_write_short hash_min serialize_rina_msg deserialize_rina_msg rc dm ubuf ppos
      kbuf_ok copy_ok k hlen, fun hlen => ?_⟩
  have hl : ¬ ubuf.length < sizeof_rina_msg_t := by
    simp only [sizeof_rina_msg_t]
    omega
  unfold rina_ctrl_write
  rw [if_neg hl]
  refine ⟨?_, ?_, fun copy_ok => ?_, ?_⟩
  · simp only [Bool.not_true, Bool.false_eq_true, if_false]
    cases deserialize_rina_msg ubuf with
    | none => rfl
    | some bmsg =>
      simp only
      split
      · rfl
      · split
        · split <;> rfl
        · rfl
  · intro hnone
    simp only [Bool.not_true, Bool.false_eq_true, if_false, hnone]
    rfl
  · rw [if_neg hl]
    simp [ENOMEM]
  · rw [if_neg hl]
    simp [EFAULT]

/-- C13, as amended, at a write of one byte, which is rejected at the guard,
and at a write of four bytes, which is handed to the deserializer. -/
theorem C13_write_below_message_type_size_is_rejected_witness :
    [5].length < 2 ∧
    rina_ctrl_write hash_32 header_codec header_decoder ⟨[]⟩ dm_shim [5] 0 true true env_ok =
      ⟨-22, 0, ⟨[]⟩, dm_shim, [], false, none⟩ ∧
    2 ≤ [5, 1, 0, 0].length ∧ [5, 1, 0, 0].length < sizeof_rina_ctrl_base_msg ∧
    (rina_ctrl_write hash_32 header_codec header_decoder ⟨[]⟩ dm_shim [5, 1, 0, 0] 0 true true
      env_ok).parsed = true :=
  ⟨by decide,
    (C13_write_below_message_type_size_is_rejected hash_32 header_codec header_decoder ⟨[]⟩
      dm_shim [5] 0 env_ok).1 (by decide) true true,
    by decide, by decide,
    ((C13_write_below_message_type_size_is_rejected hash_32 header_codec header_decoder ⟨[]⟩
      dm_shim [5, 1, 0, 0] 0 env_ok).2 (by decide)).1⟩

/-- C13 fails as stated: a write of 4 bytes is shorter than the 6-byte header
(message type and event id), yet it passes the length guard and
`deserialize_rina_msg` is invoked on it; with a deserializer that rejects
every input the error comes from that call, and with one that accepts the
input the write succeeds and a response is queued. -/
theorem C13_short_header_reaches_deserializer :
    [5, 1, 0, 0].length < sizeof_rina_ctrl_base_msg ∧
    (rina_ctrl_write hash_32 header_codec (fun _ => none) ⟨[]⟩ dm_shim [5, 1, 0, 0] 0 true true
      env_ok).parsed = true ∧
    (rina_ctrl_write hash_32 header_codec header_decoder ⟨[]⟩ dm_shim [5, 1, 0, 0] 0 true true
      env_ok).parsed = true ∧
    (rina_ctrl_write hash_32 header_codec header_decoder ⟨[]⟩ dm_shim [5, 1, 0, 0] 0 true true
      env_ok).ret = 4 ∧
    (rina_ctrl_write hash_32 header_codec header_decoder ⟨[]⟩ dm_shim [5, 1, 0, 0] 0 true true
      env_ok).rc.upqueue.length = 1 := by
  refine ⟨by decide, by decide, by decide, by decide, by decide⟩

theorem ipcp_add_ret (hash_min : Nat → Fin IPCP_HASH_SIZE) (dm : rina_dm)
    (req : rina_msg_ipcp_create) (ipcp_id : Nat) (create_ret entry_alloc : Option Nat) :
    (ipcp_add hash_min dm req ipcp_id create_ret entry_alloc).ret = 0 ∨
    (ipcp_add hash_min dm req ipcp_id create_ret entry_alloc).ret < 0 := by
  unfold ipcp_add
  cases ipcp_factories_find dm req.dif_type with
  | none => right; simp [EINVAL]
  | some factory =>
    cases create_ret with
    | none => right; simp [ENOMEM]
    | some p =>
      cases entry_alloc with
      | none => right; simp [ENOMEM]
      | some a =>
        left
        simp only
        split <;> rfl

/-- The two outcomes of `rina_upqueue_append`. -/
theorem rina_upqueue_append_outcome (serialize_rina_msg : rina_msg → List Nat) (rc : rina_ctrl)
    (rmsg : rina_msg) (entry_ok serbuf_ok : Bool) :
    rina_upqueue_append serialize_rina_msg rc rmsg entry_ok serbuf_ok =
      (0, ⟨rc.upqueue ++ [upqueue_node serialize_rina_msg rmsg]⟩) ∨
    rina_upqueue_append serialize_rina_msg rc rmsg entry_ok serbuf_ok = (-ENOMEM, rc) := by
  unfold rina_upqueue_append upqueue_node
  cases entry_ok <;> cases serbuf_ok <;> simp

/-- A handler either returns 0 after queueing exactly one response, which
carries the event id of the request, or returns a negative error with the
queue as it was. -/
theorem call_handler_outcome (hash_min : Nat → Fin IPCP_HASH_SIZE)
    (serialize_rina_msg : rina_msg → List Nat) (h : rina_msg_handler_t) (rc : rina_ctrl)
    (dm : rina_dm) (bmsg : msgbuf) (k : handler_env) :
    ((call_handler hash_min serialize_rina_msg h rc dm bmsg k).ret = 0 ∧
      ∃ resp : rina_msg,
        (call_handler hash_min serialize_rina_msg h rc dm bmsg k).rc.upqueue =
          rc.upqueue ++ [upqueue_node serialize_rina_msg resp] ∧
        resp.base.event_id = bmsg.event_id ∧
        ((h = .ipcp_create ∧ resp.base.msg_type = RINA_CTRL_CREATE_IPCP_RESP) ∨
         (h = .ipcp_destroy ∧ resp.base.msg_type = RINA_CTRL_DESTROY_IPCP_RESP) ∨
         (h = .ipcp_fetch ∧ resp.base.msg_type = RINA_CTRL_FETCH_IPCP_RESP) ∨
         (h = .assign_to_dif ∧ resp.base.msg_type = RINA_CTRL_ASSIGN_TO_DIF_RESP))) ∨
    ((call_handler hash_min serialize_rina_msg h rc dm bmsg k).ret < 0 ∧
      (call_handler hash_min serialize_rina_msg h rc dm bmsg k).rc = rc) := by
  have hneg : -ENOMEM < 0 := by simp [ENOMEM]
  cases h with
  | ipcp_create =>
    simp only [call_handler, rina_ipcp_create]
    rcases ipcp_add_ret hash_min dm bmsg.as_ipcp_create k.ipcp_id k.create_ret k.entry_alloc with
      h0 | hlt
    · rw [if_neg (by rw [h0]; simp)]
      cases hr : k.resp_ok
      · right; simp [ENOMEM]
      · simp only [Bool.not_true, Bool.false_eq_true, if_false]
        rcases rina_upqueue_append_outcome serialize_rina_msg rc
          (rina_msg.ipcp_create_resp ⟨RINA_CTRL_CREATE_IPCP_RESP, bmsg.as_ipcp_create.event_id,
            (ipcp_add hash_min dm bmsg.as_ipcp_create k.ipcp_id k.create_ret k.entry_alloc).ipcp_id
              % 2 ^ 16⟩) k.entry_ok k.serbuf_ok with hq | hq
        · left
          rw [hq]
          simp only [ne_eq, not_true_eq_false, if_false, true_and]
          refine ⟨_, rfl, rfl, ?_⟩
          simp [rina_msg.base]
        · right
          rw [hq]
          simp [ENOMEM]
    · right
      rw [if_pos (by omega)]
      exact ⟨hlt, rfl⟩
  | ipcp_destroy =>
    simp only [call_handler, rina_ipcp_destroy]
    cases hr : k.resp_ok
    · right; simp [ENOMEM]
    · simp only [Bool.not_true, Bool.false_eq_true, if_false]
      rcases rina_upqueue_append_outcome serialize_rina_msg rc
        (rina_msg.ipcp_destroy_resp ⟨RINA_CTRL_DESTROY_IPCP_RESP, bmsg.as_ipcp_destroy.event_id,
          (ipcp_del hash_min dm bmsg.as_ipcp_destroy.ipcp_id).result⟩) k.entry_ok k.serbuf_ok
        with hq | hq
      · left
        rw [hq]
        simp only [ne_eq, not_true_eq_false, if_false, true_and]
        refine ⟨_, rfl, rfl, ?_⟩
        simp [rina_msg.base]
      · right
        rw [hq]
        simp [ENOMEM]
  | ipcp_fetch =>
    simp only [call_handler, rina_ipcp_fetch]
    cases hr : k.fetch_resp_alloc with
    | none => right; simp [ENOMEM]
    | some resp0 =>
      simp only
      cases hf : fetch_scan dm.ipcp_fetch_last dm.ipcp_fetch_last.isNone
          (hash_entries dm.ipcp_table) with
      | none =>
        simp only
        rcases rina_upqueue_append_outcome serialize_rina_msg rc
          (rina_msg.fetch_ipcp_resp
            { msg_type := RINA_CTRL_FETCH_IPCP_RESP, event_id := bmsg.as_base.event_id, xend := 1,
              ipcp_id := resp0.ipcp_id, dif_type := resp0.dif_type,
              ipcp_name := rina_name_zero, dif_name := rina_name_zero }) k.entry_ok k.serbuf_ok
          with hq | hq
        · left
          rw [hq]
          simp only [ne_eq, not_true_eq_false, if_false, true_and]
          refine ⟨_, rfl, rfl, ?_⟩
          simp [rina_msg.base]
        · right
          rw [hq]
          simp [ENOMEM]
      | some entry =>
        simp only
        rcases rina_upqueue_append_outcome serialize_rina_msg rc
          (rina_msg.fetch_ipcp_resp
            { msg_type := RINA_CTRL_FETCH_IPCP_RESP, event_id := bmsg.as_base.event_id, xend := 0,
              ipcp_id := entry.id, dif_type := entry.dif_type,
              ipcp_name := entry.name, dif_name := entry.dif_name }) k.entry_ok k.serbuf_ok
          with hq | hq
        · left
          rw [hq]
          simp only [ne_eq, not_true_eq_false, if_false, true_and]
          refine ⟨_, rfl, rfl, ?_⟩
          simp [rina_msg.base]
        · right
          rw [hq]
          simp [ENOMEM]
  | assign_to_dif =>
    simp only [call_handler, rina_assign_to_dif]
    cases hr : k.resp_ok
    · right; simp [ENOMEM]
    · simp only [Bool.not_true, Bool.false_eq_true, if_false]
      rcases rina_upqueue_append_outcome serialize_rina_msg rc
        (rina_msg.assign_to_dif_resp ⟨RINA_CTRL_ASSIGN_TO_DIF_RESP,
          bmsg.as_assign_to_dif.event_id,
          (assign_scan bmsg.as_assign_to_dif.ipcp_id bmsg.as_assign_to_dif.dif_name
            (dm.ipcp_table (hash_min bmsg.as_assign_to_dif.ipcp_id))).2⟩) k.entry_ok k.serbuf_ok
        with hq | hq
      · left
        rw [hq]
        simp only [ne_eq, not_true_eq_false, if_false, true_and]
        refine ⟨_, rfl, rfl, ?_⟩
        simp [rina_msg.base]
      · right
        rw [hq]
        simp [ENOMEM]

/-- The two outcomes of `rina_ctrl_write`: a negative error with the session
queue and `*ppos` as they were, or the length of the request, with exactly one
response appended to the queue by the handler of the request's type. -/
theorem rina_ctrl_write_outcome (hash_min : Nat → Fin IPCP_HASH_SIZE)
    (serialize_rina_msg : rina_msg → List Nat)
    (deserialize_rina_msg : List Nat → Option msgbuf) (rc : rina_ctrl) (dm : rina_dm)
    (ubuf : List Nat) (ppos : Int) (kbuf_ok copy_ok : Bool) (k : handler_env) :
    ((rina_ctrl_write hash_min serialize_rina_msg deserialize_rina_msg rc dm ubuf ppos kbuf_ok
        copy_ok k).ret < 0 ∧
      (rina_ctrl_write hash_min serialize_rina_msg deserialize_rina_msg rc dm ubuf ppos kbuf_ok
        copy_ok k).rc = rc ∧
      (rina_ctrl_write hash_min serialize_rina_msg deserialize_rina_msg rc dm ubuf ppos kbuf_ok
        copy_ok k).ppos = ppos) ∨
    (∃ (bmsg : msgbuf) (h : rina_msg_handler_t) (resp : rina_msg),
      deserialize_rina_msg ubuf = some bmsg ∧
      rina_handlers[bmsg.msg_type]? = some (some h) ∧
      (rina_ctrl_write hash_min serialize_rina_msg deserialize_rina_msg rc dm ubuf ppos kbuf_ok
        copy_ok k).handler = some h ∧
      (rina_ctrl_write hash_min serialize_rina_msg deserialize_rina_msg rc dm ubuf ppos kbuf_ok
        copy_ok k).ret = ubuf.length ∧
      (rina_ctrl_write hash_min serialize_rina_msg deserialize_rina_msg rc dm ubuf ppos kbuf_ok
        copy_ok k).ppos = ppos + ubuf.length ∧
      (rina_ctrl_write hash_min serialize_rina_msg deserialize_rina_msg rc dm ubuf ppos kbuf_ok
        copy_ok k).rc.upqueue = rc.upqueue ++ [upqueue_node serialize_rina_msg resp] ∧
      resp.base.msg_type = bmsg.msg_type + 1 ∧
      resp.base.event_id = bmsg.event_id) := by
  have hE : -EINVAL < 0 := by simp [EINVAL]
  by_cases hlen : ubuf.length < sizeof_rina_msg_t
  · left
    rw [rina_ctrl_write_short _ _ _ _ _ _ _ _ _ _ hlen]
    exact ⟨hE, rfl, rfl⟩
  cases kbuf_ok with
  | false => left; simp [rina_ctrl_write, hlen, ENOMEM]
  | true =>
    cases copy_ok with
    | false => left; simp [rina_ctrl_write, hlen, EFAULT]
    | true =>
      cases hd : deserialize_rina_msg ubuf with
      | none => left; simp [rina_ctrl_write, hlen, hd, EINVAL]
      | some bmsg =>
        have hlen2 : sizeof_rina_msg_t ≤ ubuf.length := by omega
        by_cases hs : ∃ h, rina_handlers[bmsg.msg_type]? = some (some h)
        · obtain ⟨h, hs⟩ := hs
          rw [rina_ctrl_write_handler hash_min serialize_rina_msg deserialize_rina_msg rc dm ubuf
            ppos k bmsg h hlen2 hd hs]
          rcases call_handler_outcome hash_min serialize_rina_msg h rc dm bmsg k with
            ⟨h0, resp, hq, hev, hty⟩ | ⟨hlt, hrc⟩
          · right
            rw [if_neg (by rw [h0]; simp)]
            refine ⟨bmsg, h, resp, rfl, hs, rfl, rfl, rfl, hq, ?_, hev⟩
            rcases (rina_handlers_slot _ _).mp hs with ⟨ht, hh⟩ | ⟨ht, hh⟩ | ⟨ht, hh⟩ | ⟨ht, hh⟩ <;>
              subst hh <;>
              simp [RINA_CTRL_CREATE_IPCP_RESP, RINA_CTRL_DESTROY_IPCP_RESP,
                RINA_CTRL_FETCH_IPCP_RESP, RINA_CTRL_ASSIGN_TO_DIF_RESP] at hty <;>
              rw [hty, ht] <;> rfl
          · left
            rw [if_pos (by omega)]
            exact ⟨hlt, hrc, rfl⟩
        · left
          rw [rina_ctrl_write_no_handler hash_min serialize_rina_msg deserialize_rina_msg rc dm
            ubuf ppos k bmsg hlen2 hd (fun h hh => hs ⟨h, hh⟩)]
          exact ⟨hE, rfl, rfl⟩

/-- C14: whenever `rina_ctrl_write` does not return an error, it returns the
full length of the request and advances `*ppos` by it, and the session queue
is the one before the call with exactly one entry appended at the tail: the
serialized response whose message type is the type of the request plus one
(CREATE_IPCP_RESP, DESTROY_IPCP_RESP, FETCH_IPCP_RESP or ASSIGN_TO_DIF_RESP
for the four requests) and whose event id is the event id of the request. -/
theorem C14_success_queues_the_paired_response (hash_min : Nat → Fin IPCP_HASH_SIZE)
    (serialize_rina_msg : rina_msg → List Nat)
    (deserialize_rina_msg : List Nat → Option msgbuf) (rc : rina_ctrl) (dm : rina_dm)
    (ubuf : List Nat) (ppos : Int) (kbuf_ok copy_ok : Bool) (k : handler_env)
    (hok : 0 ≤ (rina_ctrl_write hash_min serialize_rina_msg deserialize_rina_msg rc dm ubuf ppos
      kbuf_ok copy_ok k).ret) :
    ∃ (bmsg : msgbuf) (resp : rina_msg),
      deserialize_rina_msg ubuf = some bmsg ∧
      (rina_ctrl_write hash_min serialize_rina_msg deserialize_rina_msg rc dm ubuf ppos kbuf_ok
        copy_ok k).ret = ubuf.length ∧
      (rina_ctrl_write hash_min serialize_rina_msg deserialize_rina_msg rc dm ubuf ppos kbuf_ok
        copy_ok k).ppos = ppos + ubuf.length ∧
      (rina_ctrl_write hash_min serialize_rina_msg deserialize_rina_msg rc dm ubuf ppos kbuf_ok
        copy_ok k).rc.upqueue = rc.upqueue ++ [upqueue_node serialize_rina_msg resp] ∧
      resp.base.msg_type = bmsg.msg_type + 1 ∧
      resp.base.event_id = bmsg.event_id ∧
      ((bmsg.msg_type = RINA_CTRL_CREATE_IPCP ∧
          resp.base.msg_type = RINA_CTRL_CREATE_IPCP_RESP) ∨
       (bmsg.msg_type = RINA_CTRL_DESTROY_IPCP ∧
          resp.base.msg_type = RINA_CTRL_DESTROY_IPCP_RESP) ∨
       (bmsg.msg_type = RINA_CTRL_FETCH_IPCP ∧
          resp.base.msg_type = RINA_CTRL_FETCH_IPCP_RESP) ∨
       (bmsg.msg_type = RINA_CTRL_ASSIGN_TO_DIF ∧
          resp.base.msg_type = RINA_CTRL_ASSIGN_TO_DIF_RESP)) := by
  rcases rina_ctrl_write_outcome hash_min serialize_rina_msg deserialize_rina_msg rc dm ubuf ppos
    kbuf_ok copy_ok k with ⟨hlt, _, _⟩ | ⟨bmsg, h, resp, hd, hs, _, hret, hpos, hq, hty, hev⟩
  · omega
  · refine ⟨bmsg, resp, hd, hret, hpos, hq, hty, hev, ?_⟩
    rcases (rina_handlers_slot _ _).mp hs with ⟨ht, _⟩ | ⟨ht, _⟩ | ⟨ht, _⟩ | ⟨ht, _⟩
    · exact Or.inl ⟨ht, by rw [hty, ht]; rfl⟩
    · exact Or.inr (Or.inl ⟨ht, by rw [hty, ht]; rfl⟩)
    · exact Or.inr (Or.inr (Or.inl ⟨ht, by rw [hty, ht]; rfl⟩))
    · exact Or.inr (Or.inr (Or.inr ⟨ht, by rw [hty, ht]; rfl⟩))

/-- C14 at a FETCH_IPCP request with event id 9 on the registry with ids 0 and
1 live. -/
theorem C14_success_queues_the_paired_response_witness :
    0 ≤ (rina_ctrl_write hash_32 header_codec header_decoder ⟨[]⟩ dm_two [5, 9] 0 true true
      env_ok).ret ∧
    ∃ (bmsg : msgbuf) (resp : rina_msg),
      header_decoder [5, 9] = some bmsg ∧
      (rina_ctrl_write hash_32 header_codec header_decoder ⟨[]⟩ dm_two [5, 9] 0 true true
        env_ok).ret = 2 ∧
      (rina_ctrl_write hash_32 header_codec header_decoder ⟨[]⟩ dm_two [5, 9] 0 true true
        env_ok).rc.upqueue = [] ++ [upqueue_node header_codec resp] ∧
      resp.base.msg_type = bmsg.msg_type + 1 ∧ resp.base.event_id = bmsg.event_id :=
  have hok : 0 ≤ (rina_ctrl_write hash_32 header_codec header_decoder ⟨[]⟩ dm_two [5, 9] 0 true
      true env_ok).ret := by decide
  ⟨hok,
    (C14_success_queues_the_paired_response hash_32 header_codec header_decoder ⟨[]⟩ dm_two
      [5, 9] 0 true true env_ok hok).elim fun bmsg hb => hb.elim fun resp hr =>
        ⟨bmsg, resp, hr.1, hr.2.1, hr.2.2.2.1, hr.2.2.2.2.1, hr.2.2.2.2.2.1⟩⟩

/-! ## The control device: receive -/

/-- A read with capacity 0 skips the loop. -/
theorem rina_ctrl_read_zero (ppos : Int) (copy_ok : Bool) (rc : rina_ctrl)
    (events : List sleep_event) :
    rina_ctrl_read 0 ppos copy_ok rc events = some ⟨0, ppos, rc, none⟩ := by
  cases events <;> unfold rina_ctrl_read <;> simp

/-- A read on a non-empty queue looks at the head entry only. -/
theorem rina_ctrl_read_head (len : Nat) (ppos : Int) (copy_ok : Bool) (rc : rina_ctrl)
    (events : List sleep_event) (entry : upqueue_entry) (rest : List upqueue_entry)
    (hlen : 0 < len) (hq : rc.upqueue = entry :: rest) :
    rina_ctrl_read len ppos copy_ok rc events =
      if len < entry.serlen then some ⟨-ENOBUFS, ppos, rc, none⟩
      else if !copy_ok then some ⟨-EFAULT, ppos, ⟨rest⟩, none⟩
      else some ⟨entry.serlen, ppos + entry.serlen, ⟨rest⟩, some entry.bytes⟩ := by
  have h0 : len ≠ 0 := by omega
  cases events <;> unfold rina_ctrl_read <;> simp [h0, hq, upqueue_entry.bytes]

/-- C15, as amended: on a queue with head entry `entry`, a read whose capacity
is positive and smaller than `entry.serlen` returns `-ENOBUFS` and leaves
`*ppos` and the queue as they were, without sleeping; a following read whose
capacity is at least `entry.serlen`, its copy to user space succeeding,
returns `entry.serlen` and exactly the bytes of the head entry, and the queue
is then the rest, unchanged. -/
theorem C15_small_buffer_keeps_the_entry (rc : rina_ctrl) (entry : upqueue_entry)
    (rest : List upqueue_entry) (len1 len2 : Nat) (ppos : Int) (copy_ok : Bool)
    (events1 events2 : List sleep_event)
    (hq : rc.upqueue = entry :: rest) (hpos : 0 < len1) (hsmall : len1 < entry.serlen)
    (hbig : entry.serlen ≤ len2) :
    rina_ctrl_read len1 ppos copy_ok rc events1 = some ⟨-105, ppos, rc, none⟩ ∧
    rina_ctrl_read len2 ppos true rc events2 =
      some ⟨entry.serlen, ppos + entry.serlen, ⟨rest⟩, some (entry.sermsg.take entry.serlen)⟩ ∧
    (entry.serlen = entry.sermsg.length →
      rina_ctrl_read len2 ppos true rc events2 =
        some ⟨entry.sermsg.length, ppos + entry.sermsg.length, ⟨rest⟩, some entry.sermsg⟩) := by
  have h1 := rina_ctrl_read_head len1 ppos copy_ok rc events1 entry rest hpos hq
  have h2 := rina_ctrl_read_head len2 ppos true rc events2 entry rest (by omega) hq
  rw [if_pos hsmall] at h1
  rw [if_neg (by omega)] at h2
  simp only [Bool.not_true, Bool.false_eq_true, if_false, upqueue_entry.bytes] at h2
  refine ⟨h1, h2, fun hwf => ?_⟩
  rw [h2, hwf, List.take_length]

/-- C15, as amended, on a queue holding one FETCH_IPCP_RESP of two numbers: a
read of capacity 1 is refused, a read of capacity 2 returns the entry. -/
theorem C15_small_buffer_keeps_the_entry_witness :
    (⟨[⟨[6, 1], 2⟩]⟩ : rina_ctrl).upqueue = ⟨[6, 1], 2⟩ :: [] ∧ 0 < 1 ∧
    1 < (⟨[6, 1], 2⟩ : upqueue_entry).serlen ∧ (⟨[6, 1], 2⟩ : upqueue_entry).serlen ≤ 2 ∧
    rina_ctrl_read 1 0 true ⟨[⟨[6, 1], 2⟩]⟩ [] = some ⟨-105, 0, ⟨[⟨[6, 1], 2⟩]⟩, none⟩ ∧
    rina_ctrl_read 2 0 true ⟨[⟨[6, 1], 2⟩]⟩ [] = some ⟨2, 2, ⟨[]⟩, some [6, 1]⟩ :=
  have h := C15_small_buffer_keeps_the_entry ⟨[⟨[6, 1], 2⟩]⟩ ⟨[6, 1], 2⟩ [] 1 2 0 true [] [] rfl
    (by decide) (by decide) (by decide)
  ⟨rfl, by decide, by decide, by decide, h.1, h.2.1⟩

/-- C15 fails as stated: capacity 0 is smaller than the length 2 of the head
entry, yet the read returns 0, not `-ENOBUFS` (the loop `while (len)` is not
entered). -/
theorem C15_zero_capacity_read_returns_zero :
    0 < (⟨[6, 1], 2⟩ : upqueue_entry).serlen ∧
    rina_ctrl_read 0 0 true ⟨[⟨[6, 1], 2⟩]⟩ [] = some ⟨0, 0, ⟨[⟨[6, 1], 2⟩]⟩, none⟩ ∧
    rina_ctrl_read 0 0 true ⟨[⟨[6, 1], 2⟩]⟩ [] ≠ some ⟨-ENOBUFS, 0, ⟨[⟨[6, 1], 2⟩]⟩, none⟩ := by
  refine ⟨by decide, by decide, by decide⟩

theorem upqueue_node_bytes (serialize_rina_msg : rina_msg → List Nat) (m : rina_msg) :
    (upqueue_node serialize_rina_msg m).bytes = serialize_rina_msg m := by
  simp [upqueue_node, upqueue_entry.bytes]

theorem rina_upqueue_append_ok (serialize_rina_msg : rina_msg → List Nat) (rc : rina_ctrl)
    (rmsg : rina_msg) :
    rina_upqueue_append serialize_rina_msg rc rmsg true true =
      (0, ⟨rc.upqueue ++ [upqueue_node serialize_rina_msg rmsg]⟩) := by
  simp [rina_upqueue_append, upqueue_node]

/-- A read that returns data returns the bytes of the head entry and leaves
the rest of the queue. -/
theorem rina_ctrl_read_data (len : Nat) (ppos : Int) (rc : rina_ctrl) (r : read_result)
    (bytes : List Nat) (h : rina_ctrl_read len ppos true rc [] = some r)
    (hb : r.ubuf = some bytes) :
    ∃ entry rest, rc.upqueue = entry :: rest ∧ bytes = entry.bytes ∧ r.rc = ⟨rest⟩ := by
  by_cases h0 : len = 0
  · subst h0
    rw [rina_ctrl_read_zero] at h
    cases h
    simp at hb
  · cases hq : rc.upqueue with
    | nil =>
      unfold rina_ctrl_read at h
      simp [h0, hq] at h
    | cons entry rest =>
      rw [rina_ctrl_read_head len ppos true rc [] entry rest (by omega) hq] at h
      by_cases hs : len < entry.serlen
      · rw [if_pos hs] at h
        cases h
        simp at hb
      · rw [if_neg hs] at h
        simp only [Bool.not_true, Bool.false_eq_true, if_false, Option.some.injEq] at h
        subst h
        simp only [Option.some.injEq] at hb
        exact ⟨entry, rest, rfl, hb.symm, rfl⟩

/-- The queue discipline: what was pending plus what is appended equals what
the reads returned followed by what is still pending. -/
theorem session_run_fifo (serialize_rina_msg : rina_msg → List Nat) (ops : List session_op) :
    ∀ (rc : rina_ctrl) (out : List (List Nat)) (rc1 : rina_ctrl),
      session_run serialize_rina_msg rc ops = some (out, rc1) →
      rc.upqueue.map upqueue_entry.bytes ++ enqueued serialize_rina_msg ops =
        out ++ rc1.upqueue.map upqueue_entry.bytes := by
  induction ops with
  | nil =>
    intro rc out rc1 h
    simp only [session_run, Option.some.injEq, Prod.mk.injEq] at h
    obtain ⟨rfl, rfl⟩ := h
    simp [enqueued]
  | cons op ops ih =>
    intro rc out rc1 h
    cases op with
    | append rmsg =>
      simp only [session_run, rina_upqueue_append_ok] at h
      have := ih _ out rc1 h
      simp only [List.map_append, List.map_cons, List.map_nil, upqueue_node_bytes,
        List.append_assoc, List.singleton_append] at this
      simpa [enqueued] using this
    | read len =>
      simp only [session_run] at h
      cases hr : rina_ctrl_read len 0 true rc [] with
      | none => rw [hr] at h; simp at h
      | some r =>
        rw [hr] at h
        simp only at h
        cases hb : r.ubuf with
        | none => rw [hb] at h; simp at h
        | some bytes =>
          rw [hb] at h
          simp only [Option.map_eq_some', Prod.mk.injEq, Prod.exists] at h
          obtain ⟨out1, rc2, hrun, rfl, rfl⟩ := h
          obtain ⟨entry, rest, hq, hbytes, hrc⟩ := rina_ctrl_read_data len 0 rc r bytes hr hb
          have := ih r.rc out1 rc2 hrun
          rw [hrc] at this
          simp only [enqueued, hq, List.map_cons, List.cons_append, hbytes]
          rw [this]

theorem session_run_appends (serialize_rina_msg : rina_msg → List Nat) (msgs : List rina_msg) :
    ∀ (rc : rina_ctrl) (ops : List session_op),
      session_run serialize_rina_msg rc (msgs.map session_op.append ++ ops) =
        session_run serialize_rina_msg
          ⟨rc.upqueue ++ msgs.map (upqueue_node serialize_rina_msg)⟩ ops := by
  induction msgs with
  | nil => intro rc ops; simp
  | cons m msgs ih =>
    intro rc ops
    simp only [List.map_cons, List.cons_append, session_run, rina_upqueue_append_ok,
      List.append_eq]
    rw [ih]
    simp

theorem session_run_reads (serialize_rina_msg : rina_msg → List Nat) (lens : List Nat) :
    ∀ (q : List upqueue_entry), lens.length ≤ q.length →
      (∀ len ∈ lens, 0 < len ∧ ∀ e ∈ q, e.serlen ≤ len) →
      session_run serialize_rina_msg ⟨q⟩ (lens.map session_op.read) =
        some ((q.take lens.length).map upqueue_entry.bytes, ⟨q.drop lens.length⟩) := by
  induction lens with
  | nil => intro q _ _; simp [session_run]
  | cons len lens ih =>
    intro q hlen hsuf
    cases q with
    | nil => simp at hlen
    | cons entry rest =>
      have hl := hsuf len (List.mem_cons_self _ _)
      have hread := rina_ctrl_read_head len 0 true ⟨entry :: rest⟩ [] entry rest hl.1 rfl
      rw [if_neg (by have := hl.2 entry (List.mem_cons_self _ _); omega)] at hread
      simp only [Bool.not_true, Bool.false_eq_true, if_false] at hread
      simp only [List.map_cons, session_run, hread]
      rw [ih rest (by simpa using hlen) (fun l hlm =>
        ⟨(hsuf l (List.mem_cons_of_mem _ hlm)).1,
         fun e he => (hsuf l (List.mem_cons_of_mem _ hlm)).2 e (List.mem_cons_of_mem _ he)⟩)]
      simp

/-- C16: within one session, starting from an empty queue, for every
interleaving of responses queued by `rina_upqueue_append` and of reads that
return data, the byte strings returned by the reads followed by those still
queued are exactly the serialized responses in the order they were queued: the
`k`-th read returns the `k`-th queued response, and no response is returned
twice.  In particular, after `n` responses have been queued, `k ≤ n` reads
with a sufficient buffer all succeed, return the first `k` responses in order
and leave the other `n - k` queued. -/
theorem C16_reads_return_responses_in_enqueue_order
    (serialize_rina_msg : rina_msg → List Nat) :
    (∀ (ops : List session_op) (out : List (List Nat)) (rc1 : rina_ctrl),
      session_run serialize_rina_msg ⟨[]⟩ ops = some (out, rc1) →
      enqueued serialize_rina_msg ops = out ++ rc1.upqueue.map upqueue_entry.bytes ∧
      out = (enqueued serialize_rina_msg ops).take out.length ∧
      ∀ k, k < out.length → out[k]? = (enqueued serialize_rina_msg ops)[k]?) ∧
    (∀ (msgs : List rina_msg) (lens : List Nat), lens.length ≤ msgs.length →
      (∀ len ∈ lens, 0 < len ∧ ∀ m ∈ msgs, (serialize_rina_msg m).length ≤ len) →
      session_run serialize_rina_msg ⟨[]⟩
          (msgs.map session_op.append ++ lens.map session_op.read) =
        some ((msgs.take lens.length).map serialize_rina_msg,
          ⟨(msgs.drop lens.length).map (upqueue_node serialize_rina_msg)⟩)) := by
  constructor
  · intro ops out rc1 h
    have hf := session_run_fifo serialize_rina_msg ops ⟨[]⟩ out rc1 h
    simp only [List.map_nil, List.nil_append] at hf
    refine ⟨hf, ?_, ?_⟩
    · rw [hf, List.take_left']
      rfl
    · intro k hk
      rw [hf, List.getElem?_append_left hk]
  · intro msgs lens hlen hsuf
    have h1 := session_run_appends serialize_rina_msg msgs ⟨[]⟩ (lens.map session_op.read)
    simp only [List.nil_append] at h1
    rw [h1, session_run_reads serialize_rina_msg lens
      (msgs.map (upqueue_node serialize_rina_msg)) (by simpa using hlen)]
    · simp only [← List.map_take, ← List.map_drop, List.map_map]
      congr 2
      apply List.map_congr_left
      intro m _
      exact upqueue_node_bytes serialize_rina_msg m
    · intro len hl
      refine ⟨(hsuf len hl).1, fun e he => ?_⟩
      obtain ⟨m, hm, rfl⟩ := List.mem_map.mp he
      exact (hsuf len hl).2 m hm

/-- C16 for three queued responses and two reads of capacity 8: the reads
return the first two responses, the third stays queued. -/
theorem C16_reads_return_responses_in_enqueue_order_witness :
    [8, 8].length ≤
      [rina_msg.ipcp_create_resp ⟨2, 1, 0⟩, rina_msg.ipcp_destroy_resp ⟨4, 2, 0⟩,
        rina_msg.assign_to_dif_resp ⟨8, 3, 1⟩].length ∧
    session_run header_codec ⟨[]⟩
        ([rina_msg.ipcp_create_resp ⟨2, 1, 0⟩, rina_msg.ipcp_destroy_resp ⟨4, 2, 0⟩,
          rina_msg.assign_to_dif_resp ⟨8, 3, 1⟩].map session_op.append ++
          [8, 8].map session_op.read) =
      some ([[2, 1], [4, 2]], ⟨[⟨[8, 3], 2⟩]⟩) :=
  ⟨by decide,
    (C16_reads_return_responses_in_enqueue_order header_codec).2
      [rina_msg.ipcp_create_resp ⟨2, 1, 0⟩, rina_msg.ipcp_destroy_resp ⟨4, 2, 0⟩,
        rina_msg.assign_to_dif_resp ⟨8, 3, 1⟩] [8, 8] (by decide) (by decide)⟩

/-- C17, as amended: when the delivery queue is empty at the time of the
write and `rina_ctrl_write` does not return an error, a read on the same
session with a positive capacity of at least the length of the serialized
response, its copy to user space succeeding, returns at once exactly the
serialized response to that request (message type of the request plus one,
event id of the request) and leaves the queue empty. -/
theorem C17_write_then_read_returns_the_response (hash_min : Nat → Fin IPCP_HASH_SIZE)
    (serialize_rina_msg : rina_msg → List Nat)
    (deserialize_rina_msg : List Nat → Option msgbuf) (rc : rina_ctrl) (dm : rina_dm)
    (ubuf : List Nat) (ppos : Int) (kbuf_ok copy_ok : Bool) (k : handler_env)
    (hempty : rc.upqueue = [])
    (hok : 0 ≤ (rina_ctrl_write hash_min serialize_rina_msg deserialize_rina_msg rc dm ubuf ppos
      kbuf_ok copy_ok k).ret) :
    ∃ (bmsg : msgbuf) (resp : rina_msg),
      deserialize_rina_msg ubuf = some bmsg ∧
      resp.base.msg_type = bmsg.msg_type + 1 ∧
      resp.base.event_id = bmsg.event_id ∧
      ∀ (len : Nat) (rpos : Int) (events : List sleep_event),
        0 < len → (serialize_rina_msg resp).length ≤ len →
        rina_ctrl_read len rpos true
            (rina_ctrl_write hash_min serialize_rina_msg deserialize_rina_msg rc dm ubuf ppos
              kbuf_ok copy_ok k).rc events =
          some ⟨(serialize_rina_msg resp).length, rpos + (serialize_rina_msg resp).length, ⟨[]⟩,
            some (serialize_rina_msg resp)⟩ := by
  rcases rina_ctrl_write_outcome hash_min serialize_rina_msg deserialize_rina_msg rc dm ubuf ppos
    kbuf_ok copy_ok k with ⟨hlt, _, _⟩ | ⟨bmsg, h, resp, hd, hs, _, hret, hpos, hq, hty, hev⟩
  · omega
  · refine ⟨bmsg, resp, hd, hty, hev, fun len rpos events hlen hcap => ?_⟩
    rw [hempty, List.nil_append] at hq
    rw [rina_ctrl_read_head len rpos true _ events (upqueue_node serialize_rina_msg resp) [] hlen
      hq]
    have hser : (upqueue_node serialize_rina_msg resp).serlen = (serialize_rina_msg resp).length :=
      rfl
    rw [if_neg (by rw [hser]; omega)]
    simp only [Bool.not_true, Bool.false_eq_true, if_false, upqueue_node_bytes, hser]

/-- C17, as amended, at a FETCH_IPCP request with event id 9 written to an
empty session: the read returns the FETCH_IPCP_RESP with event id 9. -/
theorem C17_write_then_read_returns_the_response_witness :
    (⟨[]⟩ : rina_ctrl).upqueue = [] ∧
    0 ≤ (rina_ctrl_write hash_32 header_codec header_decoder ⟨[]⟩ dm_two [5, 9] 0 true true
      env_ok).ret ∧
    ∃ (bmsg : msgbuf) (resp : rina_msg),
      header_decoder [5, 9] = some bmsg ∧
      resp.base.msg_type = bmsg.msg_type + 1 ∧ resp.base.event_id = bmsg.event_id ∧
      rina_ctrl_read 8 0 true
          (rina_ctrl_write hash_32 header_codec header_decoder ⟨[]⟩ dm_two [5, 9] 0 true true
            env_ok).rc [] =
        some ⟨(header_codec resp).length, 0 + (header_codec resp).length, ⟨[]⟩,
          some (header_codec resp)⟩ :=
  have hok : 0 ≤ (rina_ctrl_write hash_32 header_codec header_decoder ⟨[]⟩ dm_two [5, 9] 0 true
      true env_ok).ret := by decide
  ⟨rfl, hok,
    (C17_write_then_read_returns_the_response hash_32 header_codec header_decoder ⟨[]⟩ dm_two
      [5, 9] 0 true true env_ok rfl hok).elim fun bmsg hb => hb.elim fun resp hr =>
        ⟨bmsg, resp, hr.1, hr.2.1, hr.2.2.1, hr.2.2.2 8 0 [] (by decide) (by simp [header_codec])⟩⟩

/-- C17 fails as stated: on a session where the response to an earlier request
(event id 1) is still queued, a FETCH_IPCP request with event id 2 is handled
successfully, and the read that follows returns the response with event id 1,
the head of the queue, while the response to the request just written stays
queued. -/
theorem C17_read_returns_the_older_response :
    0 ≤ (rina_ctrl_write hash_32 header_codec header_decoder
      (rina_ctrl_write hash_32 header_codec header_decoder ⟨[]⟩ dm_two [5, 1] 0 true true
        env_ok).rc
      (rina_ctrl_write hash_32 header_codec header_decoder ⟨[]⟩ dm_two [5, 1] 0 true true
        env_ok).dm [5, 2] 0 true true env_ok).ret ∧
    rina_ctrl_read 8 0 true
        (rina_ctrl_write hash_32 header_codec header_decoder
          (rina_ctrl_write hash_32 header_codec header_decoder ⟨[]⟩ dm_two [5, 1] 0 true true
            env_ok).rc
          (rina_ctrl_write hash_32 header_codec header_decoder ⟨[]⟩ dm_two [5, 1] 0 true true
            env_ok).dm [5, 2] 0 true true env_ok).rc [] =
      some ⟨2, 2, ⟨[⟨[6, 2], 2⟩]⟩, some [6, 1]⟩ := by
  refine ⟨by decide, by decide⟩

/-! ## The forwarding table of the normal IPC process -/
namespace Normal

theorem set_next_dest (mem : memory) (n : Nat) (v : Option Nat) (p : Nat) :
    ((set_next mem n v).flows p).pduft_dest_addr = (mem.flows p).pduft_dest_addr := by
  unfold set_next
  by_cases h : p = n
  · subst h; simp
  · simp [Function.update_noteq h]

theorem set_pprev_dest (mem : memory) (n : Nat) (v : Option hlist_ref) (p : Nat) :
    ((set_pprev mem n v).flows p).pduft_dest_addr = (mem.flows p).pduft_dest_addr := by
  unfold set_pprev
  by_cases h : p = n
  · subst h; simp
  · simp [Function.update_noteq h]

theorem set_first_flows (mem : memory) (priv : Nat) (bkt : Fin PDUFT_HASH_SIZE)
    (v : Option Nat) : (set_first mem priv bkt v).flows = mem.flows := rfl

theorem set_next_normals (mem : memory) (n : Nat) (v : Option Nat) :
    (set_next mem n v).normals = mem.normals := rfl

theorem set_pprev_normals (mem : memory) (n : Nat) (v : Option hlist_ref) :
    (set_pprev mem n v).normals = mem.normals := rfl

theorem set_first_same (mem : memory) (priv : Nat) (bkt : Fin PDUFT_HASH_SIZE)
    (v : Option Nat) : ((set_first mem priv bkt v).normals priv).pdu_ft bkt = v := by
  simp [set_first]

/-- After `hlist_add_head` the bucket starts with the node. -/
theorem hlist_add_head_first (mem : memory) (n priv : Nat) (bkt : Fin PDUFT_HASH_SIZE) :
    ((hlist_add_head mem n priv bkt).normals priv).pdu_ft bkt = some n := by
  unfold hlist_add_head
  simp only [set_pprev_normals]
  exact set_first_same _ _ _ _

/-- The routine `hlist_add_head` writes list pointers only. -/
theorem hlist_add_head_dest (mem : memory) (n priv : Nat) (bkt : Fin PDUFT_HASH_SIZE)
    (p : Nat) :
    ((hlist_add_head mem n priv bkt).flows p).pduft_dest_addr =
      (mem.flows p).pduft_dest_addr := by
  unfold hlist_add_head
  simp only [set_pprev_dest, set_first_flows]
  cases (mem.normals priv).pdu_ft bkt with
  | none => simp only [set_next_dest]
  | some f => simp only [set_pprev_dest, set_next_dest]

theorem hlist_add_head_ipcps (mem : memory) (n priv : Nat) (bkt : Fin PDUFT_HASH_SIZE) :
    (hlist_add_head mem n priv bkt).ipcps = mem.ipcps := by
  unfold hlist_add_head
  cases (mem.normals priv).pdu_ft bkt <;> rfl

theorem hlist_store_ipcps (mem : memory) (r : hlist_ref) (v : Option Nat) :
    (hlist_store mem r v).ipcps = mem.ipcps := by
  cases r <;> rfl

theorem hash_del_ipcps (mem : memory) (n : Nat) : (hash_del mem n).ipcps = mem.ipcps := by
  unfold hash_del
  cases (mem.flows n).ftnode.pprev with
  | none => rfl
  | some pprev =>
    simp only
    cases (mem.flows n).ftnode.next with
    | none => exact hlist_store_ipcps _ _ _
    | some x => exact hlist_store_ipcps _ _ _

/-- The function `rina_normal_pduft_set` when the lookup of the previous entry
comes to an end. -/
theorem rina_normal_pduft_set_eq (hash_min : Nat → Fin PDUFT_HASH_SIZE) (fuel : Nat)
    (mem : memory) (ipcp dest_addr flow : Nat) (prev : Option Nat)
    (h : pduft_lookup hash_min fuel mem (mem.ipcps ipcp).priv dest_addr = some prev) :
    rina_normal_pduft_set hash_min fuel mem ipcp dest_addr flow =
      some (0, hlist_add_head
        { (if prev.isSome then hash_del mem flow else mem) with
          flows := Function.update (if prev.isSome then hash_del mem flow else mem).flows flow
            { (if prev.isSome then hash_del mem flow else mem).flows flow with
              pduft_dest_addr := dest_addr } }
        flow (mem.ipcps ipcp).priv (hash_min dest_addr)) := by
  simp only [rina_normal_pduft_set, h]

/-- After `rina_normal_pduft_set` the lookup of the address stops at the first
node of the bucket, which is the flow just set. -/
theorem pduft_lookup_after_set (hash_min : Nat → Fin PDUFT_HASH_SIZE) (fuel : Nat)
    (mem mem1 : memory) (ipcp dest_addr flow : Nat)
    (h : rina_normal_pduft_set hash_min fuel mem ipcp dest_addr flow = some (0, mem1)) :
    mem1.ipcps = mem.ipcps ∧
    ∀ k, pduft_lookup hash_min (k + 1) mem1 (mem.ipcps ipcp).priv dest_addr =
      some (some flow) := by
  cases hp : pduft_lookup hash_min fuel mem (mem.ipcps ipcp).priv dest_addr with
  | none => simp [rina_normal_pduft_set, hp] at h
  | some prev =>
    rw [rina_normal_pduft_set_eq hash_min fuel mem ipcp dest_addr flow prev hp] at h
    simp only [Option.some.injEq, Prod.mk.injEq, true_and] at h
    subst h
    constructor
    · rw [hlist_add_head_ipcps]
      show (if prev.isSome then hash_del mem flow else mem).ipcps = mem.ipcps
      split
      · exact hash_del_ipcps mem flow
      · rfl
    · intro k
      unfold pduft_lookup
      rw [hlist_add_head_first]
      simp only [pduft_scan, hlist_add_head_dest]
      simp

end Normal
namespace Normal

/-- Whenever the lookup of `dest_addr` in the forwarding table comes to
an end (as it does on every chain that ends), `rina_normal_pduft_set(ipcp,
dest_addr, flow)` returns 0 and afterwards `pduft_lookup(dest_addr)` returns
`flow`, at the first node it visits.  A second call for the same address with
another flow `flow2` returns 0 as well, and the lookup then returns `flow2`:
the last write wins. -/
theorem pduft_set_last_write_wins (hash_min : Nat → Fin PDUFT_HASH_SIZE)
    (fuel : Nat) (mem : memory) (ipcp dest_addr flow : Nat) (prev : Option Nat)
    (hterm : pduft_lookup hash_min fuel mem (mem.ipcps ipcp).priv dest_addr = some prev) :
    ∃ mem1,
      rina_normal_pduft_set hash_min fuel mem ipcp dest_addr flow = some (0, mem1) ∧
      (∀ k, pduft_lookup hash_min (k + 1) mem1 (mem.ipcps ipcp).priv dest_addr =
        some (some flow)) ∧
      ∀ (flow2 k : Nat), ∃ mem2,
        rina_normal_pduft_set hash_min (k + 1) mem1 ipcp dest_addr flow2 = some (0, mem2) ∧
        ∀ j, pduft_lookup hash_min (j + 1) mem2 (mem.ipcps ipcp).priv dest_addr =
          some (some flow2) := by
  obtain ⟨mem1, h1⟩ : ∃ m, rina_normal_pduft_set hash_min fuel mem ipcp dest_addr flow
      = some (0, m) :=
    ⟨_, rina_normal_pduft_set_eq hash_min fuel mem ipcp dest_addr flow prev hterm⟩
  obtain ⟨hi, hl⟩ := pduft_lookup_after_set hash_min fuel mem mem1 ipcp dest_addr flow h1
  refine ⟨mem1, h1, hl, fun flow2 k => ?_⟩
  have hl1 := hl k
  rw [← hi] at hl1
  obtain ⟨mem2, h2⟩ : ∃ m, rina_normal_pduft_set hash_min (k + 1) mem1 ipcp dest_addr flow2
      = some (0, m) :=
    ⟨_, rina_normal_pduft_set_eq hash_min (k + 1) mem1 ipcp dest_addr flow2 (some flow) hl1⟩
  obtain ⟨_, hl2⟩ := pduft_lookup_after_set hash_min (k + 1) mem1 mem2 ipcp dest_addr flow2 h2
  refine ⟨mem2, h2, fun j => ?_⟩
  have := hl2 j
  rw [hi] at this
  exact this

/-- On the empty forwarding table of the instance at address 1: flow 1 is
set for destination 20 and the lookup returns it. -/
theorem pduft_set_last_write_wins_example :
    pduft_lookup hash_64 8 mem_zero (mem_zero.ipcps 1).priv 20 = some none ∧
    ∃ mem1,
      rina_normal_pduft_set hash_64 8 mem_zero 1 20 1 = some (0, mem1) ∧
      pduft_lookup hash_64 8 mem1 (mem_zero.ipcps 1).priv 20 = some (some 1) :=
  have hterm : pduft_lookup hash_64 8 mem_zero (mem_zero.ipcps 1).priv 20 = some none := by
    decide
  ⟨hterm,
    (pduft_set_last_write_wins hash_64 8 mem_zero 1 20 1 none hterm).elim
      fun mem1 h => ⟨mem1, h.1, h.2.1 7⟩⟩

/-- On a node that links to itself and has another destination address, the
loop of `pduft_lookup` does not come to an end. -/
theorem pduft_scan_self_loop (mem : memory) (dest_addr p : Nat)
    (hd : (mem.flows p).pduft_dest_addr ≠ dest_addr)
    (hn : (mem.flows p).ftnode.next = some p) :
    ∀ fuel, pduft_scan mem dest_addr fuel (some p) = none
  | 0 => rfl
  | fuel + 1 => by
    simp only [pduft_scan, hd, if_false, hn]
    exact pduft_scan_self_loop mem dest_addr p hd hn fuel

/-- C18: the code does not make the lookup return the flow on every forwarding
table.  On the empty table of the instance at address 1,
`rina_normal_pduft_set(ipcp, 20, flow 1)` returns 0 and the lookup of 20
returns flow 1.  Address 7 is in the bucket of 20 and has no entry, so
`rina_normal_pduft_set(ipcp, 7, flow 1)` finds no previous flow, does not
unlink the node of flow 1 and adds it to the head of the chain it is already
on: the call returns 0, the lookup of 7 returns flow 1, and the `next` of
flow 1 is flow 1.  From then on `pduft_lookup(20)` visits flow 1 for ever, and
`rina_normal_pduft_set(ipcp, 20, flow)` never returns, for any flow: neither
produces a result within any number of steps. -/
theorem C18_set_on_a_hashed_flow_loops_the_chain :
    (rina_normal_pduft_set hash_64 8 mem_zero 1 20 1).map Prod.fst = some 0 ∧
    pduft_lookup hash_64 8 mem_one 1 20 = some (some 1) ∧
    hash_64 7 = hash_64 20 ∧
    pduft_lookup hash_64 8 mem_one 1 7 = some none ∧
    (rina_normal_pduft_set hash_64 8 mem_one 1 7 1).map Prod.fst = some 0 ∧
    pduft_lookup hash_64 8 mem_loop 1 7 = some (some 1) ∧
    (mem_loop.flows 1).ftnode.next = some 1 ∧
    (∀ fuel, pduft_lookup hash_64 fuel mem_loop 1 20 = none) ∧
    (∀ fuel flow, rina_normal_pduft_set hash_64 fuel mem_loop 1 20 flow = none) := by
  have hloop : ∀ fuel, pduft_lookup hash_64 fuel mem_loop 1 20 = none := by
    intro fuel
    unfold pduft_lookup
    have hfirst : (mem_loop.normals 1).pdu_ft (hash_64 20) = some 1 := by decide
    rw [hfirst]
    exact pduft_scan_self_loop mem_loop 20 1 (by decide) (by decide) fuel
  refine ⟨by decide, by decide, by decide, by decide, by decide, by decide, by decide, hloop,
    fun fuel flow => ?_⟩
  have hpriv : (mem_loop.ipcps 1).priv = 1 := by decide
  simp only [rina_normal_pduft_set, hpriv, hloop fuel]

/-- C19: with flow 1 already serving destination 20 in the forwarding table of
the instance at address 1, `rina_normal_pduft_set(ipcp, 20, flow 2)` returns 0
and the lookup of 20 returns flow 2, but flow 1 has not been unlinked: the
chain of the bucket is flow 2 followed by flow 1, the node of flow 1 is still
hashed (its `pprev` is the `next` field of flow 2), and both flows carry the
destination address 20. -/
theorem C19_previous_flow_stays_linked :
    pduft_lookup hash_64 8 mem_one 1 20 = some (some 1) ∧
    pduft_bucket hash_64 8 mem_one 1 20 = [1] ∧
    (mem_one.flows 2).ftnode.pprev = none ∧
    (rina_normal_pduft_set hash_64 8 mem_one 1 20 2).map Prod.fst = some 0 ∧
    pduft_lookup hash_64 8 mem_two 1 20 = some (some 2) ∧
    pduft_bucket hash_64 8 mem_two 1 20 = [2, 1] ∧
    (mem_two.flows 1).ftnode.pprev = some (hlist_ref.next 2) ∧
    (mem_two.flows 1).pduft_dest_addr = 20 ∧
    (mem_two.flows 2).pduft_dest_addr = 20 := by
  refine ⟨by decide, by decide, by decide, by decide, by decide, by decide, by decide,
    by decide, by decide⟩

/-- C20: when the lookup of the flow's remote address finds no entry and that
address is not the instance's own, `rina_normal_sdu_write` returns 0 and the
only thing it does is to free the buffer it was given, as it was given: memory
is unchanged (no sequence number is consumed), no header is pushed, and
neither `sdu_write` of a lower instance nor the receive path is called. -/
theorem C20_routing_miss_drops_and_returns_zero (c : rina_consts)
    (hash_min : Nat → Fin PDUFT_HASH_SIZE) (env : sdu_env) (lfuel depth : Nat) (mem : memory)
    (ipcp flow : Nat) (rb : rina_buf)
    (hmiss : pduft_lookup hash_min lfuel mem (mem.ipcps ipcp).priv (mem.flows flow).remote_addr
      = some none)
    (hne : (mem.flows flow).remote_addr ≠ (mem.ipcps ipcp).addr) :
    rina_normal_sdu_write c hash_min env lfuel (depth + 1) mem ipcp flow rb =
      some ⟨0, mem, [sdu_event.buf_free rb]⟩ := by
  simp only [rina_normal_sdu_write, hmiss, ne_eq, hne, not_false_eq_true, if_true]

/-- C20 on the memory of the examples: the instance has address 10, flow 1 has
remote address 20 and the forwarding table is empty. -/
theorem C20_routing_miss_drops_and_returns_zero_witness :
    pduft_lookup hash_64 8 mem_zero (mem_zero.ipcps 1).priv (mem_zero.flows 1).remote_addr
      = some none ∧
    (mem_zero.flows 1).remote_addr ≠ (mem_zero.ipcps 1).addr ∧
    rina_normal_sdu_write consts_example hash_64 env_zero 8 1 mem_zero 1 1 ⟨[], [1, 2, 3]⟩ =
      some ⟨0, mem_zero, [sdu_event.buf_free ⟨[], [1, 2, 3]⟩]⟩ :=
  ⟨by decide, by decide,
    C20_routing_miss_drops_and_returns_zero consts_example hash_64 env_zero 8 0 mem_zero 1 1
      ⟨[], [1, 2, 3]⟩ (by decide) (by decide)⟩

end Normal

/-! ## The control device: bounds of the handler table and reads of capacity 0 -/

/-- C29: the table `rina_handlers` has `RINA_CTRL_MSG_MAX + 1` slots, of which
slot 0 and slot `RINA_CTRL_MSG_MAX` are NULL, so every message type that passes
the guard `msg_type <= RINA_CTRL_MSG_MAX` indexes a slot of the table; and
`rina_ctrl_write` on such a message calls a handler only if that slot holds
it, while on a NULL slot it calls nothing, returns `-EINVAL` and leaves the
session, the registry and the file position as they were. -/
theorem C29_handler_index_within_table (hash_min : Nat → Fin IPCP_HASH_SIZE)
    (serialize_rina_msg : rina_msg → List Nat)
    (deserialize_rina_msg : List Nat → Option msgbuf) (rc : rina_ctrl) (dm : rina_dm)
    (ubuf : List Nat) (ppos : Int) (k : handler_env) (bmsg : msgbuf)
    (hlen : sizeof_rina_msg_t ≤ ubuf.length) (hd : deserialize_rina_msg ubuf = some bmsg)
    (hguard : bmsg.msg_type ≤ RINA_CTRL_MSG_MAX) :
    rina_handlers.length = RINA_CTRL_MSG_MAX + 1 ∧
    rina_handlers[0]? = some none ∧
    rina_handlers[RINA_CTRL_MSG_MAX]? = some none ∧
    bmsg.msg_type < rina_handlers.length ∧
    (∃ slot, rina_handlers[bmsg.msg_type]? = some slot ∧
      (rina_ctrl_write hash_min serialize_rina_msg deserialize_rina_msg rc dm ubuf ppos true true
        k).handler = slot ∧
      (slot = none →
        rina_ctrl_write hash_min serialize_rina_msg deserialize_rina_msg rc dm ubuf ppos true
          true k = ⟨-EINVAL, ppos, rc, dm, [], true, none⟩)) := by
  have hlt : bmsg.msg_type < rina_handlers.length := by
    simp only [RINA_CTRL_MSG_MAX] at hguard
    simp only [rina_handlers, List.length_cons, List.length_nil]
    omega
  refine ⟨rfl, rfl, rfl, hlt, ?_⟩
  refine ⟨rina_handlers[bmsg.msg_type], List.getElem?_eq_getElem hlt, ?_, ?_⟩
  · cases hs : rina_handlers[bmsg.msg_type] with
    | none =>
      have hno : ∀ h, rina_handlers[bmsg.msg_type]? ≠ some (some h) := by
        intro h hh
        rw [List.getElem?_eq_getElem hlt, hs] at hh
        exact absurd hh (by simp)
      rw [rina_ctrl_write_no_handler hash_min serialize_rina_msg deserialize_rina_msg rc dm ubuf
        ppos k bmsg hlen hd hno]
    | some h =>
      have hslot : rina_handlers[bmsg.msg_type]? = some (some h) := by
        rw [List.getElem?_eq_getElem hlt, hs]
      rw [rina_ctrl_write_handler hash_min serialize_rina_msg deserialize_rina_msg rc dm ubuf
        ppos k bmsg h hlen hd hslot]
      split <;> rfl
  · intro hs
    have hno : ∀ h, rina_handlers[bmsg.msg_type]? ≠ some (some h) := by
      intro h hh
      rw [List.getElem?_eq_getElem hlt, hs] at hh
      exact absurd hh (by simp)
    exact rina_ctrl_write_no_handler hash_min serialize_rina_msg deserialize_rina_msg rc dm ubuf
      ppos k bmsg hlen hd hno

/-- C29 on a message of type `RINA_CTRL_MSG_MAX`, the largest that passes the
guard: the slot read is the last of the table, it is NULL, and the write is
rejected without a handler being called. -/
theorem C29_handler_index_within_table_witness :
    sizeof_rina_msg_t ≤ [9, 1].length ∧
    header_decoder [9, 1] = some ⟨9, 1, 2, rina_name_zero, 0, 0, rina_name_zero⟩ ∧
    (9 : Nat) ≤ RINA_CTRL_MSG_MAX ∧
    9 < rina_handlers.length ∧
    ∃ slot, rina_handlers[9]? = some slot ∧
      (rina_ctrl_write hash_32 header_codec header_decoder ⟨[]⟩ dm_shim [9, 1] 0 true true
        env_ok).handler = slot :=
  have h := C29_handler_index_within_table hash_32 header_codec header_decoder ⟨[]⟩ dm_shim
    [9, 1] 0 env_ok ⟨9, 1, 2, rina_name_zero, 0, 0, rina_name_zero⟩ (by decide) rfl (by decide)
  ⟨by decide, rfl, by decide, h.2.2.2.1,
    h.2.2.2.2.elim fun slot hs => ⟨slot, hs.1, hs.2.1⟩⟩

/-- C30: a read with capacity 0 returns 0 at once, whatever the queue holds
and whatever would happen while a reader sleeps: it does not wait on an empty
queue (the result does not depend on the list of wake-ups and exists for the
empty list), it does not report `-ENOBUFS` on a non-empty queue, it copies
nothing, and it leaves the delivery queue and the file position unchanged. -/
theorem C30_read_of_capacity_zero_returns_zero (ppos : Int) (copy_ok : Bool) (rc : rina_ctrl)
    (events : List sleep_event) :
    rina_ctrl_read 0 ppos copy_ok rc events = some ⟨0, ppos, rc, none⟩ ∧
    rina_ctrl_read 0 ppos copy_ok rc [] = some ⟨0, ppos, rc, none⟩ ∧
    ∀ r, rina_ctrl_read 0 ppos copy_ok rc events = some r →
      r.ret = 0 ∧ r.ret ≠ -ENOBUFS ∧ r.rc.upqueue = rc.upqueue ∧ r.ubuf = none ∧
      r.ppos = ppos := by
  refine ⟨rina_ctrl_read_zero ppos copy_ok rc events, rina_ctrl_read_zero ppos copy_ok rc [],
    fun r hr => ?_⟩
  rw [rina_ctrl_read_zero] at hr
  cases hr
  refine ⟨rfl, ?_, rfl, rfl, rfl⟩
  simp [ENOBUFS]

/-! ## The fetch cursor -/

/-- The address `a` is the address of an entry of the table. -/
theorem cursor_valid_iff (dm : rina_dm) :
    cursor_valid dm ↔
      ∀ a, dm.ipcp_fetch_last = some a → ∃ b, ∃ e ∈ dm.ipcp_table b, e.self = a := by
  unfold cursor_valid
  constructor
  · intro h a ha
    obtain ⟨e, he, hs⟩ := h a ha
    obtain ⟨b, hb⟩ := (mem_live dm e).mp he
    exact ⟨b, e, hb, hs⟩
  · intro h a ha
    obtain ⟨b, e, hb, hs⟩ := h a ha
    exact ⟨e, (mem_live dm e).mpr ⟨b, hb⟩, hs⟩

/-- The cursor stays valid when it is not moved and every address that the
table had is still in the table. -/
theorem cursor_valid_of_table (dm dm1 : rina_dm)
    (hcur : dm1.ipcp_fetch_last = dm.ipcp_fetch_last)
    (htab : ∀ b, ∀ e ∈ dm.ipcp_table b, ∃ e1 ∈ dm1.ipcp_table b, e1.self = e.self)
    (h : cursor_valid dm) : cursor_valid dm1 := by
  rw [cursor_valid_iff] at h ⊢
  intro a ha
  rw [hcur] at ha
  obtain ⟨b, e, hb, hs⟩ := h a ha
  obtain ⟨e1, he1, hs1⟩ := htab b e hb
  exact ⟨b, e1, he1, hs1.trans hs⟩

/-- The routine `hash_del` of the first match leaves every other node of the
chain linked. -/
theorem mem_eraseP_of_ne_find (p : ipcp_entry → Bool) (l : List ipcp_entry) (x e : ipcp_entry)
    (hf : l.find? p = some x) (he : e ∈ l) (hne : e ≠ x) : e ∈ l.eraseP p := by
  induction l with
  | nil => cases he
  | cons y ys ih =>
    by_cases hp : p y = true
    · rw [List.find?_cons_of_pos _ hp] at hf
      cases hf
      simp only [List.eraseP_cons, hp, if_true]
      rcases List.mem_cons.mp he with h | h
      · exact absurd h hne
      · exact h
    · rw [List.find?_cons_of_neg _ hp] at hf
      simp only [List.eraseP_cons, hp]
      rcases List.mem_cons.mp he with h | h
      · rw [h]; exact List.mem_cons_self _ _
      · exact List.mem_cons_of_mem _ (ih hf h)

/-- The loop of `rina_ipcp_fetch` breaks at an entry of the table. -/
theorem fetch_scan_mem (last : Option Nat) (stop_next : Bool) (l : List ipcp_entry)
    (e : ipcp_entry) (h : fetch_scan last stop_next l = some e) : e ∈ l := by
  induction l generalizing stop_next with
  | nil => simp [fetch_scan] at h
  | cons y ys ih =>
    unfold fetch_scan at h
    split at h
    · cases h
      exact List.mem_cons_self _ _
    · split at h
      · exact List.mem_cons_of_mem _ (ih true h)
      · exact List.mem_cons_of_mem _ (ih false h)

/-- The loop of `rina_assign_to_dif` keeps every entry where it is, at its
address. -/
theorem assign_scan_self (k : Nat) (n : rina_name) (l : List ipcp_entry) :
    ∀ e ∈ l, ∃ e1 ∈ (assign_scan k n l).1, e1.self = e.self := by
  induction l with
  | nil => intro e he; cases he
  | cons y ys ih =>
    intro e he
    unfold assign_scan
    split
    · rcases List.mem_cons.mp he with h | h
      · exact ⟨_, List.mem_cons_self _ _, by rw [h]⟩
      · exact ⟨e, List.mem_cons_of_mem _ h, rfl⟩
    · rcases List.mem_cons.mp he with h | h
      · exact ⟨y, List.mem_cons_self _ _, by rw [h]⟩
      · obtain ⟨e1, he1, hs⟩ := ih e h
        exact ⟨e1, List.mem_cons_of_mem _ he1, hs⟩

/-- The function `ipcp_add` keeps the cursor valid, whatever its allocations
return. -/
theorem cursor_valid_ipcp_add (hash_min : Nat → Fin IPCP_HASH_SIZE) (dm : rina_dm)
    (req : rina_msg_ipcp_create) (ipcp_id : Nat) (create_ret entry_alloc : Option Nat)
    (h : cursor_valid dm) :
    cursor_valid (ipcp_add hash_min dm req ipcp_id create_ret entry_alloc).dm := by
  unfold ipcp_add
  cases ipcp_factories_find dm req.dif_type with
  | none => exact h
  | some factory =>
    cases create_ret with
    | none => exact h
    | some ipcp_priv =>
      cases entry_alloc with
      | none => exact h
      | some addr =>
        simp only
        split
        · refine cursor_valid_of_table dm _ rfl (fun b e he => ?_) h
          refine ⟨e, ?_, rfl⟩
          show e ∈ hash_add hash_min dm.ipcp_table _ _ b
          unfold hash_add
          by_cases hb : b = hash_min
              (bitmap_find_next_zero_area dm.ipcp_id_bitmap IPCP_ID_BITMAP_SIZE 0 1 0 % 2 ^ 16)
          · subst hb
            rw [Function.update_same]
            exact List.mem_cons_of_mem _ he
          · rw [Function.update_noteq hb]
            exact he
        · exact h

/-- The function `ipcp_del` keeps the cursor valid: it resets the cursor when
the entry it unlinks is the one the cursor references. -/
theorem cursor_valid_ipcp_del (hash_min : Nat → Fin IPCP_HASH_SIZE) (dm : rina_dm)
    (ipcp_id : Nat) (h : cursor_valid dm) : cursor_valid (ipcp_del hash_min dm ipcp_id).dm := by
  unfold ipcp_del
  split
  · exact h
  · simp only
    cases hf : (dm.ipcp_table (hash_min ipcp_id)).find? (fun entry => entry.id == ipcp_id) with
    | none => exact cursor_valid_of_table dm _ rfl (fun b e he => ⟨e, he, rfl⟩) h
    | some entry =>
      rw [cursor_valid_iff] at h ⊢
      intro a ha
      simp only at ha
      by_cases hc : dm.ipcp_fetch_last = some entry.self
      · rw [if_pos hc] at ha
        cases ha
      · rw [if_neg hc] at ha
        obtain ⟨b, e, hb, hs⟩ := h a ha
        have hne : e ≠ entry := by
          intro he
          apply hc
          rw [ha, ← hs, he]
        refine ⟨b, e, ?_, hs⟩
        show e ∈ Function.update dm.ipcp_table (hash_min ipcp_id) _ b
        by_cases hbb : b = hash_min ipcp_id
        · subst hbb
          rw [Function.update_same]
          exact mem_eraseP_of_ne_find _ _ entry e hf hb hne
        · rw [Function.update_noteq hbb]
          exact hb

/-- Every message handler keeps the cursor valid, whatever its allocations
return. -/
theorem cursor_valid_call_handler (hash_min : Nat → Fin IPCP_HASH_SIZE)
    (serialize_rina_msg : rina_msg → List Nat) (hd : rina_msg_handler_t) (rc : rina_ctrl)
    (dm : rina_dm) (bmsg : msgbuf) (k : handler_env) (h : cursor_valid dm) :
    cursor_valid (call_handler hash_min serialize_rina_msg hd rc dm bmsg k).dm := by
  cases hd with
  | ipcp_create =>
    have ha := cursor_valid_ipcp_add hash_min dm bmsg.as_ipcp_create k.ipcp_id k.create_ret
      k.entry_alloc h
    have hdel := cursor_valid_ipcp_del hash_min _
      (ipcp_add hash_min dm bmsg.as_ipcp_create k.ipcp_id k.create_ret k.entry_alloc).ipcp_id ha
    simp only [call_handler, rina_ipcp_create]
    split_ifs <;> assumption
  | ipcp_destroy =>
    have hdel := cursor_valid_ipcp_del hash_min dm bmsg.as_ipcp_destroy.ipcp_id h
    simp only [call_handler, rina_ipcp_destroy]
    split_ifs <;> assumption
  | ipcp_fetch =>
    simp only [call_handler, rina_ipcp_fetch]
    cases k.fetch_resp_alloc with
    | none => exact h
    | some resp0 =>
      simp only
      have hv : cursor_valid
          (match fetch_scan dm.ipcp_fetch_last dm.ipcp_fetch_last.isNone
              (hash_entries dm.ipcp_table) with
            | some entry => { dm with ipcp_fetch_last := some entry.self }
            | none => { dm with ipcp_fetch_last := none }) := by
        cases hf : fetch_scan dm.ipcp_fetch_last dm.ipcp_fetch_last.isNone
            (hash_entries dm.ipcp_table) with
        | none =>
          intro a ha
          cases ha
        | some entry =>
          intro a ha
          simp only [Option.some.injEq] at ha
          exact ⟨entry, fetch_scan_mem _ _ _ _ hf, ha⟩
      split_ifs <;> exact hv
  | assign_to_dif =>
    have ha : cursor_valid
        { dm with
          ipcp_table := Function.update dm.ipcp_table (hash_min bmsg.as_assign_to_dif.ipcp_id)
            (assign_scan bmsg.as_assign_to_dif.ipcp_id bmsg.as_assign_to_dif.dif_name
              (dm.ipcp_table (hash_min bmsg.as_assign_to_dif.ipcp_id))).1 } := by
      refine cursor_valid_of_table dm _ rfl (fun b e he => ?_) h
      show ∃ e1 ∈ Function.update dm.ipcp_table _ _ b, e1.self = e.self
      by_cases hb : b = hash_min bmsg.as_assign_to_dif.ipcp_id
      · subst hb
        rw [Function.update_same]
        exact assign_scan_self _ _ _ e he
      · rw [Function.update_noteq hb]
        exact ⟨e, he, rfl⟩
    simp only [call_handler, rina_assign_to_dif]
    split_ifs <;> assumption

/-- Every operation on the registry keeps the cursor valid. -/
theorem cursor_valid_registry_step (hash_min : Nat → Fin IPCP_HASH_SIZE) (dm : rina_dm)
    (op : registry_op) (h : cursor_valid dm) : cursor_valid (registry_step hash_min dm op) := by
  cases op with
  | factory_register factory kmalloc_ok =>
    simp only [registry_step, rina_ipcp_factory_register]
    cases factory with
    | none => exact h
    | some fac =>
      simp only
      split_ifs <;> exact h
  | factory_unregister dif_type =>
    simp only [registry_step, rina_ipcp_factory_unregister]
    cases ipcp_factories_find dm dif_type <;> exact h
  | add req ipcp_id create_ret entry_alloc =>
    exact cursor_valid_ipcp_add hash_min dm req ipcp_id create_ret entry_alloc h
  | del ipcp_id => exact cursor_valid_ipcp_del hash_min dm ipcp_id h

/-- Every sequence of steps of a control session keeps the cursor valid. -/
theorem cursor_valid_ctrl_run (hash_min : Nat → Fin IPCP_HASH_SIZE)
    (serialize_rina_msg : rina_msg → List Nat) (ops : List ctrl_op) :
    ∀ s : rina_ctrl × rina_dm, cursor_valid s.2 →
      cursor_valid (ctrl_run hash_min serialize_rina_msg s ops).2 := by
  induction ops with
  | nil => intro s h; exact h
  | cons op rest ih =>
    intro s h
    unfold ctrl_run
    rw [List.foldl_cons]
    apply ih
    cases op with
    | registry op => exact cursor_valid_registry_step hash_min s.2 op h
    | handler hd bmsg k =>
      exact cursor_valid_call_handler hash_min serialize_rina_msg hd s.1 s.2 bmsg k h

/-- C26: in every state that a control session reaches from the initial
registry by calls of the handlers `rina_ipcp_create`, `rina_ipcp_destroy`,
`rina_ipcp_fetch` and `rina_assign_to_dif` (on any request, with any outcome of
their allocations) and by direct registry operations (factory registration and
unregistration, `ipcp_add`, `ipcp_del`), the cursor `ipcp_fetch_last` is NULL
or the address of an entry that is in the process table. -/
theorem C26_fetch_cursor_references_a_live_entry (hash_min : Nat → Fin IPCP_HASH_SIZE)
    (serialize_rina_msg : rina_msg → List Nat) (rc : rina_ctrl) (ops : List ctrl_op) :
    (ctrl_run hash_min serialize_rina_msg (rc, rina_dm_init) ops).2.ipcp_fetch_last = none ∨
    ∃ e ∈ live (ctrl_run hash_min serialize_rina_msg (rc, rina_dm_init) ops).2,
      (ctrl_run hash_min serialize_rina_msg (rc, rina_dm_init) ops).2.ipcp_fetch_last
        = some e.self := by
  have hinit : cursor_valid rina_dm_init := by
    intro a ha
    cases ha
  have h := cursor_valid_ctrl_run hash_min serialize_rina_msg ops (rc, rina_dm_init) hinit
  cases hc : (ctrl_run hash_min serialize_rina_msg (rc, rina_dm_init) ops).2.ipcp_fetch_last with
  | none => exact Or.inl rfl
  | some a =>
    obtain ⟨e, he, hs⟩ := h a hc
    exact Or.inr ⟨e, he, by rw [hs]⟩

/-! ## The SDU paths of the normal IPC process -/
namespace Normal

theorem seq_num_incr_flows (mem : memory) (f p : Nat) :
    ((seq_num_incr mem f).flows p).local_port = (mem.flows p).local_port ∧
    ((seq_num_incr mem f).flows p).remote_port = (mem.flows p).remote_port ∧
    ((seq_num_incr mem f).flows p).remote_addr = (mem.flows p).remote_addr ∧
    ((seq_num_incr mem f).flows p).txrx_ipcp = (mem.flows p).txrx_ipcp ∧
    ((seq_num_incr mem f).flows p).upper_ipcp = (mem.flows p).upper_ipcp ∧
    ((seq_num_incr mem f).flows p).pduft_dest_addr = (mem.flows p).pduft_dest_addr ∧
    ((seq_num_incr mem f).flows p).ftnode = (mem.flows p).ftnode := by
  unfold seq_num_incr
  by_cases h : p = f
  · subst h; simp
  · simp [Function.update_noteq h]

theorem pduft_scan_seq_num_incr (mem : memory) (f dest_addr : Nat) (fuel : Nat)
    (pos : Option Nat) :
    pduft_scan (seq_num_incr mem f) dest_addr fuel pos = pduft_scan mem dest_addr fuel pos := by
  induction fuel generalizing pos with
  | zero => cases pos <;> rfl
  | succ n ih =>
    cases pos with
    | none => rfl
    | some p =>
      simp only [pduft_scan, (seq_num_incr_flows mem f p).2.2.2.2.2.1,
        (seq_num_incr_flows mem f p).2.2.2.2.2.2, ih]

/-- The forwarding table does not depend on the sequence numbers. -/
theorem pduft_lookup_seq_num_incr (hash_min : Nat → Fin PDUFT_HASH_SIZE) (fuel : Nat)
    (mem : memory) (f priv dest_addr : Nat) :
    pduft_lookup hash_min fuel (seq_num_incr mem f) priv dest_addr =
      pduft_lookup hash_min fuel mem priv dest_addr := by
  unfold pduft_lookup
  rw [pduft_scan_seq_num_incr]
  rfl

/-- The function `rina_normal_sdu_write` when the forwarding table has a
next-hop flow whose instance has code outside these sources. -/
theorem rina_normal_sdu_write_other (c : rina_consts) (hash_min : Nat → Fin PDUFT_HASH_SIZE)
    (env : sdu_env) (lfuel depth : Nat) (mem : memory) (ipcp flow : Nat) (rb : rina_buf)
    (lower_flow lower_ipcp code : Nat)
    (hlook : pduft_lookup hash_min lfuel mem (mem.ipcps ipcp).priv (mem.flows flow).remote_addr
      = some (some lower_flow))
    (htx : (mem.flows lower_flow).txrx_ipcp = some lower_ipcp)
    (hop : (mem.ipcps lower_ipcp).sdu_write = .other code) :
    rina_normal_sdu_write c hash_min env lfuel (depth + 1) mem ipcp flow rb =
      some ⟨sub_pci_size c (env.other_sdu_write code lower_ipcp lower_flow
          (rina_buf_pci_push rb (sdu_write_pci c mem ipcp flow))),
        seq_num_incr mem flow,
        [.sdu_write lower_ipcp lower_flow (rina_buf_pci_push rb (sdu_write_pci c mem ipcp flow))]⟩
    := by
  have hop1 : ((seq_num_incr mem flow).ipcps lower_ipcp).sdu_write = .other code := hop
  simp only [rina_normal_sdu_write, hlook, htx, hop1]

/-- The function `rina_normal_sdu_write` when the forwarding table has a
next-hop flow whose instance is a normal one. -/
theorem rina_normal_sdu_write_normal (c : rina_consts) (hash_min : Nat → Fin PDUFT_HASH_SIZE)
    (env : sdu_env) (lfuel depth : Nat) (mem : memory) (ipcp flow : Nat) (rb : rina_buf)
    (lower_flow lower_ipcp : Nat)
    (hlook : pduft_lookup hash_min lfuel mem (mem.ipcps ipcp).priv (mem.flows flow).remote_addr
      = some (some lower_flow))
    (htx : (mem.flows lower_flow).txrx_ipcp = some lower_ipcp)
    (hop : (mem.ipcps lower_ipcp).sdu_write = .normal) :
    rina_normal_sdu_write c hash_min env lfuel (depth + 1) mem ipcp flow rb =
      (rina_normal_sdu_write c hash_min env lfuel depth (seq_num_incr mem flow) lower_ipcp
        lower_flow (rina_buf_pci_push rb (sdu_write_pci c mem ipcp flow))).map fun r =>
        ⟨sub_pci_size c r.ret, r.mem,
          .sdu_write lower_ipcp lower_flow (rina_buf_pci_push rb (sdu_write_pci c mem ipcp flow))
            :: r.events⟩ := by
  have hop1 : ((seq_num_incr mem flow).ipcps lower_ipcp).sdu_write = .normal := hop
  simp only [rina_normal_sdu_write, hlook, htx, hop1]
  cases rina_normal_sdu_write c hash_min env lfuel depth (seq_num_incr mem flow) lower_ipcp
    lower_flow (rina_buf_pci_push rb (sdu_write_pci c mem ipcp flow)) <;> rfl

/-- The function `rina_normal_sdu_write` when the forwarding table has no
entry for the remote address, which is the instance's own, and the instance
receives with `rina_normal_sdu_rx`. -/
theorem rina_normal_sdu_write_local (c : rina_consts) (hash_min : Nat → Fin PDUFT_HASH_SIZE)
    (env : sdu_env) (lfuel depth : Nat) (mem : memory) (ipcp flow : Nat) (rb : rina_buf)
    (hmiss : pduft_lookup hash_min lfuel mem (mem.ipcps ipcp).priv (mem.flows flow).remote_addr
      = some none)
    (hown : (mem.flows flow).remote_addr = (mem.ipcps ipcp).addr)
    (hop : (mem.ipcps ipcp).sdu_rx = .normal) :
    rina_normal_sdu_write c hash_min env lfuel (depth + 1) mem ipcp flow rb =
      some ⟨if env.rina_sdu_rx ipcp rb (mem.flows flow).remote_port = 0 then
            to_int (rb.len c)
          else env.rina_sdu_rx ipcp rb (mem.flows flow).remote_port,
        seq_num_incr mem flow,
        [.sdu_rx ipcp (rina_buf_pci_push rb (sdu_write_pci c mem ipcp flow)),
         .rina_sdu_rx ipcp rb (mem.flows flow).remote_port]⟩ := by
  have hop1 : ((seq_num_incr mem flow).ipcps ipcp).sdu_rx = .normal := hop
  obtain ⟨pcis, data⟩ := rb
  have hlen : ((data.length + (pcis.length + 1) * c.sizeof_rina_pci : Nat) : Int)
      - c.sizeof_rina_pci = ((data.length + pcis.length * c.sizeof_rina_pci : Nat) : Int) := by
    push_cast
    ring
  simp only [rina_normal_sdu_write, hmiss]
  rw [if_neg (not_not.mpr hown)]
  simp only [hop1, rina_normal_sdu_rx, rina_buf_pci_pop, rina_buf_pci_push, sdu_write_pci,
    if_true, rina_buf.len, List.length_cons, hlen]

/-- An `int` value is its own conversion to `int`. -/
theorem to_int_of_lt (n : Nat) (h : n < 2 ^ 31) : to_int n = n := by
  unfold to_int
  omega

/-- C22: when the forwarding table has no entry for the remote address of
`flow`, that address is the instance's own and the instance receives with
`rina_normal_sdu_rx`, `rina_normal_sdu_write` pushes its header, calls the
receive path on the longer buffer, and the receive path pops the header again:
what is dispatched upward by `rina_sdu_rx` is the buffer as it was given, under
the connection-endpoint id `flow->remote_port`.  The write returns the length
the buffer had when the dispatch returns 0, and the value of the dispatch
otherwise; the sequence counter of the flow is consumed. -/
theorem C22_local_delivery_dispatches_the_original_sdu (c : rina_consts)
    (hash_min : Nat → Fin PDUFT_HASH_SIZE) (env : sdu_env) (lfuel depth : Nat) (mem : memory)
    (ipcp flow : Nat) (rb : rina_buf)
    (hmiss : pduft_lookup hash_min lfuel mem (mem.ipcps ipcp).priv (mem.flows flow).remote_addr
      = some none)
    (hown : (mem.flows flow).remote_addr = (mem.ipcps ipcp).addr)
    (hop : (mem.ipcps ipcp).sdu_rx = .normal) :
    rina_normal_sdu_write c hash_min env lfuel (depth + 1) mem ipcp flow rb =
      some ⟨if env.rina_sdu_rx ipcp rb (mem.flows flow).remote_port = 0 then
            to_int (rb.len c)
          else env.rina_sdu_rx ipcp rb (mem.flows flow).remote_port,
        seq_num_incr mem flow,
        [.sdu_rx ipcp
          ⟨⟨(mem.flows flow).remote_addr, (mem.ipcps ipcp).addr, 0,
            (mem.flows flow).remote_port, (mem.flows flow).local_port, c.PDU_TYPE_DT, 0,
            (mem.flows flow).next_seq_num_to_send⟩ :: rb.pci, rb.data⟩,
         .rina_sdu_rx ipcp rb (mem.flows flow).remote_port]⟩ ∧
    (env.rina_sdu_rx ipcp rb (mem.flows flow).remote_port = 0 → rb.len c < 2 ^ 31 →
      (rina_normal_sdu_write c hash_min env lfuel (depth + 1) mem ipcp flow rb).map
        sdu_result.ret = some (rb.len c : Int)) := by
  have h := rina_normal_sdu_write_local c hash_min env lfuel depth mem ipcp flow rb hmiss hown
    hop
  refine ⟨h, fun h0 hlt => ?_⟩
  rw [h, Option.map_some', if_pos h0, to_int_of_lt _ hlt]

/-- C22 on the memory of the examples: the instance at address 2 has address
20, which is the remote address of flow 3, and an empty forwarding table; a
write of three bytes dispatches the three bytes under endpoint 6 and returns
3. -/
theorem C22_local_delivery_dispatches_the_original_sdu_witness :
    pduft_lookup hash_64 8 mem_net (mem_net.ipcps 2).priv (mem_net.flows 3).remote_addr
      = some none ∧
    (mem_net.flows 3).remote_addr = (mem_net.ipcps 2).addr ∧
    (mem_net.ipcps 2).sdu_rx = .normal ∧
    (rina_normal_sdu_write consts_example hash_64 env_zero 8 1 mem_net 2 3
        ⟨[], [1, 2, 3]⟩).map (fun r => (r.ret, r.events)) =
      some (3, [.sdu_rx 2 ⟨[⟨20, 20, 0, 6, 5, 0x80, 0, 0⟩], [1, 2, 3]⟩,
        .rina_sdu_rx 2 ⟨[], [1, 2, 3]⟩ 6]) :=
  have hmiss : pduft_lookup hash_64 8 mem_net (mem_net.ipcps 2).priv
      (mem_net.flows 3).remote_addr = some none := by decide
  have hown : (mem_net.flows 3).remote_addr = (mem_net.ipcps 2).addr := by decide
  have hop : (mem_net.ipcps 2).sdu_rx = .normal := by decide
  ⟨hmiss, hown, hop, by
    rw [(C22_local_delivery_dispatches_the_original_sdu consts_example hash_64 env_zero 8 0
      mem_net 2 3 ⟨[], [1, 2, 3]⟩ hmiss hown hop).1]
    rfl⟩

/-- C23: on a buffer that begins with a header, `rina_normal_sdu_rx` pops the
header; when its type is `PDU_TYPE_DT` the rest of the buffer is dispatched by
`rina_sdu_rx` under the header's `dst_cep` and the value of that call is
returned, and nothing is freed; for every other type nothing is dispatched, the
buffer is freed and 0 is returned. -/
theorem C23_receive_dispatches_data_and_discards_the_rest (c : rina_consts) (env : sdu_env)
    (ipcp : Nat) (pci : rina_pci) (rest : List rina_pci) (data : List Nat) :
    (pci.pdu_type = c.PDU_TYPE_DT →
      rina_normal_sdu_rx c env ipcp ⟨pci :: rest, data⟩ =
        some (env.rina_sdu_rx ipcp ⟨rest, data⟩ pci.dst_cep,
          [.rina_sdu_rx ipcp ⟨rest, data⟩ pci.dst_cep])) ∧
    (pci.pdu_type ≠ c.PDU_TYPE_DT →
      rina_normal_sdu_rx c env ipcp ⟨pci :: rest, data⟩ =
        some (0, [.buf_free ⟨rest, data⟩])) := by
  constructor
  · intro h
    simp only [rina_normal_sdu_rx, rina_buf_pci_pop, h, if_true]
  · intro h
    simp only [rina_normal_sdu_rx, rina_buf_pci_pop, h, if_false]

/-- C23 on a DATA header for endpoint 6 and on a MANAGEMENT header, in front
of three bytes. -/
theorem C23_receive_dispatches_data_and_discards_the_rest_witness :
    rina_normal_sdu_rx consts_example env_zero 2
        ⟨[⟨20, 10, 0, 6, 5, 0x80, 0, 0⟩], [1, 2, 3]⟩ =
      some (0, [.rina_sdu_rx 2 ⟨[], [1, 2, 3]⟩ 6]) ∧
    rina_normal_sdu_rx consts_example env_zero 2
        ⟨[⟨20, 10, 0, 0, 0, 0x40, 0, 0⟩], [1, 2, 3]⟩ =
      some (0, [.buf_free ⟨[], [1, 2, 3]⟩]) :=
  ⟨(C23_receive_dispatches_data_and_discards_the_rest consts_example env_zero 2
      ⟨20, 10, 0, 6, 5, 0x80, 0, 0⟩ [] [1, 2, 3]).1 (by decide),
   (C23_receive_dispatches_data_and_discards_the_rest consts_example env_zero 2
      ⟨20, 10, 0, 0, 0, 0x40, 0, 0⟩ [] [1, 2, 3]).2 (by decide)⟩

end Normal
namespace Normal

/-- The tail of `rina_normal_mgmt_sdu_write` when the instance of the next-hop
flow has code outside these sources. -/
theorem mgmt_sdu_forward_other (c : rina_consts) (hash_min : Nat → Fin PDUFT_HASH_SIZE)
    (env : sdu_env) (lfuel depth : Nat) (mem : memory) (ipcp lower_flow dst_addr : Nat)
    (rb : rina_buf) (lower_ipcp code : Nat)
    (htx : (mem.flows lower_flow).txrx_ipcp = some lower_ipcp)
    (hop : (mem.ipcps lower_ipcp).sdu_write = .other code) :
    mgmt_sdu_forward c hash_min env lfuel depth mem ipcp lower_flow dst_addr rb =
      some ⟨sub_pci_size c (env.other_sdu_write code lower_ipcp lower_flow
          ⟨⟨dst_addr, (mem.ipcps ipcp).addr, 0, 0, 0, c.PDU_TYPE_MGMT, 0, 0⟩ :: rb.pci, rb.data⟩),
        mem,
        [.sdu_write lower_ipcp lower_flow
          ⟨⟨dst_addr, (mem.ipcps ipcp).addr, 0, 0, 0, c.PDU_TYPE_MGMT, 0, 0⟩ :: rb.pci,
            rb.data⟩]⟩ := by
  simp only [mgmt_sdu_forward, htx, hop]
  rfl

/-- The tail of `rina_normal_mgmt_sdu_write` when the instance of the next-hop
flow is a normal one. -/
theorem mgmt_sdu_forward_normal (c : rina_consts) (hash_min : Nat → Fin PDUFT_HASH_SIZE)
    (env : sdu_env) (lfuel depth : Nat) (mem : memory) (ipcp lower_flow dst_addr : Nat)
    (rb : rina_buf) (lower_ipcp : Nat)
    (htx : (mem.flows lower_flow).txrx_ipcp = some lower_ipcp)
    (hop : (mem.ipcps lower_ipcp).sdu_write = .normal) :
    mgmt_sdu_forward c hash_min env lfuel depth mem ipcp lower_flow dst_addr rb =
      (rina_normal_sdu_write c hash_min env lfuel depth mem lower_ipcp lower_flow
        ⟨⟨dst_addr, (mem.ipcps ipcp).addr, 0, 0, 0, c.PDU_TYPE_MGMT, 0, 0⟩ :: rb.pci,
          rb.data⟩).map fun r =>
        ⟨sub_pci_size c r.ret, r.mem,
          .sdu_write lower_ipcp lower_flow
            ⟨⟨dst_addr, (mem.ipcps ipcp).addr, 0, 0, 0, c.PDU_TYPE_MGMT, 0, 0⟩ :: rb.pci,
              rb.data⟩ :: r.events⟩ := by
  have hrb : (⟨⟨dst_addr, (mem.ipcps ipcp).addr, 0, 0, 0, c.PDU_TYPE_MGMT, 0, 0⟩ :: rb.pci,
      rb.data⟩ : rina_buf) = rina_buf_pci_push rb (mgmt_sdu_write_pci c mem ipcp dst_addr) := rfl
  rw [hrb]
  simp only [mgmt_sdu_forward, htx, hop]
  cases rina_normal_sdu_write c hash_min env lfuel depth mem lower_ipcp lower_flow
    (rina_buf_pci_push rb (mgmt_sdu_write_pci c mem ipcp dst_addr)) <;> rfl

/-- The function `rina_normal_mgmt_sdu_write` on a header that routes by
destination address, when the forwarding table has a flow for the address. -/
theorem rina_normal_mgmt_sdu_write_dst_addr (c : rina_consts)
    (hash_min : Nat → Fin PDUFT_HASH_SIZE) (env : sdu_env) (lfuel depth : Nat) (mem : memory)
    (ipcp : Nat) (mhdr : rina_mgmt_hdr) (rb : rina_buf) (lower_flow : Nat)
    (ht : mhdr.type = c.RINA_MGMT_HDR_T_OUT_DST_ADDR)
    (hlook : pduft_lookup hash_min lfuel mem (mem.ipcps ipcp).priv mhdr.remote_addr
      = some (some lower_flow)) :
    rina_normal_mgmt_sdu_write c hash_min env lfuel depth mem ipcp mhdr rb =
      mgmt_sdu_forward c hash_min env lfuel depth mem ipcp lower_flow mhdr.remote_addr rb := by
  simp only [rina_normal_mgmt_sdu_write, ht, hlook, if_true]

/-- The function `rina_normal_mgmt_sdu_write` on a header that routes by local
port, when the port has a flow whose upper instance is this one. -/
theorem rina_normal_mgmt_sdu_write_local_port (c : rina_consts)
    (hash_min : Nat → Fin PDUFT_HASH_SIZE) (env : sdu_env) (lfuel depth : Nat) (mem : memory)
    (ipcp : Nat) (mhdr : rina_mgmt_hdr) (rb : rina_buf) (lower_flow : Nat)
    (ht1 : mhdr.type ≠ c.RINA_MGMT_HDR_T_OUT_DST_ADDR)
    (ht2 : mhdr.type = c.RINA_MGMT_HDR_T_OUT_LOCAL_PORT)
    (hport : env.flow_lookup mhdr.local_port = some lower_flow)
    (hup : (mem.flows lower_flow).upper_ipcp = some ipcp) :
    rina_normal_mgmt_sdu_write c hash_min env lfuel depth mem ipcp mhdr rb =
      mgmt_sdu_forward c hash_min env lfuel depth mem ipcp lower_flow 0 rb := by
  unfold rina_normal_mgmt_sdu_write
  rw [if_neg ht1, if_pos ht2]
  simp only [hport, hup, ne_eq, not_true_eq_false, if_false]

/-- C24: `rina_normal_mgmt_sdu_write` frees the buffer as it was given, calls
nothing else (no header is pushed, no `sdu_write` of a lower instance is
called), leaves memory unchanged and returns `rb->len` as an `int`, in each of
these cases: the header routes by destination address and the forwarding table
has no entry for it; the header routes by local port and `flow_lookup` finds no
flow for the port; it routes by local port and the flow found has another upper
instance (or none); the header has any other type.  For a length that fits an
`int` the value returned is the length itself. -/
theorem C24_management_write_drops_unroutable (c : rina_consts)
    (hash_min : Nat → Fin PDUFT_HASH_SIZE) (env : sdu_env) (lfuel depth : Nat) (mem : memory)
    (ipcp : Nat) (mhdr : rina_mgmt_hdr) (rb : rina_buf) :
    (mhdr.type = c.RINA_MGMT_HDR_T_OUT_DST_ADDR →
      pduft_lookup hash_min lfuel mem (mem.ipcps ipcp).priv mhdr.remote_addr = some none →
      rina_normal_mgmt_sdu_write c hash_min env lfuel depth mem ipcp mhdr rb =
        some ⟨to_int (rb.len c), mem, [.buf_free rb]⟩) ∧
    (mhdr.type ≠ c.RINA_MGMT_HDR_T_OUT_DST_ADDR →
      mhdr.type = c.RINA_MGMT_HDR_T_OUT_LOCAL_PORT →
      env.flow_lookup mhdr.local_port = none →
      rina_normal_mgmt_sdu_write c hash_min env lfuel depth mem ipcp mhdr rb =
        some ⟨to_int (rb.len c), mem, [.buf_free rb]⟩) ∧
    (mhdr.type ≠ c.RINA_MGMT_HDR_T_OUT_DST_ADDR →
      mhdr.type = c.RINA_MGMT_HDR_T_OUT_LOCAL_PORT →
      ∀ lower_flow, env.flow_lookup mhdr.local_port = some lower_flow →
      (mem.flows lower_flow).upper_ipcp ≠ some ipcp →
      rina_normal_mgmt_sdu_write c hash_min env lfuel depth mem ipcp mhdr rb =
        some ⟨to_int (rb.len c), mem, [.buf_free rb]⟩) ∧
    (mhdr.type ≠ c.RINA_MGMT_HDR_T_OUT_DST_ADDR →
      mhdr.type ≠ c.RINA_MGMT_HDR_T_OUT_LOCAL_PORT →
      rina_normal_mgmt_sdu_write c hash_min env lfuel depth mem ipcp mhdr rb =
        some ⟨to_int (rb.len c), mem, [.buf_free rb]⟩) ∧
    (rb.len c < 2 ^ 31 → to_int (rb.len c) = rb.len c) := by
  refine ⟨fun ht hmiss => ?_, fun ht1 ht2 hport => ?_, fun ht1 ht2 lower_flow hport hup => ?_,
    fun ht1 ht2 => ?_, fun hlt => to_int_of_lt _ hlt⟩
  · simp only [rina_normal_mgmt_sdu_write, ht, hmiss, if_true]
  · unfold rina_normal_mgmt_sdu_write
    rw [if_neg ht1, if_pos ht2]
    simp only [hport]
  · unfold rina_normal_mgmt_sdu_write
    rw [if_neg ht1, if_pos ht2]
    simp only [hport, ne_eq, hup, not_false_eq_true, if_true]
  · unfold rina_normal_mgmt_sdu_write
    rw [if_neg ht1, if_neg ht2]

/-- C24 on the memory of the examples, for a buffer of three bytes: a header
that routes to address 30, which has no entry; one that routes by port 5, which
has no flow; one that routes by port 9, whose flow has no upper instance; and
one of type 3.  Each returns 3 and frees the buffer. -/
theorem C24_management_write_drops_unroutable_witness :
    (rina_normal_mgmt_sdu_write consts_example hash_64 env_ports 8 1 mem_fwd 1 ⟨1, 0, 30⟩
        ⟨[], [1, 2, 3]⟩).map (fun r => (r.ret, r.events)) =
      some (3, [.buf_free ⟨[], [1, 2, 3]⟩]) ∧
    (rina_normal_mgmt_sdu_write consts_example hash_64 env_ports 8 1 mem_fwd 1 ⟨2, 5, 0⟩
        ⟨[], [1, 2, 3]⟩).map (fun r => (r.ret, r.events)) =
      some (3, [.buf_free ⟨[], [1, 2, 3]⟩]) ∧
    (rina_normal_mgmt_sdu_write consts_example hash_64 env_ports 8 1 mem_fwd 1 ⟨2, 9, 0⟩
        ⟨[], [1, 2, 3]⟩).map (fun r => (r.ret, r.events)) =
      some (3, [.buf_free ⟨[], [1, 2, 3]⟩]) ∧
    (rina_normal_mgmt_sdu_write consts_example hash_64 env_ports 8 1 mem_fwd 1 ⟨3, 0, 0⟩
        ⟨[], [1, 2, 3]⟩).map (fun r => (r.ret, r.events)) =
      some (3, [.buf_free ⟨[], [1, 2, 3]⟩]) :=
  ⟨by
    rw [(C24_management_write_drops_unroutable consts_example hash_64 env_ports 8 1 mem_fwd 1
      ⟨1, 0, 30⟩ ⟨[], [1, 2, 3]⟩).1 (by decide) (by decide)]
    rfl, by
    rw [(C24_management_write_drops_unroutable consts_example hash_64 env_ports 8 1 mem_fwd 1
      ⟨2, 5, 0⟩ ⟨[], [1, 2, 3]⟩).2.1 (by decide) (by decide) (by decide)]
    rfl, by
    rw [(C24_management_write_drops_unroutable consts_example hash_64 env_ports 8 1 mem_fwd 1
      ⟨2, 9, 0⟩ ⟨[], [1, 2, 3]⟩).2.2.1 (by decide) (by decide) 9 (by decide) (by decide)]
    rfl, by
    rw [(C24_management_write_drops_unroutable consts_example hash_64 env_ports 8 1 mem_fwd 1
      ⟨3, 0, 0⟩ ⟨[], [1, 2, 3]⟩).2.2.2.1 (by decide) (by decide)]
    rfl⟩

/-- C25: when `rina_normal_mgmt_sdu_write` resolves the next-hop flow
`lower_flow` (by the forwarding table for a header that routes by destination
address, with `dst_addr` the remote address of the header; or by `flow_lookup`
for a header that routes by local port whose flow has this instance above it,
with `dst_addr` 0), the `sdu_write` of the instance of `lower_flow` is handed
the buffer as it was given with one header in front: `dst_addr` as said,
`src_addr` the address of the instance, type `PDU_TYPE_MGMT`, and `qos_id`,
`dst_cep`, `src_cep`, flags and `seqnum` all 0.  No sequence counter is
consumed: the next hop runs in the memory of the call. -/
theorem C25_management_write_prepends_management_header (c : rina_consts)
    (hash_min : Nat → Fin PDUFT_HASH_SIZE) (env : sdu_env) (lfuel depth : Nat) (mem : memory)
    (ipcp : Nat) (mhdr : rina_mgmt_hdr) (rb : rina_buf) (lower_flow lower_ipcp dst_addr : Nat)
    (hres :
      (mhdr.type = c.RINA_MGMT_HDR_T_OUT_DST_ADDR ∧
        pduft_lookup hash_min lfuel mem (mem.ipcps ipcp).priv mhdr.remote_addr
          = some (some lower_flow) ∧
        dst_addr = mhdr.remote_addr) ∨
      (mhdr.type ≠ c.RINA_MGMT_HDR_T_OUT_DST_ADDR ∧
        mhdr.type = c.RINA_MGMT_HDR_T_OUT_LOCAL_PORT ∧
        env.flow_lookup mhdr.local_port = some lower_flow ∧
        (mem.flows lower_flow).upper_ipcp = some ipcp ∧
        dst_addr = 0))
    (htx : (mem.flows lower_flow).txrx_ipcp = some lower_ipcp) :
    (∀ code, (mem.ipcps lower_ipcp).sdu_write = .other code →
      rina_normal_mgmt_sdu_write c hash_min env lfuel depth mem ipcp mhdr rb =
        some ⟨sub_pci_size c (env.other_sdu_write code lower_ipcp lower_flow
            ⟨⟨dst_addr, (mem.ipcps ipcp).addr, 0, 0, 0, c.PDU_TYPE_MGMT, 0, 0⟩ :: rb.pci,
              rb.data⟩),
          mem,
          [.sdu_write lower_ipcp lower_flow
            ⟨⟨dst_addr, (mem.ipcps ipcp).addr, 0, 0, 0, c.PDU_TYPE_MGMT, 0, 0⟩ :: rb.pci,
              rb.data⟩]⟩) ∧
    ((mem.ipcps lower_ipcp).sdu_write = .normal →
      rina_normal_mgmt_sdu_write c hash_min env lfuel depth mem ipcp mhdr rb =
        (rina_normal_sdu_write c hash_min env lfuel depth mem lower_ipcp lower_flow
          ⟨⟨dst_addr, (mem.ipcps ipcp).addr, 0, 0, 0, c.PDU_TYPE_MGMT, 0, 0⟩ :: rb.pci,
            rb.data⟩).map fun r =>
          ⟨sub_pci_size c r.ret, r.mem,
            .sdu_write lower_ipcp lower_flow
              ⟨⟨dst_addr, (mem.ipcps ipcp).addr, 0, 0, 0, c.PDU_TYPE_MGMT, 0, 0⟩ :: rb.pci,
                rb.data⟩ :: r.events⟩) := by
  have hfw : rina_normal_mgmt_sdu_write c hash_min env lfuel depth mem ipcp mhdr rb =
      mgmt_sdu_forward c hash_min env lfuel depth mem ipcp lower_flow dst_addr rb := by
    rcases hres with ⟨ht, hlook, hd⟩ | ⟨ht1, ht2, hport, hup, hd⟩
    · rw [hd]
      exact rina_normal_mgmt_sdu_write_dst_addr c hash_min env lfuel depth mem ipcp mhdr rb
        lower_flow ht hlook
    · rw [hd]
      exact rina_normal_mgmt_sdu_write_local_port c hash_min env lfuel depth mem ipcp mhdr rb
        lower_flow ht1 ht2 hport hup
  refine ⟨fun code hop => ?_, fun hop => ?_⟩
  · rw [hfw]
    exact mgmt_sdu_forward_other c hash_min env lfuel depth mem ipcp lower_flow dst_addr rb
      lower_ipcp code htx hop
  · rw [hfw]
    exact mgmt_sdu_forward_normal c hash_min env lfuel depth mem ipcp lower_flow dst_addr rb
      lower_ipcp htx hop

/-- C25 on the memory of the examples, where the instance with address 10 has
flow 4 for destination 20 and port 4 has flow 4: a header that routes to
address 20 puts the header (dst 20, src 10, MANAGEMENT, the rest 0) in front of
the three bytes, a header that routes by port 4 the same header with dst 0. -/
theorem C25_management_write_prepends_management_header_witness :
    (rina_normal_mgmt_sdu_write consts_example hash_64 env_ports 8 1 mem_fwd 1 ⟨1, 0, 20⟩
        ⟨[], [1, 2, 3]⟩).map sdu_result.events =
      some [.sdu_write 3 4 ⟨[⟨20, 10, 0, 0, 0, 0x40, 0, 0⟩], [1, 2, 3]⟩] ∧
    (rina_normal_mgmt_sdu_write consts_example hash_64 env_ports 8 1 mem_fwd 1 ⟨2, 4, 0⟩
        ⟨[], [1, 2, 3]⟩).map sdu_result.events =
      some [.sdu_write 3 4 ⟨[⟨0, 10, 0, 0, 0, 0x40, 0, 0⟩], [1, 2, 3]⟩] :=
  ⟨by
    rw [(C25_management_write_prepends_management_header consts_example hash_64 env_ports 8 1
      mem_fwd 1 ⟨1, 0, 20⟩ ⟨[], [1, 2, 3]⟩ 4 3 20
      (Or.inl ⟨by decide, by decide, by decide⟩) (by decide)).1 7 (by decide)]
    rfl, by
    rw [(C25_management_write_prepends_management_header consts_example hash_64 env_ports 8 1
      mem_fwd 1 ⟨2, 4, 0⟩ ⟨[], [1, 2, 3]⟩ 4 3 0
      (Or.inr ⟨by decide, by decide, by decide, by decide, by decide⟩) (by decide)).1 7
      (by decide)]
    rfl⟩

end Normal
namespace Normal

/-- On a negative `int` the guard `ret >= sizeof(struct rina_pci)` holds,
because the comparison is made in `size_t`, and the size is subtracted. -/
theorem sub_pci_size_neg (c : rina_consts) (r : Int) (hneg : r < 0) (hmin : -2 ^ 31 ≤ r)
    (hsz : c.sizeof_rina_pci < 2 ^ 31) :
    sub_pci_size c r = to_int (r - c.sizeof_rina_pci) := by
  unfold sub_pci_size
  have h : (c.sizeof_rina_pci : Int) ≤ r % 2 ^ 64 := by
    norm_num at hmin ⊢
    omega
  rw [if_pos h]

/-- On a byte count that is at least the size of a header and fits an `int`,
the size is subtracted. -/
theorem sub_pci_size_count (c : rina_consts) (n : Nat)
    (hn : n + c.sizeof_rina_pci < 2 ^ 31) :
    sub_pci_size c ((n + c.sizeof_rina_pci : Nat) : Int) = n := by
  unfold sub_pci_size to_int
  have h : (c.sizeof_rina_pci : Int) ≤ ((n + c.sizeof_rina_pci : Nat) : Int) % 2 ^ 64 := by
    norm_num at hn ⊢
    omega
  rw [if_pos h]
  norm_num at hn ⊢
  omega

/-- C27: the code does not return a negative error code of the next hop
unchanged.  For every negative `int` `r` and every header size that is positive
and fits an `int`, the statement `if (ret >= sizeof(struct rina_pci)) ret -=
sizeof(struct rina_pci);` turns `r` into `r - sizeof(struct rina_pci)`
(converted to `int`), which differs from `r`: the comparison is made in the
unsigned `size_t`, where a negative `r` is a huge value.  Hence, when the
`sdu_write` of the next hop (code outside these sources) returns `r`, both
`rina_normal_sdu_write` and `rina_normal_mgmt_sdu_write` return
`r - sizeof(struct rina_pci)`. -/
theorem C27_negative_return_is_lowered_by_header_size (c : rina_consts) (r : Int)
    (hneg : r < 0) (hmin : -2 ^ 31 ≤ r) (hpos : 0 < c.sizeof_rina_pci)
    (hsz : c.sizeof_rina_pci < 2 ^ 31) :
    sub_pci_size c r = to_int (r - c.sizeof_rina_pci) ∧
    sub_pci_size c r ≠ r ∧
    (∀ (hash_min : Nat → Fin PDUFT_HASH_SIZE) (env : sdu_env) (lfuel depth : Nat)
        (mem : memory) (ipcp flow : Nat) (rb : rina_buf) (lower_flow lower_ipcp code : Nat),
      pduft_lookup hash_min lfuel mem (mem.ipcps ipcp).priv (mem.flows flow).remote_addr
        = some (some lower_flow) →
      (mem.flows lower_flow).txrx_ipcp = some lower_ipcp →
      (mem.ipcps lower_ipcp).sdu_write = .other code →
      env.other_sdu_write code lower_ipcp lower_flow
        (rina_buf_pci_push rb (sdu_write_pci c mem ipcp flow)) = r →
      (rina_normal_sdu_write c hash_min env lfuel (depth + 1) mem ipcp flow rb).map
        sdu_result.ret = some (to_int (r - c.sizeof_rina_pci))) ∧
    (∀ (hash_min : Nat → Fin PDUFT_HASH_SIZE) (env : sdu_env) (lfuel depth : Nat)
        (mem : memory) (ipcp : Nat) (mhdr : rina_mgmt_hdr) (rb : rina_buf)
        (lower_flow lower_ipcp code : Nat),
      mhdr.type = c.RINA_MGMT_HDR_T_OUT_DST_ADDR →
      pduft_lookup hash_min lfuel mem (mem.ipcps ipcp).priv mhdr.remote_addr
        = some (some lower_flow) →
      (mem.flows lower_flow).txrx_ipcp = some lower_ipcp →
      (mem.ipcps lower_ipcp).sdu_write = .other code →
      env.other_sdu_write code lower_ipcp lower_flow
        (rina_buf_pci_push rb (mgmt_sdu_write_pci c mem ipcp mhdr.remote_addr)) = r →
      (rina_normal_mgmt_sdu_write c hash_min env lfuel depth mem ipcp mhdr rb).map
        sdu_result.ret = some (to_int (r - c.sizeof_rina_pci))) := by
  have hsub := sub_pci_size_neg c r hneg hmin hsz
  refine ⟨hsub, ?_, ?_, ?_⟩
  · rw [hsub]
    unfold to_int
    norm_num at hmin hsz ⊢
    omega
  · intro hash_min env lfuel depth mem ipcp flow rb lower_flow lower_ipcp code hlook htx hop hr
    rw [rina_normal_sdu_write_other c hash_min env lfuel depth mem ipcp flow rb lower_flow
      lower_ipcp code hlook htx hop, Option.map_some', hr, hsub]
  · intro hash_min env lfuel depth mem ipcp mhdr rb lower_flow lower_ipcp code ht hlook htx hop
      hr
    rw [rina_normal_mgmt_sdu_write_dst_addr c hash_min env lfuel depth mem ipcp mhdr rb
      lower_flow ht hlook,
      mgmt_sdu_forward_other c hash_min env lfuel depth mem ipcp lower_flow mhdr.remote_addr rb
      lower_ipcp code htx hop, Option.map_some']
    have hr1 : env.other_sdu_write code lower_ipcp lower_flow
        ⟨⟨mhdr.remote_addr, (mem.ipcps ipcp).addr, 0, 0, 0, c.PDU_TYPE_MGMT, 0, 0⟩ :: rb.pci,
          rb.data⟩ = r := hr
    show some (sub_pci_size c (env.other_sdu_write code lower_ipcp lower_flow
        ⟨⟨mhdr.remote_addr, (mem.ipcps ipcp).addr, 0, 0, 0, c.PDU_TYPE_MGMT, 0, 0⟩ :: rb.pci,
          rb.data⟩)) = _
    rw [hr1, hsub]

/-- C27 with a header of 38 bytes and a next hop that reports `-EINVAL`
(`-22`): the instance with address 10 has flow 4 for destination 20, and both
write paths return `-60`. -/
theorem C27_negative_return_is_lowered_by_header_size_witness :
    (-22 : Int) < 0 ∧ sub_pci_size consts_example (-22) = -60 ∧
    (rina_normal_sdu_write consts_example hash_64 env_fail 8 1 mem_fwd 1 1
        ⟨[], [1, 2, 3]⟩).map sdu_result.ret = some (-60) ∧
    (rina_normal_mgmt_sdu_write consts_example hash_64 env_fail 8 1 mem_fwd 1 ⟨1, 0, 20⟩
        ⟨[], [1, 2, 3]⟩).map sdu_result.ret = some (-60) :=
  have h := C27_negative_return_is_lowered_by_header_size consts_example (-22) (by decide)
    (by decide) (by decide) (by decide)
  ⟨by decide, h.1,
    h.2.2.1 hash_64 env_fail 8 0 mem_fwd 1 1 ⟨[], [1, 2, 3]⟩ 4 3 7 (by decide) (by decide)
      (by decide) rfl,
    h.2.2.2 hash_64 env_fail 8 1 mem_fwd 1 ⟨1, 0, 20⟩ ⟨[], [1, 2, 3]⟩ 4 3 7 (by decide)
      (by decide) (by decide) (by decide) rfl⟩

end Normal
namespace Normal

/-- A stack does not depend on the sequence numbers. -/
theorem stack_seq_num_incr (hash_min : Nat → Fin PDUFT_HASH_SIZE) (lfuel : Nat) (mem : memory)
    (f : Nat) (layers : List (Nat × Nat)) (h : stack hash_min lfuel mem layers) :
    stack hash_min lfuel (seq_num_incr mem f) layers := by
  induction layers with
  | nil => exact h
  | cons l rest ih =>
    cases rest with
    | nil =>
      obtain ⟨h1, h2, h3⟩ := h
      refine ⟨?_, ?_, h3⟩
      · rw [pduft_lookup_seq_num_incr, (seq_num_incr_flows mem f l.2).2.2.1]
        exact h1
      · rw [(seq_num_incr_flows mem f l.2).2.2.1]
        exact h2
    | cons lower rest =>
      obtain ⟨h1, h2, h3, h4⟩ := h
      refine ⟨?_, ?_, h3, ih h4⟩
      · rw [pduft_lookup_seq_num_incr, (seq_num_incr_flows mem f l.2).2.2.1]
        exact h1
      · rw [(seq_num_incr_flows mem f lower.2).2.2.2.1]
        exact h2

theorem rina_buf_pci_push_len (c : rina_consts) (rb : rina_buf) (pci : rina_pci) :
    (rina_buf_pci_push rb pci).len c = rb.len c + c.sizeof_rina_pci := by
  simp only [rina_buf.len, rina_buf_pci_push, List.length_cons]
  ring

/-- A write at the top of a stack whose lowest instance dispatches with
success: the value returned and the one call of the receive path. -/
theorem rina_normal_sdu_write_stack (c : rina_consts) (hash_min : Nat → Fin PDUFT_HASH_SIZE)
    (env : sdu_env) (lfuel : Nat) (henv : ∀ i b cep, env.rina_sdu_rx i b cep = 0)
    (layers : List (Nat × Nat)) :
    ∀ (l : Nat × Nat) (mem : memory) (rb : rina_buf) (depth : Nat),
      stack hash_min lfuel mem (l :: layers) → layers.length < depth →
      rb.len c + (layers.length + 1) * c.sizeof_rina_pci < 2 ^ 31 →
      ∃ r rbN, rina_normal_sdu_write c hash_min env lfuel depth mem l.1 l.2 rb = some r ∧
        r.ret = rb.len c ∧
        sdu_rx_calls r.events = [((layers.getLastD l).1, rbN)] ∧
        rbN.len c = rb.len c + (layers.length + 1) * c.sizeof_rina_pci ∧
        rbN.data = rb.data ∧ rbN.pci.length = rb.pci.length + (layers.length + 1) := by
  induction layers with
  | nil =>
    intro l mem rb depth hst hd hlen
    obtain ⟨h1, h2, h3⟩ := hst
    obtain ⟨d, rfl⟩ : ∃ d, depth = d + 1 := ⟨depth - 1, by simp at hd; omega⟩
    refine ⟨_, rina_buf_pci_push rb (sdu_write_pci c mem l.1 l.2),
      rina_normal_sdu_write_local c hash_min env lfuel d mem l.1 l.2 rb h1 h2 h3, ?_, rfl, ?_,
      rfl, ?_⟩
    · simp only [henv, if_true]
      apply to_int_of_lt
      simp only [List.length_nil] at hlen
      omega
    · rw [rina_buf_pci_push_len]
      simp
    · simp [rina_buf_pci_push]
  | cons lower rest ih =>
    intro l mem rb depth hst hd hlen
    obtain ⟨h1, h2, h3, h4⟩ := hst
    obtain ⟨d, rfl⟩ : ∃ d, depth = d + 1 := ⟨depth - 1, by simp at hd; omega⟩
    simp only [List.length_cons] at hd hlen
    have hlen1 : (rina_buf_pci_push rb (sdu_write_pci c mem l.1 l.2)).len c
        + (rest.length + 1) * c.sizeof_rina_pci < 2 ^ 31 := by
      rw [rina_buf_pci_push_len]
      have : rb.len c + (rest.length + 1 + 1) * c.sizeof_rina_pci =
          rb.len c + c.sizeof_rina_pci + (rest.length + 1) * c.sizeof_rina_pci := by ring
      omega
    obtain ⟨r, rbN, hr, hret, hcalls, hN, hdata, hpci⟩ :=
      ih lower (seq_num_incr mem l.2) (rina_buf_pci_push rb (sdu_write_pci c mem l.1 l.2)) d
        (stack_seq_num_incr hash_min lfuel mem l.2 _ h4) (by omega) hlen1
    refine ⟨⟨sub_pci_size c r.ret, r.mem,
      .sdu_write lower.1 lower.2 (rina_buf_pci_push rb (sdu_write_pci c mem l.1 l.2))
        :: r.events⟩, rbN, ?_, ?_, ?_, ?_, ?_, ?_⟩
    · rw [rina_normal_sdu_write_normal c hash_min env lfuel d mem l.1 l.2 rb lower.2 lower.1 h1
        h2 h3, hr]
      rfl
    · show sub_pci_size c r.ret = rb.len c
      rw [hret, rina_buf_pci_push_len]
      apply sub_pci_size_count
      have h2 : c.sizeof_rina_pci ≤ (rest.length + 1 + 1) * c.sizeof_rina_pci := by
        nlinarith [Nat.zero_le (rest.length * c.sizeof_rina_pci)]
      omega
    · show sdu_rx_calls (_ :: r.events) = _
      simp only [sdu_rx_calls, hcalls, List.getLastD_cons]
    · rw [hN, rina_buf_pci_push_len, List.length_cons]
      ring
    · rw [hdata]
      rfl
    · rw [hpci, List.length_cons]
      simp only [rina_buf_pci_push, List.length_cons]
      ring

/-- C28: for every stack of N = `layers.length + 1` normal instances (the
forwarding table of each instance but the lowest resolves the flow written on
it to the flow of the next lower instance, the lowest has no entry for the
remote address of its flow, which is its own address, and receives with
`rina_normal_sdu_rx`), when the upward dispatch `rina_sdu_rx` reports success
and the lengths fit an `int`, `rina_normal_sdu_write` at the top on a buffer of
length L returns exactly L; the receive path is called once, on the lowest
instance, with a buffer that has the same payload behind N more headers, of
length L + N * sizeof(struct rina_pci).  When there is a lower layer, its
`sdu_write` reports L + sizeof(struct rina_pci), from which the top subtracts
the one header it added. -/
theorem C28_stacked_write_returns_the_sdu_length (c : rina_consts)
    (hash_min : Nat → Fin PDUFT_HASH_SIZE) (env : sdu_env) (lfuel : Nat)
    (layers : List (Nat × Nat)) (top : Nat × Nat) (mem : memory) (rb : rina_buf) (depth : Nat)
    (hst : stack hash_min lfuel mem (top :: layers))
    (henv : ∀ i b cep, env.rina_sdu_rx i b cep = 0)
    (hdepth : layers.length < depth)
    (hlen : rb.len c + (layers.length + 1) * c.sizeof_rina_pci < 2 ^ 31) :
    (∃ r rbN, rina_normal_sdu_write c hash_min env lfuel depth mem top.1 top.2 rb = some r ∧
      r.ret = rb.len c ∧
      sdu_rx_calls r.events = [((layers.getLastD top).1, rbN)] ∧
      rbN.len c = rb.len c + (layers.length + 1) * c.sizeof_rina_pci ∧
      rbN.data = rb.data ∧ rbN.pci.length = rb.pci.length + (layers.length + 1)) ∧
    (∀ lower rest, layers = lower :: rest →
      ∃ r1, rina_normal_sdu_write c hash_min env lfuel (depth - 1) (seq_num_incr mem top.2)
          lower.1 lower.2 (rina_buf_pci_push rb (sdu_write_pci c mem top.1 top.2)) = some r1 ∧
        r1.ret = rb.len c + c.sizeof_rina_pci ∧
        (rina_normal_sdu_write c hash_min env lfuel depth mem top.1 top.2 rb).map
          sdu_result.ret = some (r1.ret - c.sizeof_rina_pci)) := by
  have hmain := rina_normal_sdu_write_stack c hash_min env lfuel henv layers top mem rb depth hst
    hdepth hlen
  refine ⟨hmain, fun lower rest hl => ?_⟩
  subst hl
  obtain ⟨h1, h2, h3, h4⟩ := hst
  obtain ⟨d, rfl⟩ : ∃ d, depth = d + 1 := ⟨depth - 1, by simp at hdepth; omega⟩
  simp only [List.length_cons] at hdepth hlen
  have hlen1 : (rina_buf_pci_push rb (sdu_write_pci c mem top.1 top.2)).len c
      + (rest.length + 1) * c.sizeof_rina_pci < 2 ^ 31 := by
    rw [rina_buf_pci_push_len]
    have : rb.len c + (rest.length + 1 + 1) * c.sizeof_rina_pci =
        rb.len c + c.sizeof_rina_pci + (rest.length + 1) * c.sizeof_rina_pci := by ring
    omega
  obtain ⟨r1, _, hr1, hret1, _⟩ :=
    rina_normal_sdu_write_stack c hash_min env lfuel henv rest lower (seq_num_incr mem top.2)
      (rina_buf_pci_push rb (sdu_write_pci c mem top.1 top.2)) d
      (stack_seq_num_incr hash_min lfuel mem top.2 _ h4) (by omega) hlen1
  obtain ⟨r, _, hr, hret, _⟩ := hmain
  refine ⟨r1, hr1, ?_, ?_⟩
  · rw [hret1, rina_buf_pci_push_len]
    push_cast
    rfl
  · rw [hr, Option.map_some', hret, hret1, rina_buf_pci_push_len]
    push_cast
    congr 1
    ring

/-- C28 on a stack of two instances of the examples: the instance with address
10, whose forwarding table has flow 3 for destination 20, above the instance
with address 20, which delivers locally.  A write of three bytes at the top
returns 3, and the receive path of the lower instance is handed a buffer of
3 + 2 * 38 = 79 bytes. -/
theorem C28_stacked_write_returns_the_sdu_length_witness :
    stack hash_64 8 mem_stack [(1, 1), (2, 3)] ∧
    ∃ r rbN, rina_normal_sdu_write consts_example hash_64 env_zero 8 2 mem_stack 1 1
        ⟨[], [1, 2, 3]⟩ = some r ∧
      r.ret = 3 ∧ sdu_rx_calls r.events = [(2, rbN)] ∧ rbN.len consts_example = 79 ∧
      rbN.data = [1, 2, 3] ∧ rbN.pci.length = 2 :=
  have hst : stack hash_64 8 mem_stack [(1, 1), (2, 3)] := by decide
  ⟨hst,
    (C28_stacked_write_returns_the_sdu_length consts_example hash_64 env_zero 8 [(2, 3)] (1, 1)
      mem_stack ⟨[], [1, 2, 3]⟩ 2 hst (fun _ _ _ => rfl) (by decide) (by decide)).1⟩

end Normal

/-! ## Creation followed by destruction -/

/-- Clearing a bit that was clear before it was set gives the bitmap back. -/
theorem bitmap_clear_set (map i : Nat) (h : map.testBit i = false) :
    bitmap_clear (bitmap_set map i 1) i 1 = map := by
  apply Nat.eq_of_testBit_eq
  intro j
  rw [testBit_bitmap_clear, testBit_bitmap_set]
  by_cases hj : j = i
  · subst hj
    simp [h]
  · simp [hj]

/-- A valid cursor is not the address of a fresh allocation. -/
theorem cursor_ne_of_fresh (dm : rina_dm) (addr : Nat) (hcur : cursor_valid dm)
    (hfresh : ∀ e ∈ live dm, e.self ≠ addr) : dm.ipcp_fetch_last ≠ some addr := by
  intro h
  obtain ⟨e, he, hs⟩ := hcur addr h
  exact hfresh e he hs

/-- The outcome of `ipcp_add` when the factory is found and both allocations
succeed: the id is what the bitmap search returns, as a `uint16_t`. -/
theorem ipcp_add_allocated (hash_min : Nat → Fin IPCP_HASH_SIZE) (dm : rina_dm)
    (req : rina_msg_ipcp_create) (ipcp_id priv addr : Nat) (factory : ipcp_factory)
    (hfac : ipcp_factories_find dm req.dif_type = some factory) :
    (ipcp_add hash_min dm req ipcp_id (some priv) (some addr)).ret = 0 ∧
    (ipcp_add hash_min dm req ipcp_id (some priv) (some addr)).ipcp_id =
      bitmap_find_next_zero_area dm.ipcp_id_bitmap IPCP_ID_BITMAP_SIZE 0 1 0 % 2 ^ 16 := by
  unfold ipcp_add
  simp only [hfac]
  split <;> exact ⟨rfl, rfl⟩

/-- A return value 0 of `ipcp_add` means that the factory was found and both
allocations succeeded. -/
theorem ipcp_add_ret_zero (hash_min : Nat → Fin IPCP_HASH_SIZE) (dm : rina_dm)
    (req : rina_msg_ipcp_create) (ipcp_id : Nat) (create_ret entry_alloc : Option Nat)
    (h : (ipcp_add hash_min dm req ipcp_id create_ret entry_alloc).ret = 0) :
    ∃ factory priv addr, ipcp_factories_find dm req.dif_type = some factory ∧
      create_ret = some priv ∧ entry_alloc = some addr := by
  unfold ipcp_add at h
  cases hfac : ipcp_factories_find dm req.dif_type with
  | none =>
    rw [hfac] at h
    simp [EINVAL] at h
  | some factory =>
    rw [hfac] at h
    cases create_ret with
    | none => simp [ENOMEM] at h
    | some priv =>
      cases entry_alloc with
      | none => simp [ENOMEM] at h
      | some addr => exact ⟨factory, priv, addr, rfl, rfl, rfl⟩

/-- The function `ipcp_del` on the id that `ipcp_add` has just returned undoes
what `ipcp_add` did to the registry, when the cursor is not the address of the
new entry. -/
theorem ipcp_del_after_add (hash_min : Nat → Fin IPCP_HASH_SIZE) (dm : rina_dm)
    (req : rina_msg_ipcp_create) (ipcp_id priv addr : Nat) (factory : ipcp_factory)
    (hfac : ipcp_factories_find dm req.dif_type = some factory)
    (hcur : dm.ipcp_fetch_last ≠ some addr) :
    (ipcp_del hash_min (ipcp_add hash_min dm req ipcp_id (some priv) (some addr)).dm
      (ipcp_add hash_min dm req ipcp_id (some priv) (some addr)).ipcp_id).dm = dm := by
  rcases bitmap_find_next_zero_area_spec dm.ipcp_id_bitmap IPCP_ID_BITMAP_SIZE with
    ⟨hfull, hset⟩ | ⟨hlt, hclear, hset⟩
  · rw [ipcp_add_full hash_min dm req ipcp_id priv addr factory hfac hset]
    rw [ipcp_del_out_of_range hash_min dm 1025 (by decide)]
  · have hk : bitmap_find_next_zero_area dm.ipcp_id_bitmap IPCP_ID_BITMAP_SIZE 0 1 0 <
        IPCP_ID_BITMAP_SIZE := hlt
    rw [ipcp_add_ok hash_min dm req ipcp_id priv addr _ factory hfac hk hclear hset]
    simp only
    rw [ipcp_del_found hash_min _ _
      { self := addr, id := bitmap_find_next_zero_area dm.ipcp_id_bitmap IPCP_ID_BITMAP_SIZE 0 1 0,
        name := req.name, dif_name := rina_name_zero, dif_type := req.dif_type,
        ops := factory.ops, priv := priv } hk
      (by simp [hash_add])]
    obtain ⟨bm, table, cur, facs⟩ := dm
    simp only [hash_add, Function.update_same, Function.update_idem] at hcur hclear ⊢
    simp only [List.eraseP_cons, beq_self_eq_true, if_true, cond_true, Function.update_eq_self,
      bitmap_clear_set _ _ hclear, if_neg hcur]

/-- C31: whenever `ipcp_add` returns 0 and the cursor is not the address that
`kmalloc` has just returned for the new entry (as is the case when the cursor
is NULL or references a live entry and the allocator returns an address that no
live entry has), `ipcp_del` on the id that `ipcp_add` stored in `*ipcp_id`
gives back the registry as it was before the creation: the same bitmap, the
same table with every bucket in the same order, the same cursor and the same
factories.  A creation that follows and returns 0 therefore stores the same id
again.  The same holds for the handlers: `rina_ipcp_create` either returns
nonzero with the registry as before (its error paths call `ipcp_del`) or
returns 0, and then `rina_ipcp_destroy` for that id, once its response is
allocated, gives back the registry as it was. -/
theorem C31_destroy_after_create_restores_the_registry (hash_min : Nat → Fin IPCP_HASH_SIZE)
    (serialize_rina_msg : rina_msg → List Nat) (dm : rina_dm) (req : rina_msg_ipcp_create)
    (ipcp_id : Nat) (create_ret entry_alloc : Option Nat)
    (hok : (ipcp_add hash_min dm req ipcp_id create_ret entry_alloc).ret = 0)
    (hcur : ∀ addr, entry_alloc = some addr → dm.ipcp_fetch_last ≠ some addr) :
    (ipcp_del hash_min (ipcp_add hash_min dm req ipcp_id create_ret entry_alloc).dm
      (ipcp_add hash_min dm req ipcp_id create_ret entry_alloc).ipcp_id).dm = dm ∧
    live (ipcp_del hash_min (ipcp_add hash_min dm req ipcp_id create_ret entry_alloc).dm
      (ipcp_add hash_min dm req ipcp_id create_ret entry_alloc).ipcp_id).dm = live dm ∧
    (∀ req2 i2 create_ret2 entry_alloc2,
      (ipcp_add hash_min
        (ipcp_del hash_min (ipcp_add hash_min dm req ipcp_id create_ret entry_alloc).dm
          (ipcp_add hash_min dm req ipcp_id create_ret entry_alloc).ipcp_id).dm
        req2 i2 create_ret2 entry_alloc2).ret = 0 →
      (ipcp_add hash_min
        (ipcp_del hash_min (ipcp_add hash_min dm req ipcp_id create_ret entry_alloc).dm
          (ipcp_add hash_min dm req ipcp_id create_ret entry_alloc).ipcp_id).dm
        req2 i2 create_ret2 entry_alloc2).ipcp_id =
        (ipcp_add hash_min dm req ipcp_id create_ret entry_alloc).ipcp_id) ∧
    (∀ (rc : rina_ctrl) (resp_ok entry_ok serbuf_ok : Bool),
      ((rina_ipcp_create hash_min serialize_rina_msg rc dm req ipcp_id create_ret entry_alloc
          resp_ok entry_ok serbuf_ok).ret ≠ 0 →
        (rina_ipcp_create hash_min serialize_rina_msg rc dm req ipcp_id create_ret entry_alloc
          resp_ok entry_ok serbuf_ok).dm = dm) ∧
      ((rina_ipcp_create hash_min serialize_rina_msg rc dm req ipcp_id create_ret entry_alloc
          resp_ok entry_ok serbuf_ok).ret = 0 →
        ∀ (rc2 : rina_ctrl) (dreq : rina_msg_ipcp_destroy) (entry_ok2 serbuf_ok2 : Bool),
          dreq.ipcp_id = (ipcp_add hash_min dm req ipcp_id create_ret entry_alloc).ipcp_id →
          (rina_ipcp_destroy hash_min serialize_rina_msg rc2
            (rina_ipcp_create hash_min serialize_rina_msg rc dm req ipcp_id create_ret
              entry_alloc resp_ok entry_ok serbuf_ok).dm dreq true entry_ok2 serbuf_ok2).dm
            = dm)) := by
  obtain ⟨factory, priv, addr, hfac, rfl, rfl⟩ :=
    ipcp_add_ret_zero hash_min dm req ipcp_id create_ret entry_alloc hok
  have hdel := ipcp_del_after_add hash_min dm req ipcp_id priv addr factory hfac (hcur addr rfl)
  refine ⟨hdel, by rw [hdel], fun req2 i2 create_ret2 entry_alloc2 h2 => ?_,
    fun rc resp_ok entry_ok serbuf_ok => ⟨fun hne => ?_, fun h0 rc2 dreq entry_ok2 serbuf_ok2 hid => ?_⟩⟩
  · rw [hdel] at h2 ⊢
    obtain ⟨factory2, priv2, addr2, hfac2, rfl, rfl⟩ :=
      ipcp_add_ret_zero hash_min dm req2 i2 create_ret2 entry_alloc2 h2
    rw [(ipcp_add_allocated hash_min dm req2 i2 priv2 addr2 factory2 hfac2).2,
      (ipcp_add_allocated hash_min dm req ipcp_id priv addr factory hfac).2]
  · unfold rina_ipcp_create at hne ⊢
    simp only [hok, ne_eq, not_true_eq_false, if_false] at hne ⊢
    split_ifs at hne ⊢ <;> first | exact hdel | exact absurd rfl hne
  · have hdm : (rina_ipcp_create hash_min serialize_rina_msg rc dm req ipcp_id (some priv)
        (some addr) resp_ok entry_ok serbuf_ok).dm =
        (ipcp_add hash_min dm req ipcp_id (some priv) (some addr)).dm := by
      unfold rina_ipcp_create at h0 ⊢
      simp only [hok, ne_eq, not_true_eq_false, if_false] at h0 ⊢
      split_ifs at h0 ⊢ <;> first | rfl | exact absurd h0 (by assumption) | simp [ENOMEM] at h0
    rw [hdm]
    unfold rina_ipcp_destroy
    simp only [Bool.not_true, Bool.false_eq_true, if_false, hid]
    split_ifs <;> exact hdel

/-- C31 on the registry with two IPC processes (ids 0 and 1) whose cursor
references the first of them: the creation stores id 2, the destruction of 2
gives the registry back, cursor included. -/
theorem C31_destroy_after_create_restores_the_registry_witness :
    (ipcp_add hash_32 dm_two_fetched (create_req 7 "b.IPC") 0 (some 0x2000)
      (some 0x3000)).ret = 0 ∧
    (ipcp_add hash_32 dm_two_fetched (create_req 7 "b.IPC") 0 (some 0x2000)
      (some 0x3000)).ipcp_id = 2 ∧
    dm_two_fetched.ipcp_fetch_last = some 0x100000 ∧
    (ipcp_del hash_32
      (ipcp_add hash_32 dm_two_fetched (create_req 7 "b.IPC") 0 (some 0x2000) (some 0x3000)).dm
      (ipcp_add hash_32 dm_two_fetched (create_req 7 "b.IPC") 0 (some 0x2000)
        (some 0x3000)).ipcp_id).dm = dm_two_fetched :=
  have hok : (ipcp_add hash_32 dm_two_fetched (create_req 7 "b.IPC") 0 (some 0x2000)
      (some 0x3000)).ret = 0 := by decide
  ⟨hok, by decide, by decide,
    (C31_destroy_after_create_restores_the_registry hash_32 header_codec dm_two_fetched
      (create_req 7 "b.IPC") 0 (some 0x2000) (some 0x3000) hok
      (fun addr h => by cases h; decide)).1⟩

end Rlite
